import Mathlib

/-!
# Relay settlement of the pairing module

A shallow embedding of `RelayPayment`
(`x/pairing/keeper/msg_server_relay_payment.go`) and theorems about it.

The handler is a loop over the relays of a message.  Everything it calls on
the keepers (spec keeper, epoch storage, user keeper, bank keeper), on the
signature package and on the address codec lives outside this file of the
repository; those calls are the fields of `Keeper`, and the chain state they
read and write is the type parameter `σ`, threaded explicitly.  Every call
that writes, logs or emits is also appended to a trace of `Call`s, so that
"this relay was never burned, minted or transferred" is a statement about the
trace.

Later sections embed the pairing computation, the argument validator of the
`rpcprovider` command (`protocol/rpcprovider/rpcprovider.go`), the helpers of
the plans command line (`x/plans/client/utils/utils.go`) and the geolocation
check of the pairing tests (`x/pairing/keeper/pairing_test.go`).
-/

namespace Lava

/-! ## Data -/

/-- An account address (`sdk.AccAddress`, a byte slice). -/
abbrev AccAddress := List Nat

/-- One coin: `sdk.Coin`. -/
structure Coin where
  Denom : String
  Amount : Nat
deriving DecidableEq, Repr

/-- A coin list: `sdk.Coins`. -/
abbrev Coins := List Coin

/-- Rendering of a coin, `Coin.String()`: the amount followed by the denomination. -/
def Coin.String (c : Coin) : String := toString c.Amount ++ c.Denom

/-- Rendering of a coin list, `Coins.String()`: the coins separated by commas. -/
def Coins.String (cs : Coins) : String := ",".intercalate (cs.map Coin.String)

/-- The fields of `types.RelayRequest` that `RelayPayment` reads.  `Sig` is a
byte string, `BlockHeight` is an `int64`, the other numbers are unsigned. -/
structure RelayRequest where
  Sig : String
  Provider : String
  ChainID : Nat
  BlockHeight : Int
  CuSum : Nat
  SessionId : Nat
  EpochId : Nat
deriving DecidableEq, Repr

/-- The message handled: `types.MsgRelayPayment`. -/
structure MsgRelayPayment where
  Creator : String
  Relays : List RelayRequest
deriving DecidableEq, Repr

/-- The one field of a chain spec that is read: its name. -/
structure Spec where
  Name : String
deriving DecidableEq, Repr

/-- The conversion `uint64(x)` of an `int64`. -/
def uint64 (x : Int) : Nat := (x % 2 ^ 64).toNat

/-- Base-sixteen rendering, `strconv.FormatUint(x, 16)`. -/
def FormatUint16 (x : Nat) : String := String.mk (Nat.toDigits 16 x)

/-- Base-ten rendering, `strconv.FormatUint(x, 10)` and `fmt.Sprintf("%d", x)`. -/
def FormatUint10 (x : Nat) : String := String.mk (Nat.toDigits 10 x)

/-- Rendering of a boolean, `fmt.Sprintf("%t", b)`. -/
def FormatBool (b : Bool) : String := if b then "true" else "false"

/-- A `map[string]string` of log attributes, in the order the keys were written. -/
abbrev Attrs := List (String × String)

/-- The assignment `m[key] = val`. -/
def Attrs.set (m : Attrs) (key val : String) : Attrs :=
  if m.any (fun p => p.1 == key) then
    m.map (fun p => if p.1 == key then (key, val) else p)
  else m ++ [(key, val)]

/-- An error value handed back by `RelayPayment`: either the one from decoding
the creator, or the one built by `utils.LavaError` from a name, the attributes
and a description. -/
inductive Err where
  | sdk (msg : String)
  | lava (name : String) (attrs : Attrs) (description : String)
deriving DecidableEq, Repr

/-- The calls of `RelayPayment` that write state, log or emit, with their arguments. -/
inductive Call where
  | AddEpochPayment (epoch : Nat) (client provider : AccAddress) (usedCU : Nat)
      (uniqueIdentifier : String)
  | BurnClientStake (specName : String) (client : AccAddress) (amount : Coin) (failBurn : Bool)
  | MintCoins (moduleName : String) (amt : Coins)
  | SendCoinsFromModuleToAccount (moduleName : String) (recipient : AccAddress) (amt : Coins)
  | LavaError (name : String) (attrs : Attrs) (description : String)
  | LogLavaEvent (name : String) (attrs : Attrs) (description : String)
deriving DecidableEq, Repr

/-- Is the call a burn of client stake? -/
def Call.isBurn : Call → Bool
  | .BurnClientStake _ _ _ _ => true
  | _ => false

/-- Is the call a mint? -/
def Call.isMint : Call → Bool
  | .MintCoins _ _ => true
  | _ => false

/-- Is the call a transfer out of the module account? -/
def Call.isSend : Call → Bool
  | .SendCoinsFromModuleToAccount _ _ _ => true
  | _ => false

/-- Is the call an update of the epoch payments? -/
def Call.isAddEpochPayment : Call → Bool
  | .AddEpochPayment _ _ _ _ _ => true
  | _ => false

/-- Is the call an emitted event? -/
def Call.isEvent : Call → Bool
  | .LogLavaEvent _ _ _ => true
  | _ => false

/-- Does the call move tokens (burn, mint or transfer)? -/
def Call.movesTokens (c : Call) : Bool := c.isBurn || c.isMint || c.isSend

/-! ## What the handler calls -/

/-- The collaborators of `RelayPayment`.  `σ` is the chain state behind `ctx`,
`Stake` the client stake entry returned by pairing validation, `Rate` the type
of the two per-CU rates (`float64` in the source).

* `RecoverPubKeyFromRelay` stands for `sigs.RecoverPubKeyFromRelay(relay)`
  followed by `pubKey.Address().String()`, the only use made of the key.
* `AddrString` is `AccAddress.String()`.
* `Scale cu rate` is `uint64(float64(cu) * rate)`.
* `ModuleName` is the constant `types.ModuleName`.
* The queries (`IsSpecFoundAndActive`, `GetSpec`, `ValidatePairingForClient`,
  the two epoch starts, `EnforceUserCUsUsageInEpoch`, the two rates) read the
  state; the calls that write (`AddEpochPayment`, `BurnClientStake`,
  `MintCoins`, `SendCoinsFromModuleToAccount`) return the state they leave
  behind, also when they fail. -/
structure Keeper (σ Stake Rate : Type) where
  AccAddressFromBech32 : String → Except String AccAddress
  AccAddressFromHex : String → Except String AccAddress
  AddrString : AccAddress → String
  RecoverPubKeyFromRelay : RelayRequest → Except String String
  IsSpecFoundAndActive : σ → Nat → Bool
  GetSpec : σ → Nat → Option Spec
  ValidatePairingForClient :
    σ → Nat → AccAddress → AccAddress → Nat → Except String (Bool × Bool × Stake)
  GetEpochStartForBlock : σ → Nat → Nat
  GetPreviousEpochStartForBlock : σ → Nat → Nat
  AddEpochPayment :
    σ → Nat → AccAddress → AccAddress → Nat → String → Except String Nat × σ
  EnforceUserCUsUsageInEpoch : σ → Stake → Nat → Option String
  MintCoinsPerCU : σ → Rate
  GetCoinsPerCU : σ → Rate
  Scale : Nat → Rate → Nat
  BurnClientStake : σ → String → AccAddress → Coin → Bool → (Bool × Option String) × σ
  ModuleName : String
  MintCoins : σ → String → Coins → Option String × σ
  SendCoinsFromModuleToAccount : σ → String → AccAddress → Coins → Option String × σ

/-- How one pass through the loop body ends. -/
inductive Flow where
  | next
  | fail (e : Err)
  | panic (msg : String)
deriving DecidableEq, Repr

/-- The state, the calls made and the exit of one pass through the loop body. -/
structure RelayRun (σ : Type) where
  state : σ
  trace : List Call
  flow : Flow

/-- How `RelayPayment` ends: with the (empty) response, with an error, or in a panic. -/
inductive Outcome where
  | response
  | error (e : Err)
  | panic (msg : String)
deriving DecidableEq, Repr

/-- The description of the error returned, when one built by `utils.LavaError` is. -/
def Outcome.description : Outcome → Option String
  | .error (.lava _ _ d) => some d
  | _ => none

/-- Did the handler return an error? -/
def Outcome.isError : Outcome → Bool
  | .error _ => true
  | _ => false

/-- Did the handler panic? -/
def Outcome.isPanic : Outcome → Bool
  | .panic _ => true
  | _ => false

/-- The state, the calls made and the exit of a whole `RelayPayment`. -/
structure Result (σ : Type) where
  state : σ
  trace : List Call
  outcome : Outcome

variable {σ Stake Rate : Type}

/-- The closure `errorLogAndFormat`: log through `utils.LavaError` and return its error. -/
def errorLogAndFormat (s : σ) (t : List Call) (name : String) (attrs : Attrs)
    (details : String) : RelayRun σ :=
  { state := s
    trace := t ++ [Call.LavaError name attrs details]
    flow := Flow.fail (Err.lava name attrs details) }

/-- The pass of the loop body of `RelayPayment` over one relay, from state `s`.
`msgCreator` is `msg.Creator`, `creator` its decoded address. -/
def relayPaymentBody (k : Keeper σ Stake Rate) (msgCreator : String) (creator : AccAddress)
    (relay : RelayRequest) (s : σ) : RelayRun σ :=
  match k.RecoverPubKeyFromRelay relay with
  | .error _ =>
    errorLogAndFormat s [] "relay_proof_sig" [("sig", relay.Sig)]
      "recover PubKey from relay failed"
  | .ok pubKeyAddress =>
  match k.AccAddressFromHex pubKeyAddress with
  | .error _ =>
    errorLogAndFormat s [] "relay_proof_user_addr" [("user", pubKeyAddress)]
      "invalid user address in relay msg"
  | .ok clientAddr =>
  match k.AccAddressFromBech32 relay.Provider with
  | .error _ =>
    errorLogAndFormat s [] "relay_proof_addr"
      [("provider", relay.Provider), ("creator", msgCreator)]
      "invalid servicer address in relay msg"
  | .ok providerAddr =>
  if providerAddr ≠ creator then
    errorLogAndFormat s [] "relay_proof_addr"
      [("provider", relay.Provider), ("creator", msgCreator)]
      "invalid servicer address in relay msg, creator and signed servicer mismatch"
  else
  if k.IsSpecFoundAndActive s relay.ChainID = false then
    errorLogAndFormat s [] "relay_proof_spec" [("chainID", FormatUint10 relay.ChainID)]
      "invalid spec ID specified in proof"
  else
  match k.ValidatePairingForClient s relay.ChainID clientAddr providerAddr
      (uint64 relay.BlockHeight) with
  | .error err =>
    errorLogAndFormat s [] "relay_proof_pairing"
      [("client", k.AddrString clientAddr), ("provider", k.AddrString providerAddr),
       ("error", err)]
      "invalid pairing on proof of relay"
  | .ok (isValidPairing, isOverlap, userStake) =>
  let epochStart := k.GetEpochStartForBlock s (uint64 relay.BlockHeight)
  let epochStart :=
    if isOverlap then k.GetPreviousEpochStartForBlock s (uint64 relay.BlockHeight)
    else epochStart
  let added := k.AddEpochPayment s epochStart clientAddr providerAddr relay.CuSum
    (FormatUint16 relay.SessionId)
  let s1 := added.2
  let t1 := [Call.AddEpochPayment epochStart clientAddr providerAddr relay.CuSum
    (FormatUint16 relay.SessionId)]
  match added.1 with
  | .error err =>
    errorLogAndFormat s1 t1 "relay_proof_claim"
      [("session", FormatUint10 epochStart), ("client", k.AddrString clientAddr),
       ("provider", k.AddrString providerAddr), ("error", err),
       ("unique_ID", FormatUint16 relay.EpochId)]
      "double spending detected"
  | .ok totalCUInEpochForUser =>
  match k.EnforceUserCUsUsageInEpoch s1 userStake totalCUInEpochForUser with
  | some err =>
    errorLogAndFormat s1 t1 "relay_proof_user_limit"
      [("session", FormatUint10 epochStart), ("client", k.AddrString clientAddr),
       ("provider", k.AddrString providerAddr), ("error", err),
       ("CU", FormatUint10 relay.CuSum),
       ("totalCUInEpoch", FormatUint10 totalCUInEpochForUser)]
      "user bypassed CU limit"
  | none =>
  if isValidPairing then
    let uintReward := k.Scale relay.CuSum (k.MintCoinsPerCU s1)
    if uintReward = 0 then
      { state := s1, trace := t1, flow := Flow.next }
    else
    let rewardCoins : Coins := [{ Denom := "stake", Amount := uintReward }]
    let details : Attrs :=
      [("chainID", FormatUint10 relay.ChainID), ("client", k.AddrString clientAddr),
       ("provider", k.AddrString providerAddr), ("CU", FormatUint10 relay.CuSum),
       ("Mint", Coins.String rewardCoins),
       ("totalCUInEpoch", FormatUint10 totalCUInEpochForUser),
       ("isOverlap", FormatBool isOverlap)]
    let amountToBurnClient := k.Scale relay.CuSum (k.GetCoinsPerCU s1)
    match k.GetSpec s1 relay.ChainID with
    | none =>
      let details := details.set "chainID" (FormatUint10 relay.ChainID)
      { state := s1
        trace := t1 ++ [Call.LavaError "relay_proof_spec" details
          "failed to get spec for chain ID"]
        flow := Flow.panic ("failed to get spec for index: " ++ FormatUint10 relay.ChainID) }
    | some spec =>
    let burnAmount : Coin := { Amount := amountToBurnClient, Denom := "stake" }
    let burned := k.BurnClientStake s1 spec.Name clientAddr burnAmount false
    let s2 := burned.2
    let t2 := t1 ++ [Call.BurnClientStake spec.Name clientAddr burnAmount false]
    match burned.1 with
    | (_, some err2) =>
      let details := (details.set "amountToBurn" burnAmount.String).set "error" err2
      errorLogAndFormat s2 t2 "relay_proof_burn" details "BurnUserStake failed on user"
    | (false, none) =>
      let details := (details.set "amountToBurn" burnAmount.String).set "error"
        "insufficient funds or didn't find user"
      errorLogAndFormat s2 t2 "relay_proof_burn" details
        "BurnUserStake failed on user, did not find user, or insufficient funds"
    | (true, none) =>
    let minted := k.MintCoins s2 k.ModuleName rewardCoins
    let s3 := minted.2
    let t3 := t2 ++ [Call.MintCoins k.ModuleName rewardCoins]
    match minted.1 with
    | some err =>
      let details := details.set "error" err
      { state := s3
        trace := t3 ++ [Call.LavaError "relay_payment" details "MintCoins Failed,"]
        flow := Flow.panic ("module failed to mint coins to give to servicer: " ++ err) }
    | none =>
    let sent := k.SendCoinsFromModuleToAccount s3 k.ModuleName providerAddr rewardCoins
    let s4 := sent.2
    let t4 := t3 ++ [Call.SendCoinsFromModuleToAccount k.ModuleName providerAddr rewardCoins]
    match sent.1 with
    | some err =>
      let details := details.set "error" err
      { state := s4
        trace := t4 ++ [Call.LavaError "relay_payment" details
          "SendCoinsFromModuleToAccount Failed,"]
        flow := Flow.panic ("failed to transfer minted new coins to servicer, " ++ err ++
          " account: " ++ k.AddrString providerAddr) }
    | none =>
    let details := details.set "clientFee" burnAmount.String
    { state := s4
      trace := t4 ++ [Call.LogLavaEvent "relay_payment" details
        "New Proof Of Work Was Accepted"]
      flow := Flow.next }
  else
    errorLogAndFormat s1 t1 "relay_proof_pairing"
      [("client", k.AddrString clientAddr), ("provider", k.AddrString providerAddr),
       ("error", "pairing result doesn't include servicer")]
      "invalid pairing claim on proof of relay"

/-- The loop `for _, relay := range msg.Relays`: run the body over the relays in
order from state `s`, with `t` the calls made so far; the first pass that does
not fall through to the next relay ends the handler. -/
def relayPaymentLoop (k : Keeper σ Stake Rate) (msgCreator : String) (creator : AccAddress) :
    List RelayRequest → σ → List Call → Result σ
  | [], s, t => { state := s, trace := t, outcome := Outcome.response }
  | relay :: rest, s, t =>
    let run := relayPaymentBody k msgCreator creator relay s
    match run.flow with
    | Flow.next => relayPaymentLoop k msgCreator creator rest run.state (t ++ run.trace)
    | Flow.fail e => { state := run.state, trace := t ++ run.trace, outcome := Outcome.error e }
    | Flow.panic m => { state := run.state, trace := t ++ run.trace, outcome := Outcome.panic m }

/-- The handler `RelayPayment`, run on message `msg` from state `s`. -/
def RelayPayment (k : Keeper σ Stake Rate) (msg : MsgRelayPayment) (s : σ) : Result σ :=
  match k.AccAddressFromBech32 msg.Creator with
  | .error err => { state := s, trace := [], outcome := Outcome.error (Err.sdk err) }
  | .ok creator => relayPaymentLoop k msg.Creator creator msg.Relays s []

/-! ## Reading a run

Names for the values the handler computes for one relay, and for how far a
relay gets, used to state what a run does. -/

/-- The description of the error a pass of the loop body fails with, when one
built by `utils.LavaError` is. -/
def Flow.description : Flow → Option String
  | .fail (.lava _ _ d) => some d
  | _ => none

/-- Relay `relay` of the batch `msg` is reached in state `s` with calls `t`
made so far: the creator decodes to `creator`, the relays are
`pre ++ relay :: post`, and the loop over `pre` from `s0` fell through every
relay, ending in `s` after the calls `t`. -/
def Reaches (k : Keeper σ Stake Rate) (msg : MsgRelayPayment) (s0 : σ) (creator : AccAddress)
    (pre : List RelayRequest) (relay : RelayRequest) (post : List RelayRequest)
    (s : σ) (t : List Call) : Prop :=
  k.AccAddressFromBech32 msg.Creator = .ok creator ∧
  msg.Relays = pre ++ relay :: post ∧
  (relayPaymentLoop k msg.Creator creator pre s0 []).state = s ∧
  (relayPaymentLoop k msg.Creator creator pre s0 []).trace = t ∧
  (relayPaymentLoop k msg.Creator creator pre s0 []).outcome = Outcome.response

/-- The epoch a relay is recorded under (lines 62 to 65 of the handler). -/
def epochStartFor (k : Keeper σ Stake Rate) (s : σ) (relay : RelayRequest)
    (isOverlap : Bool) : Nat :=
  if isOverlap then k.GetPreviousEpochStartForBlock s (uint64 relay.BlockHeight)
  else k.GetEpochStartForBlock s (uint64 relay.BlockHeight)

/-- The relay gets as far as pairing validation in state `s`: its signer is
recovered and decodes to `client`, its provider decodes to the creator, its
chain is found and active, and pairing validation returns without an error. -/
def Validated (k : Keeper σ Stake Rate) (creator : AccAddress) (relay : RelayRequest) (s : σ)
    (client : AccAddress) (isValidPairing isOverlap : Bool) (userStake : Stake) : Prop :=
  ∃ pubKeyAddress,
    k.RecoverPubKeyFromRelay relay = .ok pubKeyAddress ∧
    k.AccAddressFromHex pubKeyAddress = .ok client ∧
    k.AccAddressFromBech32 relay.Provider = .ok creator ∧
    k.IsSpecFoundAndActive s relay.ChainID = true ∧
    k.ValidatePairingForClient s relay.ChainID client creator (uint64 relay.BlockHeight)
      = .ok (isValidPairing, isOverlap, userStake)

/-- The relay gets as far as the call of pairing validation in state `s`: its
signer is recovered and decodes to `client`, its provider decodes to the
creator, and its chain is found and active. -/
def ReachesPairing (k : Keeper σ Stake Rate) (creator : AccAddress) (relay : RelayRequest)
    (s : σ) (client : AccAddress) : Prop :=
  ∃ pubKeyAddress,
    k.RecoverPubKeyFromRelay relay = .ok pubKeyAddress ∧
    k.AccAddressFromHex pubKeyAddress = .ok client ∧
    k.AccAddressFromBech32 relay.Provider = .ok creator ∧
    k.IsSpecFoundAndActive s relay.ChainID = true

/-- The coins minted for a relay and sent to its provider (`rewardCoins`),
computed in the state `s1` left by the epoch payment. -/
def rewardCoinsFor (k : Keeper σ Stake Rate) (s1 : σ) (relay : RelayRequest) : Coins :=
  [{ Denom := "stake", Amount := k.Scale relay.CuSum (k.MintCoinsPerCU s1) }]

/-- The coin burned from the client of a relay (`burnAmount`), computed in the
state `s1` left by the epoch payment. -/
def burnAmountFor (k : Keeper σ Stake Rate) (s1 : σ) (relay : RelayRequest) : Coin :=
  { Amount := k.Scale relay.CuSum (k.GetCoinsPerCU s1), Denom := "stake" }

/-- The attributes `details` built on line 90 for a relay that is to be paid. -/
def paymentDetails (k : Keeper σ Stake Rate) (s1 : σ) (relay : RelayRequest)
    (client provider : AccAddress) (totalCUInEpochForUser : Nat) (isOverlap : Bool) : Attrs :=
  [("chainID", FormatUint10 relay.ChainID), ("client", k.AddrString client),
   ("provider", k.AddrString provider), ("CU", FormatUint10 relay.CuSum),
   ("Mint", Coins.String (rewardCoinsFor k s1 relay)),
   ("totalCUInEpoch", FormatUint10 totalCUInEpochForUser),
   ("isOverlap", FormatBool isOverlap)]

/-- The record of the call to `AddEpochPayment` made for a relay. -/
def addCall (k : Keeper σ Stake Rate) (s : σ) (relay : RelayRequest)
    (client provider : AccAddress) (isOverlap : Bool) : Call :=
  Call.AddEpochPayment (epochStartFor k s relay isOverlap) client provider relay.CuSum
    (FormatUint16 relay.SessionId)

/-- The record of the call to `BurnClientStake` made for a relay. -/
def burnCall (k : Keeper σ Stake Rate) (s1 : σ) (relay : RelayRequest) (client : AccAddress)
    (spec : Spec) : Call :=
  Call.BurnClientStake spec.Name client (burnAmountFor k s1 relay) false

/-- The record of the call to `MintCoins` made for a relay. -/
def mintCall (k : Keeper σ Stake Rate) (s1 : σ) (relay : RelayRequest) : Call :=
  Call.MintCoins k.ModuleName (rewardCoinsFor k s1 relay)

/-- The record of the call to `SendCoinsFromModuleToAccount` made for a relay. -/
def sendCall (k : Keeper σ Stake Rate) (s1 : σ) (relay : RelayRequest)
    (provider : AccAddress) : Call :=
  Call.SendCoinsFromModuleToAccount k.ModuleName provider (rewardCoinsFor k s1 relay)

/-- A relay gets as far as the client burn: it is validated with a valid
pairing in state `s`, its epoch payment is accepted and leaves state `s1` and
the total `total`, the CU limit is not enforced against it, its reward is not
zero and the spec of its chain is found. -/
def ReadyToBurn (k : Keeper σ Stake Rate) (creator : AccAddress) (relay : RelayRequest)
    (s : σ) (client : AccAddress) (isOverlap : Bool) (total : Nat) (s1 : σ) (spec : Spec) :
    Prop :=
  ∃ userStake,
    Validated k creator relay s client true isOverlap userStake ∧
    k.AddEpochPayment s (epochStartFor k s relay isOverlap) client creator relay.CuSum
      (FormatUint16 relay.SessionId) = (.ok total, s1) ∧
    k.EnforceUserCUsUsageInEpoch s1 userStake total = none ∧
    k.Scale relay.CuSum (k.MintCoinsPerCU s1) ≠ 0 ∧
    k.GetSpec s1 relay.ChainID = some spec

/-- The description of the error a relay outside the pairing is rejected with,
once pairing validation has returned `isValidPairing = false` without an
error: the epoch payment and the CU limit are gone through first (lines 67 to
78), the pairing flag is looked at after them (lines 80 and 131 to 133). -/
def rejectionOutsidePairing (k : Keeper σ Stake Rate) (creator : AccAddress)
    (relay : RelayRequest) (s : σ) (client : AccAddress) (isOverlap : Bool)
    (userStake : Stake) : String :=
  match k.AddEpochPayment s (epochStartFor k s relay isOverlap) client creator relay.CuSum
      (FormatUint16 relay.SessionId) with
  | (.error _, _) => "double spending detected"
  | (.ok total, s1) =>
    match k.EnforceUserCUsUsageInEpoch s1 userStake total with
    | some _ => "user bypassed CU limit"
    | none => "invalid pairing claim on proof of relay"

/-- Every mint in the calls `tr` comes right after a burn of client stake;
`prev` is the call made just before `tr`, if any. -/
def burnPrecedesMint : Option Call → List Call → Bool
  | _, [] => true
  | prev, c :: rest =>
    (!c.isMint || (prev.map Call.isBurn).getD false) && burnPrecedesMint (some c) rest

/-- A sequence of calls of the handler, each from the state the call before it
left behind, whatever its outcome: the handler undoes none of its writes when
it returns an error.  The results of the calls, in order. -/
def RelayPayments (k : Keeper σ Stake Rate) : List MsgRelayPayment → σ → List (Result σ)
  | [], _ => []
  | msg :: rest, s =>
    RelayPayment k msg s :: RelayPayments k rest (RelayPayment k msg s).state

/-! ## The float64 arithmetic of the amounts

The reward and the burn are `uint64(float64(relay.CuSum) * rate)` with a rate
of type `float64`.  A finite float64 that is not negative is a significand
below `2 ^ 53` times a power of two; every operation rounds its exact result
to 53 significant bits, to the nearest such number and on a tie to the one
with the even significand.  Rates are taken to be finite and not negative.
Results below the smallest normal number are rounded more coarsely by the
machine, but they are below one before and after rounding, and so is what
this model makes of them: the integer part is the same. -/

/-- The number of low bits to drop from `n` so that fewer than `2 ^ 53` remain;
`fuel` bounds the search (`n` itself is enough). -/
def dropBits : Nat → Nat → Nat
  | 0, _ => 0
  | fuel + 1, n => if n < 2 ^ 53 then 0 else dropBits fuel (n / 2) + 1

/-- Rounding of a natural number to 53 significant bits, to nearest and on a
tie to even: the number itself below `2 ^ 53`. -/
def roundSignificand (n : Nat) : Nat :=
  let shift := dropBits n n
  let q := n / 2 ^ shift
  let r := n % 2 ^ shift
  if 2 * r < 2 ^ shift then q * 2 ^ shift
  else if 2 * r = 2 ^ shift ∧ q % 2 = 0 then q * 2 ^ shift
  else (q + 1) * 2 ^ shift

/-- A finite float64 that is not negative: the number `mant * 2 ^ exp`. -/
structure Float64 where
  mant : Nat
  exp : Int
deriving DecidableEq, Repr

/-- The conversion `float64(n)` of an unsigned integer. -/
def Float64.ofUint64 (n : Nat) : Float64 := { mant := roundSignificand n, exp := 0 }

/-- The product `x * y` of two float64. -/
def Float64.mul (x y : Float64) : Float64 :=
  { mant := roundSignificand (x.mant * y.mant), exp := x.exp + y.exp }

/-- The integer part of a float64. -/
def Float64.trunc (x : Float64) : Nat :=
  if 0 ≤ x.exp then x.mant * 2 ^ x.exp.toNat else x.mant / 2 ^ (-x.exp).toNat

/-- The conversion `uint64(x)`: the integer part, when it is below `2 ^ 64`.
For larger values Go leaves the result to the implementation: `overflow`. -/
def Float64.toUint64 (overflow : Nat) (x : Float64) : Nat :=
  if x.trunc < 2 ^ 64 then x.trunc else overflow

/-- The amount `uint64(float64(cu) * rate)` of lines 82 and 93. -/
def scaleFloat64 (overflow : Nat) (cu : Nat) (rate : Float64) : Nat :=
  ((Float64.ofUint64 cu).mul rate).toUint64 overflow

/-! ## An in-memory keeper

A concrete, executable `Keeper`, used to evaluate the handler on explicit
messages.  Its epoch payments follow the specification of the settlement
step; the rest is the least that lets every branch of the handler be taken. -/

/-- One recorded payment: the row key and the CU added under it. -/
structure Payment where
  epoch : Nat
  client : AccAddress
  provider : AccAddress
  uniqueIdentifier : String
  usedCU : Nat
deriving DecidableEq, Repr

/-- The state of the in-memory keeper. -/
structure MemState where
  /-- chains found and active -/
  activeSpecs : List Nat
  /-- chain specs by chain id -/
  specs : List (Nat × Spec)
  /-- blocks per epoch -/
  epochBlocks : Nat
  /-- blocks after an epoch start during which the previous epoch is still served -/
  overlapBlocks : Nat
  /-- staked clients, each with its epoch CU limit -/
  clients : List (AccAddress × Nat)
  /-- the pairing: chain, client, provider -/
  pairings : List (Nat × AccAddress × AccAddress)
  /-- the epoch payments recorded so far, oldest first -/
  payments : List Payment
  /-- client stake that can be burned -/
  stakes : List (AccAddress × Nat)
  /-- rate used for the reward -/
  mintCoinsPerCU : Nat
  /-- rate used for the client burn -/
  coinsPerCU : Nat
  /-- whether the module account may mint -/
  minter : Bool
  /-- coins held by the module account -/
  moduleBalance : Nat
  /-- addresses the bank refuses to pay -/
  blocked : List AccAddress
  /-- coins held by accounts -/
  balances : List (AccAddress × Nat)
deriving DecidableEq, Repr

/-- The CU recorded under one `(epoch, client, provider)`. -/
def MemState.recordedCU (s : MemState) (epoch : Nat) (client provider : AccAddress) : Nat :=
  ((s.payments.filter (fun p =>
    p.epoch = epoch ∧ p.client = client ∧ p.provider = provider)).map Payment.usedCU).sum

/-- Was this session already recorded under `(epoch, client, provider)`? -/
def MemState.sessionRecorded (s : MemState) (epoch : Nat) (client provider : AccAddress)
    (uniqueIdentifier : String) : Bool :=
  s.payments.any (fun p => p.epoch = epoch ∧ p.client = client ∧ p.provider = provider ∧
    p.uniqueIdentifier = uniqueIdentifier)

/-- Modelled from the spec: the keeper method `AddEpochPayment` is called by
`RelayPayment` but defined outside the files at hand.  "Atomically add the
claimed CU to the EpochPayment row keyed by (epoch, client, provider, chain,
session id); if that exact session id was already recorded this epoch, fail
with DuplicateSession"; the row holds the "running sum of CUs paid", which is
returned.  The caller passes no chain id, so the row is found by epoch,
client and provider. -/
def MemState.AddEpochPayment (s : MemState) (epoch : Nat) (client provider : AccAddress)
    (usedCU : Nat) (uniqueIdentifier : String) : Except String Nat × MemState :=
  if s.sessionRecorded epoch client provider uniqueIdentifier then
    (.error "session already recorded in this epoch", s)
  else
    let s1 := { s with payments := s.payments ++
      [{ epoch := epoch, client := client, provider := provider,
         uniqueIdentifier := uniqueIdentifier, usedCU := usedCU }] }
    (.ok (s1.recordedCU epoch client provider), s1)

/-- Modelled from the spec: the keeper method `EnforceUserCUsUsageInEpoch` is
called by `RelayPayment` but defined outside the files at hand.  "Compare the
client's new cumulative epoch CU total against its EffectivePolicy CU ceiling;
if exceeded, fail with CuLimitExceeded".  The client stake entry is
represented by the ceiling it grants. -/
def MemState.EnforceUserCUsUsageInEpoch (_s : MemState) (limit : Nat)
    (totalCUInEpochForUser : Nat) : Option String :=
  if totalCUInEpochForUser > limit then some "CU limit exceeded" else none

/-- Look a key up in an association list. -/
def assoc {α β : Type} [DecidableEq α] (l : List (α × β)) (a : α) : Option β :=
  (l.find? (fun p => p.1 = a)).map Prod.snd

/-- Replace the value under a key of an association list, or add the key. -/
def assocSet {α β : Type} [DecidableEq α] (l : List (α × β)) (a : α) (b : β) : List (α × β) :=
  if l.any (fun p => p.1 = a) then l.map (fun p => if p.1 = a then (a, b) else p)
  else l ++ [(a, b)]

/-- Pairing validation of the in-memory keeper: an unknown client is an error;
otherwise the provider is valid when the pairing lists it, and the proof is in
the overlap window when its block is within `overlapBlocks` of the epoch start. -/
def MemState.ValidatePairingForClient (s : MemState) (chainID : Nat)
    (client provider : AccAddress) (block : Nat) : Except String (Bool × Bool × Nat) :=
  match assoc s.clients client with
  | none => .error "client is not staked"
  | some limit =>
    .ok (decide ((chainID, client, provider) ∈ s.pairings),
         decide (s.epochBlocks ≤ block ∧ block % s.epochBlocks < s.overlapBlocks), limit)

/-- Burn of the in-memory keeper: fails, without an error, when the client has
no stake or not enough of it. -/
def MemState.BurnClientStake (s : MemState) (_specName : String) (client : AccAddress)
    (amount : Coin) (_failBurn : Bool) : (Bool × Option String) × MemState :=
  if amount.Denom ≠ "stake" then ((false, some "wrong denomination"), s)
  else
    match assoc s.stakes client with
    | none => ((false, none), s)
    | some staked =>
      if staked < amount.Amount then ((false, none), s)
      else ((true, none), { s with stakes := assocSet s.stakes client (staked - amount.Amount) })

/-- Mint of the in-memory keeper: refused when the module is no minter. -/
def MemState.MintCoins (s : MemState) (_moduleName : String) (amt : Coins) :
    Option String × MemState :=
  if s.minter then
    (none, { s with moduleBalance := s.moduleBalance + (amt.map Coin.Amount).sum })
  else (some "module account has no permission to mint", s)

/-- Transfer of the in-memory keeper: refused for a blocked recipient or when
the module holds too little. -/
def MemState.SendCoinsFromModuleToAccount (s : MemState) (_moduleName : String)
    (recipient : AccAddress) (amt : Coins) : Option String × MemState :=
  if recipient ∈ s.blocked then (some "recipient is not allowed to receive funds", s)
  else if s.moduleBalance < (amt.map Coin.Amount).sum then (some "insufficient funds", s)
  else
    (none, { s with
      moduleBalance := s.moduleBalance - (amt.map Coin.Amount).sum
      balances := assocSet s.balances recipient
        (((assoc s.balances recipient).getD 0) + (amt.map Coin.Amount).sum) })

/-- Decoding of an address text in the in-memory keeper: the empty text is
refused, any other text decodes to its character codes. -/
def memDecode (text : String) : Except String AccAddress :=
  if text.data = [] then .error "empty address" else .ok (text.data.map Char.toNat)

/-- The in-memory keeper.  A relay with an empty signature has no recoverable
key; otherwise the signature is taken to name the signer.  Rates are whole
numbers of coins per CU, converted to float64; an amount that does not fit in
64 bits, which Go leaves to the implementation, is `2 ^ 63` here. -/
def memKeeper : Keeper MemState Nat Nat where
  AccAddressFromBech32 := memDecode
  AccAddressFromHex := memDecode
  AddrString := fun a => String.mk (a.map Char.ofNat)
  RecoverPubKeyFromRelay := fun relay =>
    if relay.Sig.data = [] then .error "no signature" else .ok relay.Sig
  IsSpecFoundAndActive := fun s chainID => decide (chainID ∈ s.activeSpecs)
  GetSpec := fun s chainID => assoc s.specs chainID
  ValidatePairingForClient := MemState.ValidatePairingForClient
  GetEpochStartForBlock := fun s block => block - block % s.epochBlocks
  GetPreviousEpochStartForBlock := fun s block => block - block % s.epochBlocks - s.epochBlocks
  AddEpochPayment := MemState.AddEpochPayment
  EnforceUserCUsUsageInEpoch := MemState.EnforceUserCUsUsageInEpoch
  MintCoinsPerCU := fun s => s.mintCoinsPerCU
  GetCoinsPerCU := fun s => s.coinsPerCU
  Scale := fun cu rate => scaleFloat64 (2 ^ 63) cu (Float64.ofUint64 rate)
  BurnClientStake := MemState.BurnClientStake
  ModuleName := "pairing"
  MintCoins := MemState.MintCoins
  SendCoinsFromModuleToAccount := MemState.SendCoinsFromModuleToAccount

/-- The address the text "alice" decodes to. -/
def alice : AccAddress := [97, 108, 105, 99, 101]

/-- The address the text "bob" decodes to. -/
def bob : AccAddress := [98, 111, 98]

/-- A state with one active chain, client alice (limit 10 CU per epoch, 100
coins staked) paired with provider bob, and nothing recorded yet. -/
def memInit : MemState where
  activeSpecs := [1]
  specs := [(1, { Name := "ETH1" })]
  epochBlocks := 20
  overlapBlocks := 2
  clients := [(alice, 10)]
  pairings := [(1, alice, bob)]
  payments := []
  stakes := [(alice, 100)]
  mintCoinsPerCU := 2
  coinsPerCU := 1
  minter := true
  moduleBalance := 0
  blocked := []
  balances := []

/-- A relay signed by alice for provider bob on chain 1 at block 25. -/
def memRelay (cuSum sessionId : Nat) : RelayRequest where
  Sig := "alice"
  Provider := "bob"
  ChainID := 1
  BlockHeight := 25
  CuSum := cuSum
  SessionId := sessionId
  EpochId := 1

/-- The invariant on the epoch payments of the in-memory keeper: for every
staked client, the CU recorded under any `(epoch, client, provider)` is at
most the epoch CU limit of the client. -/
def WithinLimits (s : MemState) : Prop :=
  ∀ (epoch : Nat) (client provider : AccAddress) (limit : Nat),
    assoc s.clients client = some limit → s.recordedCU epoch client provider ≤ limit

/-- The initial state with a CU limit of 1000 for alice, so that only her
stake of 100 coins stands in the way of a relay of 200 CU. -/
def memRich : MemState := { memInit with clients := [(alice, 1000)] }

/-- The initial state with a module account that may not mint. -/
def memNoMinter : MemState := { memInit with minter := false }

/-- The initial state with an empty pairing: bob does not serve alice. -/
def memUnpaired : MemState := { memInit with pairings := [] }

/-- A relay like `memRelay 4 8`, worth 200 CU: more than alice can pay for. -/
def relayCostly : RelayRequest := memRelay 200 8

/-- A relay like `memRelay 4 8`, without a signature. -/
def relayNoSig : RelayRequest := { memRelay 4 8 with Sig := "" }

/-- A relay like `memRelay 4 8`, naming a provider other than the creator. -/
def relayOtherProvider : RelayRequest := { memRelay 4 8 with Provider := "carol" }

/-- A relay like `memRelay 4 8`, for a chain that is not active. -/
def relayUnknownChain : RelayRequest := { memRelay 4 8 with ChainID := 9 }

/-- The batch of one relay that settles: 3 CU, session 7. -/
def msgPaid : MsgRelayPayment := { Creator := "bob", Relays := [memRelay 3 7] }

/-- The run of `msgPaid` from the initial state. -/
def memPaid : Result MemState := RelayPayment memKeeper msgPaid memInit

/-- A batch of one relay of 11 CU, one more than the limit of alice. -/
def msgOverLimit : MsgRelayPayment := { Creator := "bob", Relays := [memRelay 11 7] }

/-- A batch whose first relay has no signature and whose second relay would settle. -/
def msgBadThenGood : MsgRelayPayment := { Creator := "bob", Relays := [relayNoSig, memRelay 3 7] }

/-- The initial state with a second active chain, on which bob serves alice as well. -/
def memTwoChains : MemState :=
  { memInit with
    activeSpecs := [1, 2]
    specs := [(1, { Name := "ETH1" }), (2, { Name := "COS3" })]
    pairings := [(1, alice, bob), (2, alice, bob)] }

/-- The relay `memRelay 3 7`, moved to chain 2. -/
def relayOtherChain : RelayRequest := { memRelay 3 7 with ChainID := 2 }

/-- A batch of two relays that differ in their chain id only. -/
def msgTwoChains : MsgRelayPayment :=
  { Creator := "bob", Relays := [memRelay 3 7, relayOtherChain] }

/-- The relay `memRelay 3 7`, signed at block 41: one block into the epoch that
starts at block 40, within the two blocks of overlap. -/
def relayOverlap : RelayRequest := { memRelay 3 7 with BlockHeight := 41 }

/-- A batch of one relay of 0 CU, whose reward is zero. -/
def msgZeroReward : MsgRelayPayment := { Creator := "bob", Relays := [memRelay 0 7] }

/-! ## Pairing

The pairing list of a consumer is computed by code that is not in the files at
hand (the pairing keeper and its `scores` package); only its tests are.  It is
modelled here from the specification: policy resolver (4.1), slot calculator
(4.2), score engine (4.3), deterministic selector (4.4) and the pairing query
(6).  What the specification leaves open, the score formula, the hash that
gives the seed and the value of the global geolocation, are parameters
(`PairingParams`); what it asks of storage is `PairingStore`. -/

/-- Modelled from the spec: a staked provider of a chain
(`epochstoragetypes.StakeEntry`, section 3): address, stake amount,
geolocation bitmask, and the add-ons its endpoints serve. -/
structure StakeEntry where
  Address : String
  Stake : Nat := 0
  Geolocation : Nat := 0
  Addons : List String := []
deriving DecidableEq, Repr

/-- Modelled from the spec: the selected-providers mode of a policy (section 3). -/
inductive SELECTED_PROVIDERS_MODE where
  | ALLOWED
  | DISABLED
  | EXCLUSIVE
deriving DecidableEq, Repr

/-- Modelled from the spec: a policy (`planstypes.Policy`, section 3): the
add-ons it requires of a provider, the geolocation profile, the
selected-providers mode and list, the number of providers to pair and the CU
limits.  The strictest merge of the layers is a policy as well. -/
structure Policy where
  GeolocationProfile : Nat := 0
  TotalCuLimit : Nat := 0
  EpochCuLimit : Nat := 0
  MaxProvidersToPair : Nat := 0
  SelectedProvidersMode : SELECTED_PROVIDERS_MODE := SELECTED_PROVIDERS_MODE.ALLOWED
  SelectedProviders : List String := []
  Addons : List String := []
deriving DecidableEq, Repr

/-- Modelled from the spec: the requirements a slot holds (sections 3 and 9):
the geolocation bit, the selected-providers set (empty: no restriction) and
the collection requirements, as a closed set of tagged variants. -/
inductive ScoreReq where
  | GeoReq (Geo : Nat)
  | SelectedProvidersReq (providers : List String)
  | CollectionReq (addons : List String)
deriving DecidableEq, Repr

/-- Modelled from the spec: one selection unit (`pairingscores.PairingSlot`). -/
structure PairingSlot where
  Reqs : List ScoreReq
deriving DecidableEq, Repr

/-- The geolocation of the `GeoReq` a slot carries, if it carries one. -/
def PairingSlot.geoReq (slot : PairingSlot) : Option Nat :=
  slot.Reqs.findSome? (fun r => match r with
    | ScoreReq.GeoReq g => some g
    | _ => none)

/-- Modelled from the spec: a provider with its score for one slot
(`pairingscores.PairingScore`). -/
structure PairingScore where
  Provider : StakeEntry
  Score : Nat
deriving DecidableEq, Repr

/-- Modelled from the spec: the answer of the pairing query (section 6): the
providers, one per slot, the epoch the pairing is valid for, the CU limits and
the blocks left until the next pairing. -/
structure Pairing where
  Providers : List StakeEntry
  Epoch : Nat
  TotalCuLimit : Nat
  EpochCuLimit : Nat
  BlocksToNextPairing : Nat
deriving DecidableEq, Repr

/-- What the specification leaves to the implementer: the value of the global
geolocation (`planstypes.Geolocation_GL`), the composite score of a provider
for a slot (section 9, open question) and the hash of epoch number, consumer
address, chain id and slot index that seeds the draw of a slot (4.4). -/
structure PairingParams where
  Geolocation_GL : Nat
  Score : StakeEntry → PairingSlot → Nat
  Seed : Nat → String → String → Nat → Nat

/-- The reads the pairing makes of storage (section 6): the start of the epoch
of a block and of the epoch after it, the staked providers of a chain as of an
epoch, and the plan, subscription and project policies of a consumer as of a
block (none for a consumer without subscription). -/
structure PairingStore where
  EpochStart : Nat → Nat
  NextEpochStart : Nat → Nat
  StakeSnapshot : Nat → String → List StakeEntry
  Policies : Nat → String → Option (Policy × Option Policy × Option Policy)

/-- Modelled from the spec: the geolocation merge of the policy resolver
(4.1): the bits are ANDed, unless a side is the global geolocation, which does
not narrow. -/
def mergeGeolocation (global a b : Nat) : Nat :=
  if a = global then b else if b = global then a else a &&& b

/-- Modelled from the spec: the selected-providers merge of the policy resolver
(4.1), one layer at a time.  `none` is "no restriction so far".  Only a layer
in mode EXCLUSIVE with a list that is not empty narrows: the first such list
is taken, every later one is intersected with what was kept. -/
def narrowSelectedProviders (kept : Option (List String)) (layer : Policy) :
    Option (List String) :=
  match layer.SelectedProvidersMode with
  | SELECTED_PROVIDERS_MODE.EXCLUSIVE =>
    if layer.SelectedProviders = [] then kept
    else
      match kept with
      | none => some layer.SelectedProviders
      | some l => some (l.filter (fun a => decide (a ∈ layer.SelectedProviders)))
  | _ => kept

/-- The layers of a consumer, in the order they are merged: plan, then
subscription, then project; an absent layer is left out. -/
def policyLayers (plan : Policy) (sub proj : Option Policy) : List Policy :=
  plan :: (sub.toList ++ proj.toList)

/-- Modelled from the spec: the policy resolver (4.1).  Geolocations are merged
with `mergeGeolocation`, selected providers with `narrowSelectedProviders`, the
limits are the minimum across the layers, an add-on required by any layer is
required.  The merge is in mode EXCLUSIVE when some layer is.  Exclusive lists
without a common provider are a conflict. -/
def CalcStrictestPolicy (global : Nat) (plan : Policy) (sub proj : Option Policy) :
    Except String Policy :=
  let rest := sub.toList ++ proj.toList
  let layers := policyLayers plan sub proj
  let selected := layers.foldl narrowSelectedProviders none
  if selected = some [] then .error "PolicyConflict"
  else .ok
    { GeolocationProfile :=
        rest.foldl (fun g l => mergeGeolocation global g l.GeolocationProfile)
          plan.GeolocationProfile
      TotalCuLimit := rest.foldl (fun m l => min m l.TotalCuLimit) plan.TotalCuLimit
      EpochCuLimit := rest.foldl (fun m l => min m l.EpochCuLimit) plan.EpochCuLimit
      MaxProvidersToPair :=
        rest.foldl (fun m l => min m l.MaxProvidersToPair) plan.MaxProvidersToPair
      SelectedProvidersMode :=
        if layers.any (fun l => l.SelectedProvidersMode = SELECTED_PROVIDERS_MODE.EXCLUSIVE)
        then SELECTED_PROVIDERS_MODE.EXCLUSIVE else SELECTED_PROVIDERS_MODE.ALLOWED
      SelectedProviders := selected.getD []
      Addons := layers.foldl (fun a l => a ++ l.Addons.filter (fun x => decide (x ∉ a))) [] }

/-- The single bits of a 64-bit geolocation mask, lowest first. -/
def geoBits (mask : Nat) : List Nat :=
  ((List.range 64).filter (fun i => mask.testBit i)).map (fun i => 2 ^ i)

/-- Modelled from the spec: the slot calculator (`pairingscores.CalcSlots`,
4.2): `MaxProvidersToPair` slots; the geolocation mask is decomposed into its
set bits and the slots take them in turn, lowest bit first; the selected
providers and the collection requirements are copied into every slot. -/
def CalcSlots (policy : Policy) : List PairingSlot :=
  (List.range policy.MaxProvidersToPair).map (fun i =>
    { Reqs :=
        [ScoreReq.GeoReq
          ((geoBits policy.GeolocationProfile).getD
            (i % (geoBits policy.GeolocationProfile).length) 0),
         ScoreReq.SelectedProvidersReq
          (if policy.SelectedProvidersMode = SELECTED_PROVIDERS_MODE.EXCLUSIVE
            then policy.SelectedProviders else []),
         ScoreReq.CollectionReq policy.Addons] })

/-- Modelled from the spec: the hard requirements of the score engine (4.3): a
provider outside a selected-providers set that is not empty is excluded, and
so is a provider that does not serve a required add-on; a geolocation that
does not match lowers the score but excludes nobody. -/
def ScoreReq.admits (req : ScoreReq) (provider : StakeEntry) : Bool :=
  match req with
  | ScoreReq.GeoReq _ => true
  | ScoreReq.SelectedProvidersReq providers =>
    decide (providers = []) || decide (provider.Address ∈ providers)
  | ScoreReq.CollectionReq addons => addons.all (fun a => decide (a ∈ provider.Addons))

/-- A provider meets every hard requirement of a slot. -/
def PairingSlot.admits (slot : PairingSlot) (provider : StakeEntry) : Bool :=
  slot.Reqs.all (fun r => r.admits provider)

/-- Modelled from the spec: the score engine (4.3): one score for each
provider of the candidate set that meets the hard requirements of the slot. -/
def CalcPairingScores (params : PairingParams) (slot : PairingSlot)
    (candidates : List StakeEntry) : List PairingScore :=
  (candidates.filter slot.admits).map
    (fun p => { Provider := p, Score := params.Score p slot })

/-- Byte-wise order of two texts given by their character codes. -/
def codesLE : List Nat → List Nat → Bool
  | [], _ => true
  | _ :: _, [] => false
  | a :: as, b :: bs => decide (a < b) || (decide (a = b) && codesLE as bs)

/-- The order of provider addresses used to order the candidates of a draw. -/
def addressLE (a b : String) : Bool :=
  codesLE (a.data.map Char.toNat) (b.data.map Char.toNat)

/-- The cumulative-weight walk (4.4): the first candidate whose cumulative
weight exceeds `r`. -/
def pickByWeight : List PairingScore → Nat → Option StakeEntry
  | [], _ => none
  | ps :: rest, r => if r < ps.Score then some ps.Provider else pickByWeight rest (r - ps.Score)

/-- Modelled from the spec: the weighted draw of one slot (4.4): the
candidates are ordered by address, the seed is mapped into the range of the
total weight, and the walk picks; nothing is picked when there is no weight. -/
def drawProvider (scores : List PairingScore) (seed : Nat) : Option StakeEntry :=
  let ordered := scores.insertionSort
    (fun a b => addressLE a.Provider.Address b.Provider.Address = true)
  let totalWeight := (ordered.map PairingScore.Score).sum
  if totalWeight = 0 then none else pickByWeight ordered (seed % totalWeight)

/-- Modelled from the spec: the deterministic selector (4.4): the slots are
drawn in order, slot `index` with the seed of `(epoch, consumer, chain,
index)`; providers chosen for earlier slots are taken out of the candidates
of a slot before its draw; a slot without candidate adds nothing. -/
def selectProviders (params : PairingParams) (epoch : Nat) (consumer chainID : String)
    (staked : List StakeEntry) : List PairingSlot → Nat → List StakeEntry → List StakeEntry
  | [], _, chosen => chosen
  | slot :: rest, index, chosen =>
    let scores := (CalcPairingScores params slot staked).filter
      (fun ps => decide (ps.Provider.Address ∉ chosen.map StakeEntry.Address))
    match drawProvider scores (params.Seed epoch consumer chainID index) with
    | none => selectProviders params epoch consumer chainID staked rest (index + 1) chosen
    | some p =>
      selectProviders params epoch consumer chainID staked rest (index + 1) (chosen ++ [p])

/-- Modelled from the spec: the pairing query (section 6, with 4.1 to 4.4):
the pairing of a consumer on a chain at a block is computed from the state as
of the start of the epoch of the block: the policies of the consumer, merged,
and the staked providers of the chain.  A consumer without subscription and a
policy conflict are errors. -/
def GetPairing (params : PairingParams) (store : PairingStore) (chainID consumer : String)
    (block : Nat) : Except String Pairing :=
  let epoch := store.EpochStart block
  match store.Policies epoch consumer with
  | none => .error "consumer has no subscription"
  | some (plan, sub, proj) =>
    match CalcStrictestPolicy params.Geolocation_GL plan sub proj with
    | .error e => .error e
    | .ok policy =>
      .ok
        { Providers := selectProviders params epoch consumer chainID
            (store.StakeSnapshot epoch chainID) (CalcSlots policy) 0 []
          Epoch := epoch
          TotalCuLimit := policy.TotalCuLimit
          EpochCuLimit := policy.EpochCuLimit
          BlocksToNextPairing := store.NextEpochStart block - block }

/-- A score for the examples: the stake, doubled when the geolocation of the
provider has the bit of the slot. -/
def exampleScore (p : StakeEntry) (slot : PairingSlot) : Nat :=
  match slot.geoReq with
  | some g => if p.Geolocation &&& g = 0 then p.Stake else 2 * p.Stake
  | none => p.Stake

/-- Parameters for the examples: the global geolocation 65535, `exampleScore`,
and a seed that mixes its four inputs. -/
def exampleParams : PairingParams where
  Geolocation_GL := 65535
  Score := exampleScore
  Seed := fun epoch consumer chainID index =>
    7919 * epoch + 31 * consumer.length + 17 * chainID.length + 104729 * index + 13

/-- Five providers for the examples, of equal stake, in geolocations 1, 2, 1, 2, 4. -/
def exampleProviders : List StakeEntry :=
  [{ Address := "p1", Stake := 100, Geolocation := 1 },
   { Address := "p2", Stake := 100, Geolocation := 2 },
   { Address := "p3", Stake := 100, Geolocation := 1 },
   { Address := "p4", Stake := 100, Geolocation := 2 },
   { Address := "p5", Stake := 100, Geolocation := 4 }]

/-- A plan policy for the examples: every geolocation, 3 providers to pair,
providers p1, p2 and p3 selected exclusively. -/
def examplePlan : Policy :=
  { GeolocationProfile := 65535, TotalCuLimit := 1000, EpochCuLimit := 100,
    MaxProvidersToPair := 3,
    SelectedProvidersMode := SELECTED_PROVIDERS_MODE.EXCLUSIVE,
    SelectedProviders := ["p1", "p2", "p3"] }

/-- A subscription policy for the examples: like the plan, with p1 and p2 selected. -/
def exampleSubscription : Policy := { examplePlan with SelectedProviders := ["p1", "p2"] }

/-- A project policy for the examples: like the plan, with no provider selected. -/
def exampleProject : Policy := { examplePlan with SelectedProviders := [] }

/-- A store for the examples: epochs of 20 blocks, the five example providers
staked on every chain in every epoch, and two consumers: alice with the three
exclusive example policies, and carol with a plan open to all providers, 14
providers to pair and geolocations 1 and 2. -/
def exampleStore : PairingStore where
  EpochStart := fun block => block - block % 20
  NextEpochStart := fun block => block - block % 20 + 20
  StakeSnapshot := fun _ _ => exampleProviders
  Policies := fun _ consumer =>
    if consumer = "alice" then some (examplePlan, some exampleSubscription, some exampleProject)
    else if consumer = "carol" then
      some ({ GeolocationProfile := 3, TotalCuLimit := 1000, EpochCuLimit := 100,
              MaxProvidersToPair := 14 }, none, none)
    else none

/-- An address is in the list of every layer that is in mode EXCLUSIVE with a
list that is not empty. -/
def inExclusiveLists (layers : List Policy) (address : String) : Bool :=
  layers.all (fun l =>
    decide (l.SelectedProvidersMode = SELECTED_PROVIDERS_MODE.EXCLUSIVE →
      l.SelectedProviders ≠ [] → address ∈ l.SelectedProviders))

/-- A provider serves every add-on that some layer requires. -/
def servesAddons (layers : List Policy) (provider : StakeEntry) : Bool :=
  layers.all (fun l => l.Addons.all (fun a => decide (a ∈ provider.Addons)))

/-- A relay like `memRelay 4 8`, for a chain that is not active and naming a
provider other than the creator. -/
def relayStray : RelayRequest := { memRelay 4 8 with Provider := "carol", ChainID := 9 }

/-- The initial state with a reward rate of zero: every reward is zero. -/
def memNoReward : MemState := { memInit with mintCoinsPerCU := 0 }

/-! ## Reading numerals

The inverse of the rendering of `strconv.FormatUint`, used to tell renderings
apart and to read the amounts of a plan file. -/

/-- The value of a digit: `0` to `9`, then `a` to `f`. -/
def digitValue (c : Char) : Option Nat :=
  if 48 ≤ c.toNat ∧ c.toNat ≤ 57 then some (c.toNat - 48)
  else if 97 ≤ c.toNat ∧ c.toNat ≤ 102 then some (c.toNat - 87)
  else none

/-- Read digits of base `base`, most significant first, onto the value `acc`
read so far; `none` when a character is no digit of that base. -/
def readDigits (base : Nat) : List Char → Nat → Option Nat
  | [], acc => some acc
  | c :: cs, acc =>
    match digitValue c with
    | some d => if d < base then readDigits base cs (base * acc + d) else none
    | none => none

/-- The in-memory keeper with a spec keeper that reports a chain found and
active only when its spec is found, as `IsSpecFoundAndActive` is documented to. -/
def memSpecKeeper : Keeper MemState Nat Nat :=
  { memKeeper with
    IsSpecFoundAndActive := fun s chainID =>
      decide (chainID ∈ s.activeSpecs) && (assoc s.specs chainID).isSome }

/-- How a panic of the handler came about: after the log of a failed mint or
of a failed transfer, with the message built from the error `e` of the bank. -/
def PanicFromBank (k : Keeper σ Stake Rate) (creator : AccAddress) (m : String)
    (trace : List Call) : Prop :=
  (∃ e attrs before,
    m = "module failed to mint coins to give to servicer: " ++ e ∧
    trace = before ++ [Call.LavaError "relay_payment" attrs "MintCoins Failed,"]) ∨
  (∃ e attrs before,
    m = "failed to transfer minted new coins to servicer, " ++ e ++ " account: " ++
      k.AddrString creator ∧
    trace = before ++
      [Call.LavaError "relay_payment" attrs "SendCoinsFromModuleToAccount Failed,"])

/-! ## The command line of the provider

The argument validator of the `rpcprovider` command
(`protocol/rpcprovider/rpcprovider.go`).  An `error` is `some` message, `nil`
is `none`. -/

/-- The properties of one endpoint of the configuration: `Yaml_config_properties`. -/
def Yaml_config_properties : List String :=
  ["network-address", "chain-id", "api-interface", "node-url"]

/-- The validator `cobra.RangeArgs(min, max)` of the command-line library: an
error unless the number of arguments is between `min` and `max`. -/
def RangeArgs (min max : Nat) (args : List String) : Option String :=
  if args.length < min ∨ args.length > max then
    some ("accepts between " ++ FormatUint10 min ++ " and " ++ FormatUint10 max ++
      " arg(s), received " ++ FormatUint10 args.length)
  else none

/-- The field `Args` of the command built by `CreateRPCProviderCobraCommand`. -/
def CreateRPCProviderCobraCommand.Args (args : List String) : Option String :=
  match RangeArgs 0 1 args with
  | none => none
  | some _ =>
    if args.length % Yaml_config_properties.length ≠ 0 then
      some ("invalid number of arguments, either its a single config file or repeated " ++
        "groups of 4 HOST:PORT chain-id api-interface [node_url,node_url_2], arg count: " ++
        FormatUint10 args.length)
    else none

/-! ## Plan proposals

The helpers of the plans command line (`x/plans/client/utils/utils.go`): the
decode hook of the price amount and the two parsers of proposal files. -/

/-- The parse `new(big.Int).SetString(s, 10)`: an optional sign, then at least
one decimal digit and nothing else; `none` when the text is no such numeral. -/
def SetString10 (s : String) : Option Int :=
  match s.data with
  | [] => none
  | c :: cs =>
    if c = '-' then
      if cs = [] then none else (readDigits 10 cs 0).map (fun n : Nat => -Int.ofNat n)
    else if c = '+' then
      if cs = [] then none else (readDigits 10 cs 0).map Int.ofNat
    else (readDigits 10 (c :: cs) 0).map Int.ofNat

/-- An `sdk.Int`: the big integer it wraps, of at most 256 bits. -/
structure SdkInt where
  i : Int
deriving DecidableEq, Repr

/-- The constructor `sdk.NewIntFromBigInt` of the SDK, by its contract: it
panics with "NewIntFromBigInt() out of bound" when the bit length of the big
integer is more than 256, that is from `2 ^ 256` on in absolute value; `none`
is that panic. -/
def NewIntFromBigInt (i : Int) : Option SdkInt :=
  if i.natAbs < 2 ^ 256 then some { i := i } else none

/-- A value of type `interface{}` handed to a decode hook: a string, an
`sdk.Int`, or a value of any other type. -/
inductive HookData (Other : Type) where
  | string (s : String)
  | sdkInt (i : SdkInt)
  | other (v : Other)

/-- How a decode hook ends: it returns `(data, nil)`, it returns `(nil, err)`,
or it does not return because a call it makes panicked. -/
inductive Hooked (α : Type) where
  | ok (data : α)
  | error (err : String)
  | panic (msg : String)

/-- The hook `priceDecodeHookFunc`.  `T` is `reflect.Type` and `sdkIntType` is
`reflect.TypeOf(sdk.NewInt(0))`. -/
def priceDecodeHookFunc {T Other : Type} [DecidableEq T] (sdkIntType : T)
    (_f t : T) (data : HookData Other) : Hooked (HookData Other) :=
  if t = sdkIntType then
    match data with
    | .string amountStr =>
      match SetString10 amountStr with
      | none => .error "failed to convert amount to sdk.Int"
      | some amount =>
        match NewIntFromBigInt amount with
        | none => .panic "NewIntFromBigInt() out of bound"
        | some i => .ok (.sdkInt i)
    | _ => .error "unexpected data type for amount field"
  else .ok data

/-- The fields of a plans proposal that the parsers read (`types.PlansAddProposal`
with plans of type `P`, `types.PlansDelProposal` with plan indices). -/
structure PlansProposal (P : Type) where
  Title : String
  Description : String
  Plans : List P
deriving DecidableEq, Repr

/-- A proposal with its deposit, as read from a file. -/
structure PlansProposalJSON (P : Type) where
  Proposal : PlansProposal P
  Deposit : String
deriving DecidableEq, Repr

/-- The type `PlansAddProposalJSON`, over the type of a plan. -/
abbrev PlansAddProposalJSON (Plan : Type) := PlansProposalJSON Plan

/-- The type `PlansDelProposalJSON`: its plans are plan indices. -/
abbrev PlansDelProposalJSON := PlansProposalJSON String

/-- The zero value of a proposal with deposit (`var proposal ...`, and the
named result `ret` before the loop). -/
def PlansProposalJSON.zero {P : Type} : PlansProposalJSON P :=
  { Proposal := { Title := "", Description := "", Plans := [] }, Deposit := "" }

/-- How a parser of proposal files ends: it returns `(ret, nil)`, it returns
`(ret, err)`, or it does not return because adding two coins panicked. -/
inductive Returned (α : Type) where
  | ok (ret : α)
  | error (ret : α) (err : String)
  | panic (msg : String)
deriving DecidableEq, Repr

/-- What the parsers use of the coins of the SDK: `sdk.ParseCoinNormalized`,
`Coin.Add`, which panics (here: returns the panic message as an error) rather
than add coins it refuses to add, and `Coin.String`. -/
structure CoinLib (C : Type) where
  ParseCoinNormalized : String → Except String C
  Add : C → C → Except String C
  String : C → String

/-- The pieces between the separators of a text, for `strings.Split`. -/
def splitChars (sep : Char) : List Char → List (List Char)
  | [] => [[]]
  | c :: cs =>
    if c = sep then [] :: splitChars sep cs
    else
      match splitChars sep cs with
      | [] => [[c]]
      | piece :: pieces => (c :: piece) :: pieces

/-- The call `strings.Split(s, sep)` for a separator of one character. -/
def Split (s : String) (sep : Char) : List String :=
  (splitChars sep s.data).map String.mk

/-- Lines 56 to 71 of `ParsePlansAddProposalJSON`, the same as lines 89 to 104
of `ParsePlansDelProposalJSON`: take the proposal of a file into the result
`ret` accumulated so far. -/
def mergeProposal {P C : Type} (lib : CoinLib C) (ret proposal : PlansProposalJSON P) :
    Returned (PlansProposalJSON P) :=
  if ret.Proposal.Plans.length > 0 then
    let plans := ret.Proposal.Plans ++ proposal.Proposal.Plans
    let description := proposal.Proposal.Description ++ " " ++ ret.Proposal.Description
    let title := proposal.Proposal.Title ++ " " ++ ret.Proposal.Title
    match lib.ParseCoinNormalized ret.Deposit with
    | .error err => .error proposal err
    | .ok retDeposit =>
    match lib.ParseCoinNormalized proposal.Deposit with
    | .error err => .error proposal err
    | .ok proposalDeposit =>
    match lib.Add retDeposit proposalDeposit with
    | .error msg => .panic msg
    | .ok sum =>
      .ok { Proposal := { Title := title, Description := description, Plans := plans }
            Deposit := lib.String sum }
  else .ok proposal

/-- The two calls of `decoder.DecodeFile` on a proposal file, for the key
"proposal" (with the price hook) and for the key "deposit": what each leaves
in its target, and its error. -/
structure AddFiles (Plan : Type) where
  DecodeFileProposal : String → PlansProposal Plan × Option String
  DecodeFileDeposit : String → String × Option String

/-- The loop of `ParsePlansAddProposalJSON` over the file names, from the
result `ret` accumulated so far. -/
def parseAddFiles {Plan C : Type} (files : AddFiles Plan) (lib : CoinLib C) :
    List String → PlansAddProposalJSON Plan → Returned (PlansAddProposalJSON Plan)
  | [], ret => .ok ret
  | fileName :: rest, ret =>
    let decoded := files.DecodeFileProposal fileName
    let proposal : PlansAddProposalJSON Plan := { Proposal := decoded.1, Deposit := "" }
    match decoded.2 with
    | some err => .error proposal err
    | none =>
    let deposit := files.DecodeFileDeposit fileName
    let proposal : PlansAddProposalJSON Plan := { Proposal := decoded.1, Deposit := deposit.1 }
    match deposit.2 with
    | some err => .error proposal err
    | none =>
    match mergeProposal lib ret proposal with
    | .ok ret => parseAddFiles files lib rest ret
    | .error p err => .error p err
    | .panic msg => .panic msg

/-- The parser `ParsePlansAddProposalJSON` of a comma-separated list of files. -/
def ParsePlansAddProposalJSON {Plan C : Type} (files : AddFiles Plan) (lib : CoinLib C)
    (proposalFile : String) : Returned (PlansAddProposalJSON Plan) :=
  parseAddFiles files lib (Split proposalFile ',') PlansProposalJSON.zero

/-- What `ParsePlansDelProposalJSON` reads a file with: `os.ReadFile`, and
`cdc.UnmarshalJSON` into a proposal, with what it leaves there and its error. -/
structure DelFiles (Bytes : Type) where
  ReadFile : String → Except String Bytes
  UnmarshalJSON : Bytes → PlansDelProposalJSON × Option String

/-- The loop of `ParsePlansDelProposalJSON` over the file names, from the
result `ret` accumulated so far. -/
def parseDelFiles {Bytes C : Type} (files : DelFiles Bytes) (lib : CoinLib C) :
    List String → PlansDelProposalJSON → Returned PlansDelProposalJSON
  | [], ret => .ok ret
  | fileName :: rest, ret =>
    match files.ReadFile fileName with
    | .error err => .error PlansProposalJSON.zero err
    | .ok contents =>
    let decoded := files.UnmarshalJSON contents
    match decoded.2 with
    | some err => .error decoded.1 err
    | none =>
    match mergeProposal lib ret decoded.1 with
    | .ok ret => parseDelFiles files lib rest ret
    | .error p err => .error p err
    | .panic msg => .panic msg

/-- The parser `ParsePlansDelProposalJSON` of a comma-separated list of files. -/
def ParsePlansDelProposalJSON {Bytes C : Type} (files : DelFiles Bytes) (lib : CoinLib C)
    (proposalFile : String) : Returned PlansDelProposalJSON :=
  parseDelFiles files lib (Split proposalFile ',') PlansProposalJSON.zero

/-- The deposits met by the merges add up: the deposit accumulated so far and
the deposit of the next file both parse as coins, the coins are added, and the
remaining deposits add up from the rendering of the sum. -/
def DepositsAddUp {C : Type} (lib : CoinLib C) : String → List String → Prop
  | _, [] => True
  | retDeposit, deposit :: rest =>
    ∃ a b sum, lib.ParseCoinNormalized retDeposit = .ok a ∧
      lib.ParseCoinNormalized deposit = .ok b ∧ lib.Add a b = .ok sum ∧
      DepositsAddUp lib (lib.String sum) rest

/-- Is the character a decimal digit? -/
def isDecimal (c : Char) : Bool := decide (48 ≤ c.toNat ∧ c.toNat ≤ 57)

/-- Is the character a letter of the Latin alphabet? -/
def isLetter (c : Char) : Bool :=
  decide ((65 ≤ c.toNat ∧ c.toNat ≤ 90) ∨ (97 ≤ c.toNat ∧ c.toNat ≤ 122))

/-- May the character stand inside a denomination: a letter, a digit, or one
of the signs `/`, `:`, `.`, `_` and `-`. -/
def isDenomChar (c : Char) : Bool :=
  isLetter c || isDecimal c || decide (c.toNat ∈ [47, 58, 46, 95, 45])

/-- The form of a denomination: a letter, then 2 to 127 characters that may
stand inside a denomination. -/
def isDenom : List Char → Bool
  | [] => false
  | c :: rest =>
    isLetter c && decide (2 ≤ rest.length ∧ rest.length ≤ 127) && rest.all isDenomChar

/-- A coin parser for the examples.  It reads the coin expressions the
examples use, a whole amount in decimal digits directly followed by a
denomination, and refuses every other text; the coin library reads more than
that (an amount with a fraction, blanks before the denomination). -/
def exampleParseCoin (s : String) : Except String Coin :=
  let digits := s.data.takeWhile isDecimal
  let denom := s.data.dropWhile isDecimal
  match readDigits 10 digits 0 with
  | some amount =>
    if digits = [] ∨ isDenom denom = false then
      .error ("invalid decimal coin expression: " ++ s)
    else .ok { Denom := String.mk denom, Amount := amount }
  | none => .error ("invalid decimal coin expression: " ++ s)

/-- Coins for the examples: coins of one denomination are added, coins of two
denominations are not. -/
def exampleCoinLib : CoinLib Coin where
  ParseCoinNormalized := exampleParseCoin
  Add := fun a b =>
    if a.Denom = b.Denom then .ok { Denom := a.Denom, Amount := a.Amount + b.Amount }
    else .error ("invalid coin denominations; " ++ a.Denom ++ ", " ++ b.Denom)
  String := Coin.String

/-- The proposal held by each file of the examples; plans are named by a word. -/
def exampleProposalOf (fileName : String) : Option (PlansProposalJSON String) :=
  if fileName = "a.json" then
    some { Proposal := { Title := "A", Description := "first", Plans := ["gold"] }
           Deposit := "10ulava" }
  else if fileName = "b.json" then
    some { Proposal := { Title := "B", Description := "second", Plans := ["silver", "bronze"] }
           Deposit := "5ulava" }
  else if fileName = "bad.json" then
    some { Proposal := { Title := "C", Description := "third", Plans := ["tin"] }
           Deposit := "lots" }
  else if fileName = "empty.json" then
    some { Proposal := { Title := "E", Description := "no plan", Plans := [] }
           Deposit := "1ulava" }
  else none

/-- The files of the examples, as `ParsePlansAddProposalJSON` decodes them. -/
def exampleAddFiles : AddFiles String where
  DecodeFileProposal := fun fileName =>
    match exampleProposalOf fileName with
    | some p => (p.Proposal, none)
    | none => (PlansProposalJSON.zero.Proposal, some "no such file")
  DecodeFileDeposit := fun fileName =>
    match exampleProposalOf fileName with
    | some p => (p.Deposit, none)
    | none => ("", some "no such file")

/-- The files of the examples, as `ParsePlansDelProposalJSON` reads them; the
contents of a file are stood for by its name. -/
def exampleDelFiles : DelFiles String where
  ReadFile := fun fileName =>
    match exampleProposalOf fileName with
    | some _ => .ok fileName
    | none => .error "no such file"
  UnmarshalJSON := fun contents =>
    match exampleProposalOf contents with
    | some p => (p, none)
    | none => (PlansProposalJSON.zero, some "unexpected end of JSON input")

/-! ## The geolocation check of the pairing tests

The helper `verifyGeoScoreForTesting` of `x/pairing/keeper/pairing_test.go`. -/

/-- What a call of `verifyGeoScoreForTesting` leaves: the value it returns,
the slice of scores, which it sorts in place, and the map of the geolocations
expected, in which it marks the one of the slot. -/
structure GeoScoreCheck where
  ok : Bool
  providerScores : List PairingScore
  expectedGeoSeen : List (Nat × Bool)
deriving DecidableEq, Repr

/-- What `sort.Slice` with the comparison "the score of `i` is greater than
the score of `j`" does to every slice: it rearranges it so that no element
has a greater score than an element before it.  The order of elements with
equal scores is not fixed. -/
def SortsByScore (sortSlice : List PairingScore → List PairingScore) : Prop :=
  ∀ l, (sortSlice l).Perm l ∧ (sortSlice l).Pairwise (fun a b => b.Score ≤ a.Score)

/-- The loop at the end of `verifyGeoScoreForTesting` over the sorted scores. -/
def geoScoreLoop (geo maxScore : Nat) : List PairingScore → Bool
  | [] => true
  | score :: rest =>
    if score.Provider.Geolocation = geo then
      if score.Score ≠ maxScore then false else geoScoreLoop geo maxScore rest
    else
      if score.Score = maxScore then false else true

/-- The test helper `verifyGeoScoreForTesting`; `sortSlice` is the call of
`sort.Slice`, `slot` is `none` for the nil pointer, and the map
`expectedGeoSeen` is a list of keys with their values.  The maximal score is
read from the head of the sorted slice, which is not empty since the slice
handed in is not. -/
def verifyGeoScoreForTesting (sortSlice : List PairingScore → List PairingScore)
    (providerScores : List PairingScore) (slot : Option PairingSlot)
    (expectedGeoSeen : List (Nat × Bool)) : GeoScoreCheck :=
  match slot with
  | none => { ok := false, providerScores := providerScores, expectedGeoSeen := expectedGeoSeen }
  | some slot =>
    if providerScores.length = 0 then
      { ok := false, providerScores := providerScores, expectedGeoSeen := expectedGeoSeen }
    else
      let sorted := sortSlice providerScores
      match slot.geoReq with
      | none => { ok := false, providerScores := sorted, expectedGeoSeen := expectedGeoSeen }
      | some geo =>
        match assoc expectedGeoSeen geo with
        | none => { ok := false, providerScores := sorted, expectedGeoSeen := expectedGeoSeen }
        | some _ =>
          let seen := assocSet expectedGeoSeen geo true
          match sorted with
          | [] => { ok := false, providerScores := sorted, expectedGeoSeen := seen }
          | top :: _ =>
            { ok := geoScoreLoop geo top.Score sorted
              providerScores := sorted
              expectedGeoSeen := seen }

/-- A sort for the examples: insertion sort, greatest score first. -/
def exampleSortSlice (l : List PairingScore) : List PairingScore :=
  l.insertionSort (fun a b => b.Score ≤ a.Score)

/-- Scores for the examples: two providers of geolocation 2 with the greatest
score, one of geolocation 1 and one of geolocation 4 with lower scores. -/
def exampleGeoScores : List PairingScore :=
  [{ Provider := { Address := "p1", Geolocation := 1 }, Score := 5 },
   { Provider := { Address := "p2", Geolocation := 2 }, Score := 9 },
   { Provider := { Address := "p3", Geolocation := 2 }, Score := 9 },
   { Provider := { Address := "p4", Geolocation := 4 }, Score := 3 }]

/-- The initial state with a CU limit and a stake of `2 ^ 60` for alice, so
that she can pay for relays of more than `2 ^ 53` CU. -/
def memWhale : MemState :=
  { memInit with clients := [(alice, 2 ^ 60)], stakes := [(alice, 2 ^ 60)] }

/-- A batch of one relay of `2 ^ 53 + 1` CU. -/
def msgHuge : MsgRelayPayment := { Creator := "bob", Relays := [memRelay 9007199254740993 7] }

/-- The address the text "dave" decodes to. -/
def dave : AccAddress := [100, 97, 118, 101]

/-- The initial state with a second client, dave, staked and paired with bob
like alice. -/
def memTwoClients : MemState :=
  { memInit with
    clients := [(alice, 10), (dave, 10)]
    pairings := [(1, alice, bob), (1, dave, bob)]
    stakes := [(alice, 100), (dave, 100)] }

/-- The relay `memRelay 3 7`, signed by dave. -/
def relayDave : RelayRequest := { memRelay 3 7 with Sig := "dave" }

/-- A batch of two relays with the same session id and block, one of alice and
one of dave. -/
def msgTwoClients : MsgRelayPayment := { Creator := "bob", Relays := [memRelay 3 7, relayDave] }

/-- State `s'` is `s` after any number of passes of the loop body, each over
any relay of any batch and whatever its exit: the states met in a batch, in
the batches after it, and between them. -/
inductive LaterState (k : Keeper σ Stake Rate) : σ → σ → Prop where
  | same (s : σ) : LaterState k s s
  | pass {s s' : σ} (c : String) (cr : AccAddress) (relay : RelayRequest) :
      LaterState k s s' → LaterState k s (relayPaymentBody k c cr relay s').state

/-- The example plan, requiring the add-on "archive" as well. -/
def exampleArchivePlan : Policy := { examplePlan with Addons := ["archive"] }

/-- The example store with the plan of alice requiring the add-on "archive",
which every staked provider but p1 serves. -/
def exampleArchiveStore : PairingStore :=
  { exampleStore with
    StakeSnapshot := fun _ _ =>
      [{ Address := "p1", Stake := 100, Geolocation := 1 },
       { Address := "p2", Stake := 100, Geolocation := 2, Addons := ["archive"] },
       { Address := "p3", Stake := 100, Geolocation := 1, Addons := ["archive"] },
       { Address := "p4", Stake := 100, Geolocation := 2, Addons := ["archive"] },
       { Address := "p5", Stake := 100, Geolocation := 4, Addons := ["archive"] }]
    Policies := fun _ consumer =>
      if consumer = "alice" then
        some (exampleArchivePlan, some exampleSubscription, some exampleProject)
      else none }

/-- The example store with provider p1 staked with a stake of zero, which
`exampleScore` turns into a score of zero. -/
def exampleIdleStore : PairingStore :=
  { exampleStore with
    StakeSnapshot := fun _ _ =>
      [{ Address := "p1", Stake := 0, Geolocation := 1 },
       { Address := "p2", Stake := 100, Geolocation := 2 },
       { Address := "p3", Stake := 100, Geolocation := 1 },
       { Address := "p4", Stake := 100, Geolocation := 2 },
       { Address := "p5", Stake := 100, Geolocation := 4 }] }

/-- The example store with the staked providers listed in the opposite order. -/
def exampleReversedStore : PairingStore :=
  { exampleStore with StakeSnapshot := fun _ _ => exampleProviders.reverse }

/-! ## Loop lemmas -/

/-- A loop whose first part falls through every relay continues with the rest. -/
theorem relayPaymentLoop_append (k : Keeper σ Stake Rate) (c : String) (cr : AccAddress)
    (pre rest : List RelayRequest) (s0 : σ) (t0 : List Call)
    (h : (relayPaymentLoop k c cr pre s0 t0).outcome = Outcome.response) :
    relayPaymentLoop k c cr (pre ++ rest) s0 t0 =
      relayPaymentLoop k c cr rest (relayPaymentLoop k c cr pre s0 t0).state
        (relayPaymentLoop k c cr pre s0 t0).trace := by
  induction pre generalizing s0 t0 with
  | nil => simp [relayPaymentLoop]
  | cons r rs ih =>
    simp only [List.cons_append, relayPaymentLoop] at h ⊢
    cases hf : (relayPaymentBody k c cr r s0).flow with
    | next =>
      simp only [hf] at h ⊢
      exact ih _ _ h
    | fail e => simp [hf] at h
    | panic m => simp [hf] at h

/-- From a reached relay on, the handler is the loop over that relay and its successors. -/
theorem RelayPayment_of_reaches {k : Keeper σ Stake Rate} {msg : MsgRelayPayment} {s0 : σ}
    {creator : AccAddress} {pre : List RelayRequest} {relay : RelayRequest}
    {post : List RelayRequest} {s : σ} {t : List Call}
    (h : Reaches k msg s0 creator pre relay post s t) :
    RelayPayment k msg s0 = relayPaymentLoop k msg.Creator creator (relay :: post) s t := by
  obtain ⟨hc, hrel, hs, ht, ho⟩ := h
  simp only [RelayPayment, hc, hrel]
  rw [relayPaymentLoop_append k msg.Creator creator pre (relay :: post) s0 [] ho, hs, ht]

/-- A pass that fails ends the handler with that error. -/
theorem RelayPayment_fail {k : Keeper σ Stake Rate} {msg : MsgRelayPayment} {s0 : σ}
    {creator : AccAddress} {pre : List RelayRequest} {relay : RelayRequest}
    {post : List RelayRequest} {s : σ} {t : List Call}
    (h : Reaches k msg s0 creator pre relay post s t) {s1 : σ} {t1 : List Call} {e : Err}
    (hb : relayPaymentBody k msg.Creator creator relay s =
      { state := s1, trace := t1, flow := Flow.fail e }) :
    RelayPayment k msg s0 = { state := s1, trace := t ++ t1, outcome := Outcome.error e } := by
  rw [RelayPayment_of_reaches h]
  simp [relayPaymentLoop, hb]

/-- A pass that panics ends the handler in that panic. -/
theorem RelayPayment_panic {k : Keeper σ Stake Rate} {msg : MsgRelayPayment} {s0 : σ}
    {creator : AccAddress} {pre : List RelayRequest} {relay : RelayRequest}
    {post : List RelayRequest} {s : σ} {t : List Call}
    (h : Reaches k msg s0 creator pre relay post s t) {s1 : σ} {t1 : List Call} {m : String}
    (hb : relayPaymentBody k msg.Creator creator relay s =
      { state := s1, trace := t1, flow := Flow.panic m }) :
    RelayPayment k msg s0 = { state := s1, trace := t ++ t1, outcome := Outcome.panic m } := by
  rw [RelayPayment_of_reaches h]
  simp [relayPaymentLoop, hb]

/-- A pass that falls through hands over to the loop over the remaining relays. -/
theorem RelayPayment_next {k : Keeper σ Stake Rate} {msg : MsgRelayPayment} {s0 : σ}
    {creator : AccAddress} {pre : List RelayRequest} {relay : RelayRequest}
    {post : List RelayRequest} {s : σ} {t : List Call}
    (h : Reaches k msg s0 creator pre relay post s t) {s1 : σ} {t1 : List Call}
    (hb : relayPaymentBody k msg.Creator creator relay s =
      { state := s1, trace := t1, flow := Flow.next }) :
    RelayPayment k msg s0 = relayPaymentLoop k msg.Creator creator post s1 (t ++ t1) := by
  rw [RelayPayment_of_reaches h]
  simp [relayPaymentLoop, hb]

/-- The calls of the loop extend the calls made before it. -/
theorem relayPaymentLoop_trace_prefix (k : Keeper σ Stake Rate) (c : String) (cr : AccAddress)
    (rs : List RelayRequest) (s0 : σ) (t0 : List Call) :
    ∃ t1, (relayPaymentLoop k c cr rs s0 t0).trace = t0 ++ t1 := by
  induction rs generalizing s0 t0 with
  | nil => exact ⟨[], by simp [relayPaymentLoop]⟩
  | cons r rs ih =>
    simp only [relayPaymentLoop]
    cases hf : (relayPaymentBody k c cr r s0).flow with
    | next =>
      obtain ⟨t1, h1⟩ := ih (relayPaymentBody k c cr r s0).state
        (t0 ++ (relayPaymentBody k c cr r s0).trace)
      exact ⟨(relayPaymentBody k c cr r s0).trace ++ t1, by simp [h1]⟩
    | fail e => exact ⟨_, rfl⟩
    | panic m => exact ⟨_, rfl⟩

/-! ## The exits of the loop body -/

/-- Exit of the body when the signer cannot be recovered. -/
theorem body_sig_error {k : Keeper σ Stake Rate} {c : String} {cr : AccAddress}
    {relay : RelayRequest} {s : σ} {e : String}
    (hsig : k.RecoverPubKeyFromRelay relay = .error e) :
    relayPaymentBody k c cr relay s =
      errorLogAndFormat s [] "relay_proof_sig" [("sig", relay.Sig)]
        "recover PubKey from relay failed" := by
  simp only [relayPaymentBody, hsig]

/-- Exit of the body when the signer address does not decode. -/
theorem body_hex_error {k : Keeper σ Stake Rate} {c : String} {cr : AccAddress}
    {relay : RelayRequest} {s : σ} {pk e : String}
    (hsig : k.RecoverPubKeyFromRelay relay = .ok pk)
    (hhex : k.AccAddressFromHex pk = .error e) :
    relayPaymentBody k c cr relay s =
      errorLogAndFormat s [] "relay_proof_user_addr" [("user", pk)]
        "invalid user address in relay msg" := by
  simp only [relayPaymentBody, hsig, hhex]

/-- Exit of the body when the provider does not decode. -/
theorem body_provider_error {k : Keeper σ Stake Rate} {c : String} {cr : AccAddress}
    {relay : RelayRequest} {s : σ} {pk e : String} {client : AccAddress}
    (hsig : k.RecoverPubKeyFromRelay relay = .ok pk)
    (hhex : k.AccAddressFromHex pk = .ok client)
    (hp : k.AccAddressFromBech32 relay.Provider = .error e) :
    relayPaymentBody k c cr relay s =
      errorLogAndFormat s [] "relay_proof_addr" [("provider", relay.Provider), ("creator", c)]
        "invalid servicer address in relay msg" := by
  simp only [relayPaymentBody, hsig, hhex, hp]

/-- Exit of the body when the provider is not the creator. -/
theorem body_provider_mismatch {k : Keeper σ Stake Rate} {c : String} {cr : AccAddress}
    {relay : RelayRequest} {s : σ} {pk : String} {client providerAddr : AccAddress}
    (hsig : k.RecoverPubKeyFromRelay relay = .ok pk)
    (hhex : k.AccAddressFromHex pk = .ok client)
    (hp : k.AccAddressFromBech32 relay.Provider = .ok providerAddr)
    (hne : providerAddr ≠ cr) :
    relayPaymentBody k c cr relay s =
      errorLogAndFormat s [] "relay_proof_addr" [("provider", relay.Provider), ("creator", c)]
        "invalid servicer address in relay msg, creator and signed servicer mismatch" := by
  simp only [relayPaymentBody, hsig, hhex, hp, if_pos hne]

/-- Exit of the body when the chain is not found and active. -/
theorem body_spec_error {k : Keeper σ Stake Rate} {c : String} {cr : AccAddress}
    {relay : RelayRequest} {s : σ} {pk : String} {client : AccAddress}
    (hsig : k.RecoverPubKeyFromRelay relay = .ok pk)
    (hhex : k.AccAddressFromHex pk = .ok client)
    (hp : k.AccAddressFromBech32 relay.Provider = .ok cr)
    (hspec : k.IsSpecFoundAndActive s relay.ChainID = false) :
    relayPaymentBody k c cr relay s =
      errorLogAndFormat s [] "relay_proof_spec" [("chainID", FormatUint10 relay.ChainID)]
        "invalid spec ID specified in proof" := by
  simp only [relayPaymentBody, hsig, hhex, hp, hspec, ne_eq, not_true_eq_false, if_false,
    if_true]

/-- Exit of the body when pairing validation returns an error. -/
theorem body_pairing_error {k : Keeper σ Stake Rate} {c : String} {cr : AccAddress}
    {relay : RelayRequest} {s : σ} {pk e : String} {client : AccAddress}
    (hsig : k.RecoverPubKeyFromRelay relay = .ok pk)
    (hhex : k.AccAddressFromHex pk = .ok client)
    (hp : k.AccAddressFromBech32 relay.Provider = .ok cr)
    (hspec : k.IsSpecFoundAndActive s relay.ChainID = true)
    (hpair : k.ValidatePairingForClient s relay.ChainID client cr (uint64 relay.BlockHeight)
      = .error e) :
    relayPaymentBody k c cr relay s =
      errorLogAndFormat s [] "relay_proof_pairing"
        [("client", k.AddrString client), ("provider", k.AddrString cr), ("error", e)]
        "invalid pairing on proof of relay" := by
  simp only [relayPaymentBody, hsig, hhex, hp, hspec, hpair, ne_eq, not_true_eq_false,
    if_false, Bool.true_eq_false]

/-- Exit of the body when the epoch payment is refused. -/
theorem body_add_error {k : Keeper σ Stake Rate} {c : String} {cr : AccAddress}
    {relay : RelayRequest} {s s1 : σ} {client : AccAddress} {valid overlap : Bool}
    {stake : Stake} {e : String}
    (hv : Validated k cr relay s client valid overlap stake)
    (hadd : k.AddEpochPayment s (epochStartFor k s relay overlap) client cr relay.CuSum
      (FormatUint16 relay.SessionId) = (.error e, s1)) :
    relayPaymentBody k c cr relay s =
      errorLogAndFormat s1 [addCall k s relay client cr overlap] "relay_proof_claim"
        [("session", FormatUint10 (epochStartFor k s relay overlap)),
         ("client", k.AddrString client), ("provider", k.AddrString cr), ("error", e),
         ("unique_ID", FormatUint16 relay.EpochId)]
        "double spending detected" := by
  obtain ⟨pk, hsig, hhex, hp, hspec, hpair⟩ := hv
  simp only [epochStartFor] at hadd
  simp only [relayPaymentBody, hsig, hhex, hp, hspec, hpair, hadd, ne_eq, not_true_eq_false,
    if_false, Bool.true_eq_false, addCall, epochStartFor]

/-- Exit of the body when the CU limit is enforced against the relay. -/
theorem body_limit_error {k : Keeper σ Stake Rate} {c : String} {cr : AccAddress}
    {relay : RelayRequest} {s s1 : σ} {client : AccAddress} {valid overlap : Bool}
    {stake : Stake} {total : Nat} {e : String}
    (hv : Validated k cr relay s client valid overlap stake)
    (hadd : k.AddEpochPayment s (epochStartFor k s relay overlap) client cr relay.CuSum
      (FormatUint16 relay.SessionId) = (.ok total, s1))
    (hcu : k.EnforceUserCUsUsageInEpoch s1 stake total = some e) :
    relayPaymentBody k c cr relay s =
      errorLogAndFormat s1 [addCall k s relay client cr overlap] "relay_proof_user_limit"
        [("session", FormatUint10 (epochStartFor k s relay overlap)),
         ("client", k.AddrString client), ("provider", k.AddrString cr), ("error", e),
         ("CU", FormatUint10 relay.CuSum), ("totalCUInEpoch", FormatUint10 total)]
        "user bypassed CU limit" := by
  obtain ⟨pk, hsig, hhex, hp, hspec, hpair⟩ := hv
  simp only [epochStartFor] at hadd
  simp only [relayPaymentBody, hsig, hhex, hp, hspec, hpair, hadd, hcu, ne_eq,
    not_true_eq_false, if_false, Bool.true_eq_false, addCall, epochStartFor]

/-- Exit of the body when the provider is not in the pairing. -/
theorem body_invalid_pairing {k : Keeper σ Stake Rate} {c : String} {cr : AccAddress}
    {relay : RelayRequest} {s s1 : σ} {client : AccAddress} {overlap : Bool}
    {stake : Stake} {total : Nat}
    (hv : Validated k cr relay s client false overlap stake)
    (hadd : k.AddEpochPayment s (epochStartFor k s relay overlap) client cr relay.CuSum
      (FormatUint16 relay.SessionId) = (.ok total, s1))
    (hcu : k.EnforceUserCUsUsageInEpoch s1 stake total = none) :
    relayPaymentBody k c cr relay s =
      errorLogAndFormat s1 [addCall k s relay client cr overlap] "relay_proof_pairing"
        [("client", k.AddrString client), ("provider", k.AddrString cr),
         ("error", "pairing result doesn't include servicer")]
        "invalid pairing claim on proof of relay" := by
  obtain ⟨pk, hsig, hhex, hp, hspec, hpair⟩ := hv
  simp only [epochStartFor] at hadd
  simp only [relayPaymentBody, hsig, hhex, hp, hspec, hpair, hadd, hcu, ne_eq,
    not_true_eq_false, if_false, Bool.true_eq_false, Bool.false_eq_true, addCall, epochStartFor]

/-- Exit of the body when the reward computed for a valid relay is zero. -/
theorem body_zero_reward {k : Keeper σ Stake Rate} {c : String} {cr : AccAddress}
    {relay : RelayRequest} {s s1 : σ} {client : AccAddress} {overlap : Bool}
    {stake : Stake} {total : Nat}
    (hv : Validated k cr relay s client true overlap stake)
    (hadd : k.AddEpochPayment s (epochStartFor k s relay overlap) client cr relay.CuSum
      (FormatUint16 relay.SessionId) = (.ok total, s1))
    (hcu : k.EnforceUserCUsUsageInEpoch s1 stake total = none)
    (hzero : k.Scale relay.CuSum (k.MintCoinsPerCU s1) = 0) :
    relayPaymentBody k c cr relay s =
      { state := s1, trace := [addCall k s relay client cr overlap], flow := Flow.next } := by
  obtain ⟨pk, hsig, hhex, hp, hspec, hpair⟩ := hv
  simp only [epochStartFor] at hadd
  simp only [relayPaymentBody, hsig, hhex, hp, hspec, hpair, hadd, hcu, hzero, ne_eq,
    not_true_eq_false, if_false, if_true, Bool.true_eq_false, addCall, epochStartFor]

/-- Exit of the body when the spec of an active chain is not found. -/
theorem body_spec_missing {k : Keeper σ Stake Rate} {c : String} {cr : AccAddress}
    {relay : RelayRequest} {s s1 : σ} {client : AccAddress} {overlap : Bool}
    {stake : Stake} {total : Nat}
    (hv : Validated k cr relay s client true overlap stake)
    (hadd : k.AddEpochPayment s (epochStartFor k s relay overlap) client cr relay.CuSum
      (FormatUint16 relay.SessionId) = (.ok total, s1))
    (hcu : k.EnforceUserCUsUsageInEpoch s1 stake total = none)
    (hpos : k.Scale relay.CuSum (k.MintCoinsPerCU s1) ≠ 0)
    (hget : k.GetSpec s1 relay.ChainID = none) :
    relayPaymentBody k c cr relay s =
      { state := s1
        trace := [addCall k s relay client cr overlap,
          Call.LavaError "relay_proof_spec"
            ((paymentDetails k s1 relay client cr total overlap).set "chainID"
              (FormatUint10 relay.ChainID))
            "failed to get spec for chain ID"]
        flow := Flow.panic ("failed to get spec for index: " ++ FormatUint10 relay.ChainID) } := by
  obtain ⟨pk, hsig, hhex, hp, hspec, hpair⟩ := hv
  simp only [epochStartFor] at hadd
  simp only [relayPaymentBody, hsig, hhex, hp, hspec, hpair, hadd, hcu, hget, if_neg hpos,
    ne_eq, not_true_eq_false, if_false, if_true, Bool.true_eq_false, addCall, epochStartFor,
    paymentDetails, rewardCoinsFor, List.singleton_append]

/-- Exit of the body when the client burn returns an error. -/
theorem body_burn_error {k : Keeper σ Stake Rate} {c : String} {cr : AccAddress}
    {relay : RelayRequest} {s s1 s2 : σ} {client : AccAddress} {overlap : Bool}
    {total : Nat} {spec : Spec} {ok : Bool} {e : String}
    (hr : ReadyToBurn k cr relay s client overlap total s1 spec)
    (hburn : k.BurnClientStake s1 spec.Name client (burnAmountFor k s1 relay) false
      = ((ok, some e), s2)) :
    relayPaymentBody k c cr relay s =
      errorLogAndFormat s2
        [addCall k s relay client cr overlap, burnCall k s1 relay client spec]
        "relay_proof_burn"
        (((paymentDetails k s1 relay client cr total overlap).set "amountToBurn"
          (burnAmountFor k s1 relay).String).set "error" e)
        "BurnUserStake failed on user" := by
  obtain ⟨stake, ⟨pk, hsig, hhex, hp, hspec, hpair⟩, hadd, hcu, hpos, hget⟩ := hr
  simp only [epochStartFor] at hadd
  simp only [burnAmountFor] at hburn
  simp only [relayPaymentBody, hsig, hhex, hp, hspec, hpair, hadd, hcu, hget, hburn,
    if_neg hpos, ne_eq, not_true_eq_false, if_false, if_true, Bool.true_eq_false, addCall,
    epochStartFor, paymentDetails, rewardCoinsFor, burnAmountFor, burnCall,
    List.singleton_append]

/-- Exit of the body when the client burn reports that it did not succeed. -/
theorem body_burn_failed {k : Keeper σ Stake Rate} {c : String} {cr : AccAddress}
    {relay : RelayRequest} {s s1 s2 : σ} {client : AccAddress} {overlap : Bool}
    {total : Nat} {spec : Spec}
    (hr : ReadyToBurn k cr relay s client overlap total s1 spec)
    (hburn : k.BurnClientStake s1 spec.Name client (burnAmountFor k s1 relay) false
      = ((false, none), s2)) :
    relayPaymentBody k c cr relay s =
      errorLogAndFormat s2
        [addCall k s relay client cr overlap, burnCall k s1 relay client spec]
        "relay_proof_burn"
        (((paymentDetails k s1 relay client cr total overlap).set "amountToBurn"
          (burnAmountFor k s1 relay).String).set "error"
          "insufficient funds or didn't find user")
        "BurnUserStake failed on user, did not find user, or insufficient funds" := by
  obtain ⟨stake, ⟨pk, hsig, hhex, hp, hspec, hpair⟩, hadd, hcu, hpos, hget⟩ := hr
  simp only [epochStartFor] at hadd
  simp only [burnAmountFor] at hburn
  simp only [relayPaymentBody, hsig, hhex, hp, hspec, hpair, hadd, hcu, hget, hburn,
    if_neg hpos, ne_eq, not_true_eq_false, if_false, if_true, Bool.true_eq_false, addCall,
    epochStartFor, paymentDetails, rewardCoinsFor, burnAmountFor, burnCall,
    List.singleton_append]

/-- Exit of the body when the mint fails after the burn. -/
theorem body_mint_panic {k : Keeper σ Stake Rate} {c : String} {cr : AccAddress}
    {relay : RelayRequest} {s s1 s2 s3 : σ} {client : AccAddress} {overlap : Bool}
    {total : Nat} {spec : Spec} {e : String}
    (hr : ReadyToBurn k cr relay s client overlap total s1 spec)
    (hburn : k.BurnClientStake s1 spec.Name client (burnAmountFor k s1 relay) false
      = ((true, none), s2))
    (hmint : k.MintCoins s2 k.ModuleName (rewardCoinsFor k s1 relay) = (some e, s3)) :
    relayPaymentBody k c cr relay s =
      { state := s3
        trace := [addCall k s relay client cr overlap, burnCall k s1 relay client spec,
          mintCall k s1 relay,
          Call.LavaError "relay_payment"
            ((paymentDetails k s1 relay client cr total overlap).set "error" e)
            "MintCoins Failed,"]
        flow := Flow.panic ("module failed to mint coins to give to servicer: " ++ e) } := by
  obtain ⟨stake, ⟨pk, hsig, hhex, hp, hspec, hpair⟩, hadd, hcu, hpos, hget⟩ := hr
  simp only [epochStartFor] at hadd
  simp only [burnAmountFor] at hburn
  simp only [rewardCoinsFor] at hmint
  simp only [relayPaymentBody, hsig, hhex, hp, hspec, hpair, hadd, hcu, hget, hburn, hmint,
    if_neg hpos, ne_eq, not_true_eq_false, if_false, if_true, Bool.true_eq_false, addCall,
    epochStartFor, paymentDetails, rewardCoinsFor, burnAmountFor, burnCall, mintCall,
    List.singleton_append, List.cons_append, List.nil_append]

/-- Exit of the body when the transfer fails after the burn and the mint. -/
theorem body_send_panic {k : Keeper σ Stake Rate} {c : String} {cr : AccAddress}
    {relay : RelayRequest} {s s1 s2 s3 s4 : σ} {client : AccAddress} {overlap : Bool}
    {total : Nat} {spec : Spec} {e : String}
    (hr : ReadyToBurn k cr relay s client overlap total s1 spec)
    (hburn : k.BurnClientStake s1 spec.Name client (burnAmountFor k s1 relay) false
      = ((true, none), s2))
    (hmint : k.MintCoins s2 k.ModuleName (rewardCoinsFor k s1 relay) = (none, s3))
    (hsend : k.SendCoinsFromModuleToAccount s3 k.ModuleName cr (rewardCoinsFor k s1 relay)
      = (some e, s4)) :
    relayPaymentBody k c cr relay s =
      { state := s4
        trace := [addCall k s relay client cr overlap, burnCall k s1 relay client spec,
          mintCall k s1 relay, sendCall k s1 relay cr,
          Call.LavaError "relay_payment"
            ((paymentDetails k s1 relay client cr total overlap).set "error" e)
            "SendCoinsFromModuleToAccount Failed,"]
        flow := Flow.panic ("failed to transfer minted new coins to servicer, " ++ e ++
          " account: " ++ k.AddrString cr) } := by
  obtain ⟨stake, ⟨pk, hsig, hhex, hp, hspec, hpair⟩, hadd, hcu, hpos, hget⟩ := hr
  simp only [epochStartFor] at hadd
  simp only [burnAmountFor] at hburn
  simp only [rewardCoinsFor] at hmint hsend
  simp only [relayPaymentBody, hsig, hhex, hp, hspec, hpair, hadd, hcu, hget, hburn, hmint,
    hsend, if_neg hpos, ne_eq, not_true_eq_false, if_false, if_true, Bool.true_eq_false,
    addCall, epochStartFor, paymentDetails, rewardCoinsFor, burnAmountFor, burnCall, mintCall,
    sendCall, List.singleton_append, List.cons_append, List.nil_append]

/-- Exit of the body when the relay is paid. -/
theorem body_paid {k : Keeper σ Stake Rate} {c : String} {cr : AccAddress}
    {relay : RelayRequest} {s s1 s2 s3 s4 : σ} {client : AccAddress} {overlap : Bool}
    {total : Nat} {spec : Spec}
    (hr : ReadyToBurn k cr relay s client overlap total s1 spec)
    (hburn : k.BurnClientStake s1 spec.Name client (burnAmountFor k s1 relay) false
      = ((true, none), s2))
    (hmint : k.MintCoins s2 k.ModuleName (rewardCoinsFor k s1 relay) = (none, s3))
    (hsend : k.SendCoinsFromModuleToAccount s3 k.ModuleName cr (rewardCoinsFor k s1 relay)
      = (none, s4)) :
    relayPaymentBody k c cr relay s =
      { state := s4
        trace := [addCall k s relay client cr overlap, burnCall k s1 relay client spec,
          mintCall k s1 relay, sendCall k s1 relay cr,
          Call.LogLavaEvent "relay_payment"
            ((paymentDetails k s1 relay client cr total overlap).set "clientFee"
              (burnAmountFor k s1 relay).String)
            "New Proof Of Work Was Accepted"]
        flow := Flow.next } := by
  obtain ⟨stake, ⟨pk, hsig, hhex, hp, hspec, hpair⟩, hadd, hcu, hpos, hget⟩ := hr
  simp only [epochStartFor] at hadd
  simp only [burnAmountFor] at hburn
  simp only [rewardCoinsFor] at hmint hsend
  simp only [relayPaymentBody, hsig, hhex, hp, hspec, hpair, hadd, hcu, hget, hburn, hmint,
    hsend, if_neg hpos, ne_eq, not_true_eq_false, if_false, if_true, Bool.true_eq_false,
    addCall, epochStartFor, paymentDetails, rewardCoinsFor, burnAmountFor, burnCall, mintCall,
    sendCall, List.singleton_append, List.cons_append, List.nil_append]

/-- A pass of the loop body that burns, mints or transfers has had its epoch
payment accepted, and that payment is the first call of the pass. -/
theorem body_pays_only_if_recorded (k : Keeper σ Stake Rate) (c : String) (cr : AccAddress)
    (relay : RelayRequest) (s : σ)
    (h : ∃ x ∈ (relayPaymentBody k c cr relay s).trace, x.movesTokens = true) :
    ∃ client isOverlap total,
      (k.AddEpochPayment s (epochStartFor k s relay isOverlap) client cr relay.CuSum
        (FormatUint16 relay.SessionId)).1 = .ok total ∧
      (relayPaymentBody k c cr relay s).trace.head? =
        some (addCall k s relay client cr isOverlap) := by
  have no : ∀ (st : σ) (t : List Call) (n : String) (a : Attrs) (d : String),
      (∀ x ∈ t, x.movesTokens = false) →
      ¬ ∃ x ∈ (errorLogAndFormat st t n a d).trace, x.movesTokens = true := by
    intro st t n a d ht ⟨x, hx, hm⟩
    simp only [errorLogAndFormat, List.mem_append, List.mem_singleton] at hx
    rcases hx with hx | rfl
    · rw [ht x hx] at hm; cases hm
    · cases hm
  have nil : ∀ x ∈ ([] : List Call), x.movesTokens = false := by simp
  cases hsig : k.RecoverPubKeyFromRelay relay with
  | error e => rw [body_sig_error hsig] at h; exact absurd h (no _ _ _ _ _ nil)
  | ok pk =>
  cases hhex : k.AccAddressFromHex pk with
  | error e => rw [body_hex_error hsig hhex] at h; exact absurd h (no _ _ _ _ _ nil)
  | ok client =>
  cases hp : k.AccAddressFromBech32 relay.Provider with
  | error e => rw [body_provider_error hsig hhex hp] at h; exact absurd h (no _ _ _ _ _ nil)
  | ok providerAddr =>
  by_cases hne : providerAddr = cr
  swap
  · rw [body_provider_mismatch hsig hhex hp hne] at h; exact absurd h (no _ _ _ _ _ nil)
  subst hne
  cases hspec : k.IsSpecFoundAndActive s relay.ChainID with
  | false => rw [body_spec_error hsig hhex hp hspec] at h; exact absurd h (no _ _ _ _ _ nil)
  | true =>
  cases hpair : k.ValidatePairingForClient s relay.ChainID client providerAddr
      (uint64 relay.BlockHeight) with
  | error e =>
    rw [body_pairing_error hsig hhex hp hspec hpair] at h; exact absurd h (no _ _ _ _ _ nil)
  | ok res =>
  obtain ⟨valid, overlap, stake⟩ := res
  have hv : Validated k providerAddr relay s client valid overlap stake :=
    ⟨pk, hsig, hhex, hp, hspec, hpair⟩
  have one : ∀ x ∈ [addCall k s relay client providerAddr overlap],
      x.movesTokens = false := by
    simp [addCall, Call.movesTokens, Call.isBurn, Call.isMint, Call.isSend]
  cases hadd : k.AddEpochPayment s (epochStartFor k s relay overlap) client
      providerAddr relay.CuSum (FormatUint16 relay.SessionId) with
  | mk added s1 =>
  cases added with
  | error e => rw [body_add_error hv hadd] at h; exact absurd h (no _ _ _ _ _ one)
  | ok total =>
  refine ⟨client, overlap, total, by rw [hadd], ?_⟩
  cases hcu : k.EnforceUserCUsUsageInEpoch s1 stake total with
  | some e => rw [body_limit_error hv hadd hcu]; rfl
  | none =>
  cases valid with
  | false => rw [body_invalid_pairing hv hadd hcu]; rfl
  | true =>
  by_cases hz : k.Scale relay.CuSum (k.MintCoinsPerCU s1) = 0
  · rw [body_zero_reward hv hadd hcu hz]; rfl
  cases hget : k.GetSpec s1 relay.ChainID with
  | none => rw [body_spec_missing hv hadd hcu hz hget]; rfl
  | some spec =>
  have hr : ReadyToBurn k providerAddr relay s client overlap total s1 spec :=
    ⟨stake, hv, hadd, hcu, hz, hget⟩
  cases hburn : k.BurnClientStake s1 spec.Name client (burnAmountFor k s1 relay) false with
  | mk burned s2 =>
  obtain ⟨ok, err2⟩ := burned
  cases err2 with
  | some e => rw [body_burn_error hr hburn]; rfl
  | none =>
  cases ok with
  | false => rw [body_burn_failed hr hburn]; rfl
  | true =>
  cases hmint : k.MintCoins s2 k.ModuleName (rewardCoinsFor k s1 relay) with
  | mk minted s3 =>
  cases minted with
  | some e => rw [body_mint_panic hr hburn hmint]; rfl
  | none =>
  cases hsend : k.SendCoinsFromModuleToAccount s3 k.ModuleName providerAddr
      (rewardCoinsFor k s1 relay) with
  | mk sent s4 =>
  cases sent with
  | some e => rw [body_send_panic hr hburn hmint hsend]; rfl
  | none => rw [body_paid hr hburn hmint hsend]; rfl

/-! ## The checks before the epoch payment -/

/-- C9: when signature recovery fails for a relay that the batch reaches, the
handler returns the error "recover PubKey from relay failed", the state is the
one in which the relay was reached, and the only call made for the relay is
the error log: no epoch payment update, no burn, no mint, no transfer. -/
theorem C9_signature_recovery_failure (k : Keeper σ Stake Rate) (msg : MsgRelayPayment)
    (s0 : σ) (creator : AccAddress) (pre : List RelayRequest) (relay : RelayRequest)
    (post : List RelayRequest) (s : σ) (t : List Call) (err : String)
    (hreach : Reaches k msg s0 creator pre relay post s t)
    (hsig : k.RecoverPubKeyFromRelay relay = .error err) :
    RelayPayment k msg s0 =
      { state := s
        trace := t ++ [Call.LavaError "relay_proof_sig" [("sig", relay.Sig)]
          "recover PubKey from relay failed"]
        outcome := Outcome.error (Err.lava "relay_proof_sig" [("sig", relay.Sig)]
          "recover PubKey from relay failed") } ∧
    (RelayPayment k msg s0).outcome.description = some "recover PubKey from relay failed" ∧
    ∀ c ∈ (RelayPayment k msg s0).trace.drop t.length,
      c.isAddEpochPayment = false ∧ c.movesTokens = false := by
  have hb : relayPaymentBody k msg.Creator creator relay s =
      { state := s
        trace := [Call.LavaError "relay_proof_sig" [("sig", relay.Sig)]
          "recover PubKey from relay failed"]
        flow := Flow.fail (Err.lava "relay_proof_sig" [("sig", relay.Sig)]
          "recover PubKey from relay failed") } := by
    rw [body_sig_error hsig]; rfl
  have h := RelayPayment_fail hreach hb
  refine ⟨h, ?_, ?_⟩
  · rw [h]; rfl
  · rw [h]
    simp [Call.isAddEpochPayment, Call.movesTokens, Call.isBurn, Call.isMint, Call.isSend]

/-- C9 at a concrete batch: the second relay carries no signature. -/
theorem C9_signature_recovery_failure_witness :
    Reaches memKeeper { Creator := "bob", Relays := [memRelay 3 7, relayNoSig] } memInit bob
      [memRelay 3 7] relayNoSig [] memPaid.state memPaid.trace ∧
    memKeeper.RecoverPubKeyFromRelay relayNoSig = .error "no signature" ∧
    (RelayPayment memKeeper { Creator := "bob", Relays := [memRelay 3 7, relayNoSig] }
      memInit).outcome.description = some "recover PubKey from relay failed" :=
  ⟨⟨rfl, rfl, rfl, rfl, rfl⟩, rfl,
   (C9_signature_recovery_failure memKeeper
      { Creator := "bob", Relays := [memRelay 3 7, relayNoSig] } memInit bob
      [memRelay 3 7] relayNoSig [] memPaid.state memPaid.trace "no signature"
      ⟨rfl, rfl, rfl, rfl, rfl⟩ rfl).2.1⟩

/-- C8: when the provider named by a relay that the batch reaches does not
decode to the creator of the message (it does not decode at all, or decodes
to another address), the handler returns an error, the state is the one in
which the relay was reached, and the only call made for the relay is the
error log: no epoch payment update, no burn, no mint, no transfer.  When the
signer of the relay is recovered, the error is one of the two "invalid
servicer address" errors. -/
theorem C8_provider_is_not_creator (k : Keeper σ Stake Rate) (msg : MsgRelayPayment)
    (s0 : σ) (creator : AccAddress) (pre : List RelayRequest) (relay : RelayRequest)
    (post : List RelayRequest) (s : σ) (t : List Call)
    (hreach : Reaches k msg s0 creator pre relay post s t)
    (hprov : k.AccAddressFromBech32 relay.Provider ≠ .ok creator) :
    (∃ name attrs description,
      RelayPayment k msg s0 =
        { state := s
          trace := t ++ [Call.LavaError name attrs description]
          outcome := Outcome.error (Err.lava name attrs description) } ∧
      ∀ pubKeyAddress client,
        k.RecoverPubKeyFromRelay relay = .ok pubKeyAddress →
        k.AccAddressFromHex pubKeyAddress = .ok client →
        name = "relay_proof_addr" ∧
        attrs = [("provider", relay.Provider), ("creator", msg.Creator)] ∧
        (description = "invalid servicer address in relay msg" ∨
         description =
          "invalid servicer address in relay msg, creator and signed servicer mismatch")) ∧
    (RelayPayment k msg s0).outcome.isError = true ∧
    (RelayPayment k msg s0).state = s ∧
    ∀ c ∈ (RelayPayment k msg s0).trace.drop t.length,
      c.isAddEpochPayment = false ∧ c.movesTokens = false := by
  have key : ∃ name attrs description,
      relayPaymentBody k msg.Creator creator relay s =
        { state := s
          trace := [Call.LavaError name attrs description]
          flow := Flow.fail (Err.lava name attrs description) } ∧
      ∀ pubKeyAddress client,
        k.RecoverPubKeyFromRelay relay = .ok pubKeyAddress →
        k.AccAddressFromHex pubKeyAddress = .ok client →
        name = "relay_proof_addr" ∧
        attrs = [("provider", relay.Provider), ("creator", msg.Creator)] ∧
        (description = "invalid servicer address in relay msg" ∨
         description =
          "invalid servicer address in relay msg, creator and signed servicer mismatch") := by
    cases hsig : k.RecoverPubKeyFromRelay relay with
    | error e =>
      exact ⟨_, _, _, body_sig_error hsig, by simp⟩
    | ok pk =>
      cases hhex : k.AccAddressFromHex pk with
      | error e =>
        refine ⟨_, _, _, body_hex_error hsig hhex, ?_⟩
        intro pk2 client h2 h3
        cases h2
        rw [hhex] at h3
        cases h3
      | ok client =>
        cases hp : k.AccAddressFromBech32 relay.Provider with
        | error e =>
          refine ⟨_, _, _, body_provider_error hsig hhex hp, ?_⟩
          intro _ _ _ _
          exact ⟨rfl, rfl, Or.inl rfl⟩
        | ok providerAddr =>
          have hne : providerAddr ≠ creator := by
            intro h
            exact hprov (by rw [hp, h])
          refine ⟨_, _, _, body_provider_mismatch hsig hhex hp hne, ?_⟩
          intro _ _ _ _
          exact ⟨rfl, rfl, Or.inr rfl⟩
  obtain ⟨name, attrs, description, hb, hdesc⟩ := key
  have h := RelayPayment_fail hreach hb
  refine ⟨⟨name, attrs, description, h, hdesc⟩, ?_, ?_, ?_⟩
  · rw [h]; rfl
  · rw [h]
  · rw [h]
    simp [Call.isAddEpochPayment, Call.movesTokens, Call.isBurn, Call.isMint, Call.isSend]

/-- C8 at a concrete batch: the second relay names provider carol, the creator is bob. -/
theorem C8_provider_is_not_creator_witness :
    Reaches memKeeper { Creator := "bob", Relays := [memRelay 3 7, relayOtherProvider] }
      memInit bob [memRelay 3 7] relayOtherProvider [] memPaid.state memPaid.trace ∧
    memKeeper.AccAddressFromBech32 relayOtherProvider.Provider ≠ .ok bob ∧
    (RelayPayment memKeeper { Creator := "bob", Relays := [memRelay 3 7, relayOtherProvider] }
      memInit).outcome.isError = true ∧
    (RelayPayment memKeeper { Creator := "bob", Relays := [memRelay 3 7, relayOtherProvider] }
      memInit).state = memPaid.state :=
  ⟨⟨rfl, rfl, rfl, rfl, rfl⟩, (by intro h; cases h),
   (C8_provider_is_not_creator memKeeper
      { Creator := "bob", Relays := [memRelay 3 7, relayOtherProvider] } memInit bob
      [memRelay 3 7] relayOtherProvider [] memPaid.state memPaid.trace
      ⟨rfl, rfl, rfl, rfl, rfl⟩ (by intro h; cases h)).2.1,
   (C8_provider_is_not_creator memKeeper
      { Creator := "bob", Relays := [memRelay 3 7, relayOtherProvider] } memInit bob
      [memRelay 3 7] relayOtherProvider [] memPaid.state memPaid.trace
      ⟨rfl, rfl, rfl, rfl, rfl⟩ (by intro h; cases h)).2.2.1⟩

/-- C10: when the chain of a relay that the batch reaches is not reported
found and active by the spec keeper, the handler returns an error, the state
is the one in which the relay was reached, and the only call made for the
relay is the error log: no epoch payment update, no burn, no mint, no
transfer.  When the relay gets to the spec check (its signer is recovered and
its provider decodes to the creator), the error is "invalid spec ID specified
in proof". -/
theorem C10_spec_not_active (k : Keeper σ Stake Rate) (msg : MsgRelayPayment)
    (s0 : σ) (creator : AccAddress) (pre : List RelayRequest) (relay : RelayRequest)
    (post : List RelayRequest) (s : σ) (t : List Call)
    (hreach : Reaches k msg s0 creator pre relay post s t)
    (hspec : k.IsSpecFoundAndActive s relay.ChainID = false) :
    (∀ pubKeyAddress client,
      k.RecoverPubKeyFromRelay relay = .ok pubKeyAddress →
      k.AccAddressFromHex pubKeyAddress = .ok client →
      k.AccAddressFromBech32 relay.Provider = .ok creator →
      RelayPayment k msg s0 =
        { state := s
          trace := t ++ [Call.LavaError "relay_proof_spec"
            [("chainID", FormatUint10 relay.ChainID)] "invalid spec ID specified in proof"]
          outcome := Outcome.error (Err.lava "relay_proof_spec"
            [("chainID", FormatUint10 relay.ChainID)] "invalid spec ID specified in proof") } ∧
      (RelayPayment k msg s0).outcome.description =
        some "invalid spec ID specified in proof") ∧
    (RelayPayment k msg s0).outcome.isError = true ∧
    (RelayPayment k msg s0).state = s ∧
    ∀ c ∈ (RelayPayment k msg s0).trace.drop t.length,
      c.isAddEpochPayment = false ∧ c.movesTokens = false := by
  have key : ∃ name attrs description,
      relayPaymentBody k msg.Creator creator relay s =
        { state := s
          trace := [Call.LavaError name attrs description]
          flow := Flow.fail (Err.lava name attrs description) } ∧
      ∀ pubKeyAddress client,
        k.RecoverPubKeyFromRelay relay = .ok pubKeyAddress →
        k.AccAddressFromHex pubKeyAddress = .ok client →
        k.AccAddressFromBech32 relay.Provider = .ok creator →
        name = "relay_proof_spec" ∧
        attrs = [("chainID", FormatUint10 relay.ChainID)] ∧
        description = "invalid spec ID specified in proof" := by
    cases hsig : k.RecoverPubKeyFromRelay relay with
    | error e =>
      exact ⟨_, _, _, body_sig_error hsig, by simp⟩
    | ok pk =>
      cases hhex : k.AccAddressFromHex pk with
      | error e =>
        refine ⟨_, _, _, body_hex_error hsig hhex, ?_⟩
        intro pk2 client h2 h3
        cases h2
        rw [hhex] at h3
        cases h3
      | ok client =>
        cases hp : k.AccAddressFromBech32 relay.Provider with
        | error e =>
          exact ⟨_, _, _, body_provider_error hsig hhex hp, by simp⟩
        | ok providerAddr =>
          by_cases hne : providerAddr = creator
          · subst hne
            exact ⟨_, _, _, body_spec_error hsig hhex hp hspec,
              fun _ _ _ _ _ => ⟨rfl, rfl, rfl⟩⟩
          · refine ⟨_, _, _, body_provider_mismatch hsig hhex hp hne, ?_⟩
            intro _ _ _ _ h5
            cases h5
            exact absurd rfl hne
  obtain ⟨name, attrs, description, hb, hdesc⟩ := key
  have h := RelayPayment_fail hreach hb
  refine ⟨?_, ?_, ?_, ?_⟩
  · intro pk client h1 h2 h3
    obtain ⟨rfl, rfl, rfl⟩ := hdesc pk client h1 h2 h3
    exact ⟨h, by rw [h]; rfl⟩
  · rw [h]; rfl
  · rw [h]
  · rw [h]
    simp [Call.isAddEpochPayment, Call.movesTokens, Call.isBurn, Call.isMint, Call.isSend]

/-- C10 at a concrete batch: the second relay is for chain 9, which is not active. -/
theorem C10_spec_not_active_witness :
    Reaches memKeeper { Creator := "bob", Relays := [memRelay 3 7, relayUnknownChain] }
      memInit bob [memRelay 3 7] relayUnknownChain [] memPaid.state memPaid.trace ∧
    memKeeper.IsSpecFoundAndActive memPaid.state relayUnknownChain.ChainID = false ∧
    (RelayPayment memKeeper { Creator := "bob", Relays := [memRelay 3 7, relayUnknownChain] }
      memInit).outcome.description = some "invalid spec ID specified in proof" :=
  ⟨⟨rfl, rfl, rfl, rfl, rfl⟩, rfl,
   ((C10_spec_not_active memKeeper
      { Creator := "bob", Relays := [memRelay 3 7, relayUnknownChain] } memInit bob
      [memRelay 3 7] relayUnknownChain [] memPaid.state memPaid.trace
      ⟨rfl, rfl, rfl, rfl, rfl⟩ rfl).1 "alice" alice rfl rfl rfl).2⟩

/-! ## The epoch payment and the CU limit -/

/-- C2: when `EnforceUserCUsUsageInEpoch` rejects the total that
`AddEpochPayment` returned for a relay that the batch reaches, the handler
returns the error "user bypassed CU limit"; the calls made for the relay are
the epoch payment and the error log, so nothing is burned, minted or
transferred for it; and the state returned is the state `AddEpochPayment`
left behind, in which the CU of the relay has been added. -/
theorem C2_cu_limit_rejected (k : Keeper σ Stake Rate) (msg : MsgRelayPayment)
    (s0 : σ) (creator : AccAddress) (pre : List RelayRequest) (relay : RelayRequest)
    (post : List RelayRequest) (s : σ) (t : List Call) (client : AccAddress)
    (isValidPairing isOverlap : Bool) (userStake : Stake) (total : Nat) (err : String) (s1 : σ)
    (hreach : Reaches k msg s0 creator pre relay post s t)
    (hv : Validated k creator relay s client isValidPairing isOverlap userStake)
    (hadd : k.AddEpochPayment s (epochStartFor k s relay isOverlap) client creator relay.CuSum
      (FormatUint16 relay.SessionId) = (.ok total, s1))
    (hcu : k.EnforceUserCUsUsageInEpoch s1 userStake total = some err) :
    RelayPayment k msg s0 =
      { state := s1
        trace := t ++
          [Call.AddEpochPayment (epochStartFor k s relay isOverlap) client creator relay.CuSum
            (FormatUint16 relay.SessionId),
           Call.LavaError "relay_proof_user_limit"
            [("session", FormatUint10 (epochStartFor k s relay isOverlap)),
             ("client", k.AddrString client), ("provider", k.AddrString creator),
             ("error", err), ("CU", FormatUint10 relay.CuSum),
             ("totalCUInEpoch", FormatUint10 total)]
            "user bypassed CU limit"]
        outcome := Outcome.error (Err.lava "relay_proof_user_limit"
          [("session", FormatUint10 (epochStartFor k s relay isOverlap)),
           ("client", k.AddrString client), ("provider", k.AddrString creator),
           ("error", err), ("CU", FormatUint10 relay.CuSum),
           ("totalCUInEpoch", FormatUint10 total)]
          "user bypassed CU limit") } ∧
    (RelayPayment k msg s0).outcome.description = some "user bypassed CU limit" ∧
    (RelayPayment k msg s0).state =
      (k.AddEpochPayment s (epochStartFor k s relay isOverlap) client creator relay.CuSum
        (FormatUint16 relay.SessionId)).2 ∧
    ∀ c ∈ (RelayPayment k msg s0).trace.drop t.length,
      c.isBurn = false ∧ c.isMint = false ∧ c.isSend = false := by
  have h := RelayPayment_fail hreach (body_limit_error (c := msg.Creator) hv hadd hcu)
  simp only [List.append_assoc, List.singleton_append, addCall] at h
  refine ⟨h, ?_, ?_, ?_⟩
  · rw [h]; rfl
  · rw [h, hadd]
  · rw [h]
    simp [Call.isBurn, Call.isMint, Call.isSend]

/-- C2 at a concrete batch: after 3 CU, a relay of 8 CU takes alice to 11 CU,
above her limit of 10; the 11 CU stay recorded. -/
theorem C2_cu_limit_rejected_witness :
    Reaches memKeeper { Creator := "bob", Relays := [memRelay 3 7, memRelay 8 9] } memInit bob
      [memRelay 3 7] (memRelay 8 9) [] memPaid.state memPaid.trace ∧
    Validated memKeeper bob (memRelay 8 9) memPaid.state alice true false 10 ∧
    (memKeeper.AddEpochPayment memPaid.state
      (epochStartFor memKeeper memPaid.state (memRelay 8 9) false) alice bob 8 "9").1
      = .ok 11 ∧
    memKeeper.EnforceUserCUsUsageInEpoch
      (memKeeper.AddEpochPayment memPaid.state 20 alice bob 8 "9").2 10 11
      = some "CU limit exceeded" ∧
    (RelayPayment memKeeper { Creator := "bob", Relays := [memRelay 3 7, memRelay 8 9] }
      memInit).outcome.description = some "user bypassed CU limit" ∧
    (RelayPayment memKeeper { Creator := "bob", Relays := [memRelay 3 7, memRelay 8 9] }
      memInit).state.recordedCU 20 alice bob = 11 :=
  ⟨⟨rfl, rfl, rfl, rfl, rfl⟩, ⟨"alice", rfl, rfl, rfl, rfl, rfl⟩, rfl, rfl,
   (C2_cu_limit_rejected memKeeper
      { Creator := "bob", Relays := [memRelay 3 7, memRelay 8 9] } memInit bob
      [memRelay 3 7] (memRelay 8 9) [] memPaid.state memPaid.trace alice true false 10 11
      "CU limit exceeded" (memKeeper.AddEpochPayment memPaid.state 20 alice bob 8 "9").2
      ⟨rfl, rfl, rfl, rfl, rfl⟩ ⟨"alice", rfl, rfl, rfl, rfl, rfl⟩ rfl rfl).2.1,
   rfl⟩

/-! ## Burn, mint and transfer -/

/-- The order check over two lists of calls made one after the other. -/
theorem burnPrecedesMint_append (prev : Option Call) (t1 t2 : List Call) :
    burnPrecedesMint prev (t1 ++ t2) =
      (burnPrecedesMint prev t1 && burnPrecedesMint (t1.getLast?.or prev) t2) := by
  induction t1 generalizing prev with
  | nil => simp [burnPrecedesMint]
  | cons c rest ih =>
    simp only [List.cons_append, burnPrecedesMint, ih]
    cases rest with
    | nil => simp [burnPrecedesMint]
    | cons d rest2 =>
      simp [List.getLast?_cons_cons, Bool.and_assoc]
      cases h : (d :: rest2).getLast? <;> simp_all

/-- Calls that are in order after no call are in order after any call. -/
theorem burnPrecedesMint_of_none (prev : Option Call) (tr : List Call)
    (h : burnPrecedesMint none tr = true) : burnPrecedesMint prev tr = true := by
  cases tr with
  | nil => rfl
  | cons c rest =>
    simp only [burnPrecedesMint, Option.map_none', Option.getD_none, Bool.or_false,
      Bool.and_eq_true] at h ⊢
    exact ⟨by simp [h.1], h.2⟩

/-- In one pass of the loop body, every mint comes right after a burn. -/
theorem body_burnPrecedesMint (k : Keeper σ Stake Rate) (c : String) (cr : AccAddress)
    (relay : RelayRequest) (s : σ) :
    burnPrecedesMint none (relayPaymentBody k c cr relay s).trace = true := by
  simp only [relayPaymentBody]
  repeat' split
  all_goals simp [errorLogAndFormat, burnPrecedesMint, Call.isMint, Call.isBurn]

/-- In the whole loop, every mint comes right after a burn. -/
theorem loop_burnPrecedesMint (k : Keeper σ Stake Rate) (c : String) (cr : AccAddress)
    (rs : List RelayRequest) (s : σ) (t : List Call)
    (ht : burnPrecedesMint none t = true) :
    burnPrecedesMint none (relayPaymentLoop k c cr rs s t).trace = true := by
  induction rs generalizing s t with
  | nil => simpa [relayPaymentLoop] using ht
  | cons r rest ih =>
    have hstep : burnPrecedesMint none (t ++ (relayPaymentBody k c cr r s).trace) = true := by
      rw [burnPrecedesMint_append, ht, Bool.true_and]
      exact burnPrecedesMint_of_none _ _ (body_burnPrecedesMint k c cr r s)
    simp only [relayPaymentLoop]
    cases hf : (relayPaymentBody k c cr r s).flow with
    | next => exact ih _ _ hstep
    | fail e => exact hstep
    | panic m => exact hstep

/-- In a whole run of the handler, every mint comes right after a burn. -/
theorem RelayPayment_burnPrecedesMint (k : Keeper σ Stake Rate) (msg : MsgRelayPayment)
    (s0 : σ) : burnPrecedesMint none (RelayPayment k msg s0).trace = true := by
  simp only [RelayPayment]
  cases k.AccAddressFromBech32 msg.Creator with
  | error e => rfl
  | ok creator => exact loop_burnPrecedesMint k msg.Creator creator msg.Relays s0 [] rfl

/-- C4: in every run of the handler a mint is made only right after a burn of
client stake, so the burn of a relay is attempted before its mint.  And when
`BurnClientStake` returns an error, or reports that it did not succeed, for a
relay that the batch reaches, the handler returns one of the two "BurnUserStake
failed" errors; the calls made for the relay are the epoch payment, the burn
and the error log, so neither `MintCoins` nor `SendCoinsFromModuleToAccount`
is invoked for it. -/
theorem C4_burn_before_mint (k : Keeper σ Stake Rate) (msg : MsgRelayPayment)
    (s0 : σ) (creator : AccAddress) (pre : List RelayRequest) (relay : RelayRequest)
    (post : List RelayRequest) (s : σ) (t : List Call) (client : AccAddress)
    (isOverlap : Bool) (total : Nat) (s1 : σ) (spec : Spec)
    (burnSucceeded : Bool) (err2 : Option String) (s2 : σ)
    (hreach : Reaches k msg s0 creator pre relay post s t)
    (hr : ReadyToBurn k creator relay s client isOverlap total s1 spec)
    (hburn : k.BurnClientStake s1 spec.Name client (burnAmountFor k s1 relay) false
      = ((burnSucceeded, err2), s2))
    (hfail : err2 ≠ none ∨ burnSucceeded = false) :
    (∀ (m : MsgRelayPayment) (st : σ), burnPrecedesMint none (RelayPayment k m st).trace = true) ∧
    RelayPayment k msg s0 =
      { state := s2
        trace := t ++
          [Call.AddEpochPayment (epochStartFor k s relay isOverlap) client creator relay.CuSum
            (FormatUint16 relay.SessionId),
           Call.BurnClientStake spec.Name client
            { Amount := k.Scale relay.CuSum (k.GetCoinsPerCU s1), Denom := "stake" } false,
           Call.LavaError "relay_proof_burn"
            (((paymentDetails k s1 relay client creator total isOverlap).set "amountToBurn"
              (burnAmountFor k s1 relay).String).set "error"
              (err2.getD "insufficient funds or didn't find user"))
            (if err2.isSome then "BurnUserStake failed on user"
              else "BurnUserStake failed on user, did not find user, or insufficient funds")]
        outcome := Outcome.error (Err.lava "relay_proof_burn"
          (((paymentDetails k s1 relay client creator total isOverlap).set "amountToBurn"
            (burnAmountFor k s1 relay).String).set "error"
            (err2.getD "insufficient funds or didn't find user"))
          (if err2.isSome then "BurnUserStake failed on user"
            else "BurnUserStake failed on user, did not find user, or insufficient funds")) } ∧
    (RelayPayment k msg s0).outcome.isError = true ∧
    ((RelayPayment k msg s0).outcome.description = some "BurnUserStake failed on user" ∨
     (RelayPayment k msg s0).outcome.description =
      some "BurnUserStake failed on user, did not find user, or insufficient funds") ∧
    ∀ c ∈ (RelayPayment k msg s0).trace.drop t.length, c.isMint = false ∧ c.isSend = false := by
  refine ⟨fun m st => RelayPayment_burnPrecedesMint k m st, ?_⟩
  cases err2 with
  | some e =>
    have h := RelayPayment_fail hreach (body_burn_error (c := msg.Creator) hr hburn)
    simp only [List.append_assoc, List.singleton_append, List.cons_append, List.nil_append,
      addCall, burnCall, burnAmountFor] at h
    refine ⟨?_, ?_, ?_, ?_⟩
    · rw [h]; simp [burnAmountFor]
    · rw [h]; rfl
    · rw [h]; exact Or.inl rfl
    · rw [h]; simp [Call.isMint, Call.isSend]
  | none =>
    have hb : burnSucceeded = false := by
      cases hfail with
      | inl h => exact absurd rfl h
      | inr h => exact h
    subst hb
    have h := RelayPayment_fail hreach (body_burn_failed (c := msg.Creator) hr hburn)
    simp only [List.append_assoc, List.singleton_append, List.cons_append, List.nil_append,
      addCall, burnCall, burnAmountFor] at h
    refine ⟨?_, ?_, ?_, ?_⟩
    · rw [h]; simp [burnAmountFor]
    · rw [h]; rfl
    · rw [h]; exact Or.inr rfl
    · rw [h]; simp [Call.isMint, Call.isSend]

/-- C4 at a concrete batch: alice has 100 coins staked and the relay costs 200. -/
theorem C4_burn_before_mint_witness :
    Reaches memKeeper { Creator := "bob", Relays := [relayCostly] } memRich bob
      [] relayCostly [] memRich [] ∧
    ReadyToBurn memKeeper bob relayCostly memRich alice false 200
      (memKeeper.AddEpochPayment memRich 20 alice bob 200 "8").2 { Name := "ETH1" } ∧
    (RelayPayment memKeeper { Creator := "bob", Relays := [relayCostly] }
      memRich).outcome.description =
        some "BurnUserStake failed on user, did not find user, or insufficient funds" ∧
    ∀ c ∈ (RelayPayment memKeeper { Creator := "bob", Relays := [relayCostly] }
      memRich).trace, c.isMint = false ∧ c.isSend = false :=
  have hreach : Reaches memKeeper { Creator := "bob", Relays := [relayCostly] } memRich bob
      [] relayCostly [] memRich [] := ⟨rfl, rfl, rfl, rfl, rfl⟩
  have hr : ReadyToBurn memKeeper bob relayCostly memRich alice false 200
      (memKeeper.AddEpochPayment memRich 20 alice bob 200 "8").2 { Name := "ETH1" } :=
    ⟨1000, ⟨"alice", rfl, rfl, rfl, rfl, rfl⟩, rfl, rfl, by decide, rfl⟩
  have h := C4_burn_before_mint memKeeper { Creator := "bob", Relays := [relayCostly] }
    memRich bob [] relayCostly [] memRich [] alice false 200
    (memKeeper.AddEpochPayment memRich 20 alice bob 200 "8").2 { Name := "ETH1" }
    false none (memKeeper.AddEpochPayment memRich 20 alice bob 200 "8").2
    hreach hr rfl (Or.inr rfl)
  ⟨hreach, hr, by rw [h.2.1]; rfl, h.2.2.2.2⟩

/-- Truncating the batch after a reached relay leaves that relay reached. -/
theorem Reaches.truncate {k : Keeper σ Stake Rate} {msg : MsgRelayPayment} {s0 : σ}
    {creator : AccAddress} {pre : List RelayRequest} {relay : RelayRequest}
    {post : List RelayRequest} {s : σ} {t : List Call}
    (h : Reaches k msg s0 creator pre relay post s t) :
    Reaches k { Creator := msg.Creator, Relays := pre ++ [relay] } s0 creator pre relay [] s t :=
  ⟨h.1, rfl, h.2.2.1, h.2.2.2.1, h.2.2.2.2⟩

/-- C5: when, after a successful client burn for a relay that the batch
reaches, `MintCoins` fails, or `MintCoins` succeeds and
`SendCoinsFromModuleToAccount` fails, the handler does not return an error: it
panics.  The calls of the run end with the calls of that relay, and the run is
the one of the batch cut off after that relay: the relays after it are not
processed. -/
theorem C5_mint_or_send_failure_panics (k : Keeper σ Stake Rate) (msg : MsgRelayPayment)
    (s0 : σ) (creator : AccAddress) (pre : List RelayRequest) (relay : RelayRequest)
    (post : List RelayRequest) (s : σ) (t : List Call) (client : AccAddress)
    (isOverlap : Bool) (total : Nat) (s1 : σ) (spec : Spec) (s2 : σ)
    (hreach : Reaches k msg s0 creator pre relay post s t)
    (hr : ReadyToBurn k creator relay s client isOverlap total s1 spec)
    (hburn : k.BurnClientStake s1 spec.Name client (burnAmountFor k s1 relay) false
      = ((true, none), s2))
    (hfail :
      (∃ e s3, k.MintCoins s2 k.ModuleName (rewardCoinsFor k s1 relay) = (some e, s3)) ∨
      (∃ s3 e s4, k.MintCoins s2 k.ModuleName (rewardCoinsFor k s1 relay) = (none, s3) ∧
        k.SendCoinsFromModuleToAccount s3 k.ModuleName creator (rewardCoinsFor k s1 relay)
          = (some e, s4))) :
    (RelayPayment k msg s0).outcome.isPanic = true ∧
    (RelayPayment k msg s0).outcome.isError = false ∧
    (RelayPayment k msg s0).trace =
      t ++ (relayPaymentBody k msg.Creator creator relay s).trace ∧
    RelayPayment k msg s0 =
      RelayPayment k { Creator := msg.Creator, Relays := pre ++ [relay] } s0 ∧
    (∀ e s3, k.MintCoins s2 k.ModuleName (rewardCoinsFor k s1 relay) = (some e, s3) →
      RelayPayment k msg s0 =
        { state := s3
          trace := t ++
            [addCall k s relay client creator isOverlap, burnCall k s1 relay client spec,
             Call.MintCoins k.ModuleName (rewardCoinsFor k s1 relay),
             Call.LavaError "relay_payment"
              ((paymentDetails k s1 relay client creator total isOverlap).set "error" e)
              "MintCoins Failed,"]
          outcome := Outcome.panic
            ("module failed to mint coins to give to servicer: " ++ e) }) ∧
    (∀ s3 e s4, k.MintCoins s2 k.ModuleName (rewardCoinsFor k s1 relay) = (none, s3) →
      k.SendCoinsFromModuleToAccount s3 k.ModuleName creator (rewardCoinsFor k s1 relay)
        = (some e, s4) →
      RelayPayment k msg s0 =
        { state := s4
          trace := t ++
            [addCall k s relay client creator isOverlap, burnCall k s1 relay client spec,
             Call.MintCoins k.ModuleName (rewardCoinsFor k s1 relay),
             Call.SendCoinsFromModuleToAccount k.ModuleName creator (rewardCoinsFor k s1 relay),
             Call.LavaError "relay_payment"
              ((paymentDetails k s1 relay client creator total isOverlap).set "error" e)
              "SendCoinsFromModuleToAccount Failed,"]
          outcome := Outcome.panic
            ("failed to transfer minted new coins to servicer, " ++ e ++ " account: " ++
              k.AddrString creator) }) := by
  have hmintcase : ∀ e s3,
      k.MintCoins s2 k.ModuleName (rewardCoinsFor k s1 relay) = (some e, s3) →
      relayPaymentBody k msg.Creator creator relay s =
        { state := s3
          trace := [addCall k s relay client creator isOverlap, burnCall k s1 relay client spec,
            mintCall k s1 relay,
            Call.LavaError "relay_payment"
              ((paymentDetails k s1 relay client creator total isOverlap).set "error" e)
              "MintCoins Failed,"]
          flow := Flow.panic ("module failed to mint coins to give to servicer: " ++ e) } :=
    fun e s3 hm => body_mint_panic hr hburn hm
  have hsendcase : ∀ s3 e s4,
      k.MintCoins s2 k.ModuleName (rewardCoinsFor k s1 relay) = (none, s3) →
      k.SendCoinsFromModuleToAccount s3 k.ModuleName creator (rewardCoinsFor k s1 relay)
        = (some e, s4) →
      relayPaymentBody k msg.Creator creator relay s =
        { state := s4
          trace := [addCall k s relay client creator isOverlap, burnCall k s1 relay client spec,
            mintCall k s1 relay, sendCall k s1 relay creator,
            Call.LavaError "relay_payment"
              ((paymentDetails k s1 relay client creator total isOverlap).set "error" e)
              "SendCoinsFromModuleToAccount Failed,"]
          flow := Flow.panic ("failed to transfer minted new coins to servicer, " ++ e ++
            " account: " ++ k.AddrString creator) } :=
    fun s3 e s4 hm hs => body_send_panic hr hburn hm hs
  have hpanic : ∃ s5 m, relayPaymentBody k msg.Creator creator relay s =
      { state := s5, trace := (relayPaymentBody k msg.Creator creator relay s).trace,
        flow := Flow.panic m } := by
    rcases hfail with ⟨e, s3, hm⟩ | ⟨s3, e, s4, hm, hs⟩
    · exact ⟨_, _, by rw [hmintcase e s3 hm]⟩
    · exact ⟨_, _, by rw [hsendcase s3 e s4 hm hs]⟩
  obtain ⟨s5, m, hb⟩ := hpanic
  have h := RelayPayment_panic hreach hb
  have h2 := RelayPayment_panic hreach.truncate hb
  refine ⟨by rw [h]; rfl, by rw [h]; rfl, by rw [h], by rw [h, h2], ?_, ?_⟩
  · intro e s3 hm
    exact RelayPayment_panic hreach (hmintcase e s3 hm)
  · intro s3 e s4 hm hs
    exact RelayPayment_panic hreach (hsendcase s3 e s4 hm hs)

/-- C5 at a concrete batch: the module account may not mint; the second relay
of the batch is never looked at. -/
theorem C5_mint_or_send_failure_panics_witness :
    Reaches memKeeper { Creator := "bob", Relays := [memRelay 3 7, relayNoSig] } memNoMinter
      bob [] (memRelay 3 7) [relayNoSig] memNoMinter [] ∧
    (RelayPayment memKeeper { Creator := "bob", Relays := [memRelay 3 7, relayNoSig] }
      memNoMinter).outcome =
      Outcome.panic ("module failed to mint coins to give to servicer: " ++
        "module account has no permission to mint") ∧
    RelayPayment memKeeper { Creator := "bob", Relays := [memRelay 3 7, relayNoSig] }
        memNoMinter =
      RelayPayment memKeeper { Creator := "bob", Relays := [memRelay 3 7] } memNoMinter :=
  have hreach : Reaches memKeeper { Creator := "bob", Relays := [memRelay 3 7, relayNoSig] }
      memNoMinter bob [] (memRelay 3 7) [relayNoSig] memNoMinter [] :=
    ⟨rfl, rfl, rfl, rfl, rfl⟩
  have hr : ReadyToBurn memKeeper bob (memRelay 3 7) memNoMinter alice false 3
      (memKeeper.AddEpochPayment memNoMinter 20 alice bob 3 "7").2 { Name := "ETH1" } :=
    ⟨10, ⟨"alice", rfl, rfl, rfl, rfl, rfl⟩, rfl, rfl, by decide, rfl⟩
  have h := C5_mint_or_send_failure_panics memKeeper
    { Creator := "bob", Relays := [memRelay 3 7, relayNoSig] } memNoMinter bob []
    (memRelay 3 7) [relayNoSig] memNoMinter [] alice false 3
    (memKeeper.AddEpochPayment memNoMinter 20 alice bob 3 "7").2 { Name := "ETH1" }
    (memKeeper.BurnClientStake (memKeeper.AddEpochPayment memNoMinter 20 alice bob 3 "7").2
      "ETH1" alice { Denom := "stake", Amount := 3 } false).2
    hreach hr rfl (Or.inl ⟨"module account has no permission to mint", _, rfl⟩)
  ⟨hreach, by rw [h.2.2.2.2.1 _ _ rfl], h.2.2.2.1⟩

/-- C6: for a relay that the batch reaches and that passes every check with a
valid pairing and a reward that is not zero, when the burn, the mint and the
transfer succeed, the calls made for the relay are, in this order: the epoch
payment, one burn from the recovered client address, one mint of the reward
coins into the module account, one transfer from the module account to the
provider of the relay of the very coins that were minted (one coin of
denomination "stake"), and the event.  The run then goes on with the relays
after it. -/
theorem C6_paid_relay_calls (k : Keeper σ Stake Rate) (msg : MsgRelayPayment)
    (s0 : σ) (creator : AccAddress) (pre : List RelayRequest) (relay : RelayRequest)
    (post : List RelayRequest) (s : σ) (t : List Call) (client : AccAddress)
    (isOverlap : Bool) (total : Nat) (s1 : σ) (spec : Spec) (s2 s3 s4 : σ)
    (hreach : Reaches k msg s0 creator pre relay post s t)
    (hr : ReadyToBurn k creator relay s client isOverlap total s1 spec)
    (hburn : k.BurnClientStake s1 spec.Name client (burnAmountFor k s1 relay) false
      = ((true, none), s2))
    (hmint : k.MintCoins s2 k.ModuleName (rewardCoinsFor k s1 relay) = (none, s3))
    (hsend : k.SendCoinsFromModuleToAccount s3 k.ModuleName creator (rewardCoinsFor k s1 relay)
      = (none, s4)) :
    (relayPaymentBody k msg.Creator creator relay s).trace =
      [Call.AddEpochPayment (epochStartFor k s relay isOverlap) client creator relay.CuSum
        (FormatUint16 relay.SessionId),
       Call.BurnClientStake spec.Name client
        { Amount := k.Scale relay.CuSum (k.GetCoinsPerCU s1), Denom := "stake" } false,
       Call.MintCoins k.ModuleName
        [{ Denom := "stake", Amount := k.Scale relay.CuSum (k.MintCoinsPerCU s1) }],
       Call.SendCoinsFromModuleToAccount k.ModuleName creator
        [{ Denom := "stake", Amount := k.Scale relay.CuSum (k.MintCoinsPerCU s1) }],
       Call.LogLavaEvent "relay_payment"
        ((paymentDetails k s1 relay client creator total isOverlap).set "clientFee"
          (burnAmountFor k s1 relay).String)
        "New Proof Of Work Was Accepted"] ∧
    k.AccAddressFromBech32 relay.Provider = .ok creator ∧
    (relayPaymentBody k msg.Creator creator relay s).trace.countP Call.isBurn = 1 ∧
    (relayPaymentBody k msg.Creator creator relay s).trace.countP Call.isMint = 1 ∧
    (relayPaymentBody k msg.Creator creator relay s).trace.countP Call.isSend = 1 ∧
    RelayPayment k msg s0 =
      relayPaymentLoop k msg.Creator creator post s4
        (t ++ (relayPaymentBody k msg.Creator creator relay s).trace) ∧
    ∃ later, (RelayPayment k msg s0).trace =
      t ++ (relayPaymentBody k msg.Creator creator relay s).trace ++ later := by
  have hb := body_paid (c := msg.Creator) hr hburn hmint hsend
  have h := RelayPayment_next hreach hb
  have hprov : k.AccAddressFromBech32 relay.Provider = .ok creator := by
    obtain ⟨_, ⟨_, _, _, hp, _, _⟩, _⟩ := hr
    exact hp
  refine ⟨?_, hprov, ?_, ?_, ?_, ?_, ?_⟩
  · rw [hb]; rfl
  · rw [hb]; simp [List.countP_cons, addCall, burnCall, mintCall, sendCall, Call.isBurn]
  · rw [hb]; simp [List.countP_cons, addCall, burnCall, mintCall, sendCall, Call.isMint]
  · rw [hb]; simp [List.countP_cons, addCall, burnCall, mintCall, sendCall, Call.isSend]
  · rw [h, hb]
  · rw [h, hb]
    exact relayPaymentLoop_trace_prefix k msg.Creator creator post s4 _

/-- C6 at a concrete batch: alice pays 3 coins for 3 CU and bob gets 6. -/
theorem C6_paid_relay_calls_witness :
    Reaches memKeeper msgPaid memInit bob [] (memRelay 3 7) [] memInit [] ∧
    ReadyToBurn memKeeper bob (memRelay 3 7) memInit alice false 3
      (memKeeper.AddEpochPayment memInit 20 alice bob 3 "7").2 { Name := "ETH1" } ∧
    (relayPaymentBody memKeeper "bob" bob (memRelay 3 7) memInit).trace.countP Call.isBurn = 1 ∧
    (relayPaymentBody memKeeper "bob" bob (memRelay 3 7) memInit).trace.countP Call.isMint = 1 ∧
    (relayPaymentBody memKeeper "bob" bob (memRelay 3 7) memInit).trace.countP Call.isSend = 1 ∧
    (RelayPayment memKeeper msgPaid memInit).trace =
      [Call.AddEpochPayment 20 alice bob 3 "7",
       Call.BurnClientStake "ETH1" alice { Denom := "stake", Amount := 3 } false,
       Call.MintCoins "pairing" [{ Denom := "stake", Amount := 6 }],
       Call.SendCoinsFromModuleToAccount "pairing" bob [{ Denom := "stake", Amount := 6 }],
       Call.LogLavaEvent "relay_payment"
        [("chainID", "1"), ("client", "alice"), ("provider", "bob"), ("CU", "3"),
         ("Mint", "6stake"), ("totalCUInEpoch", "3"), ("isOverlap", "false"),
         ("clientFee", "3stake")]
        "New Proof Of Work Was Accepted"] :=
  have hreach : Reaches memKeeper msgPaid memInit bob [] (memRelay 3 7) [] memInit [] :=
    ⟨rfl, rfl, rfl, rfl, rfl⟩
  have hr : ReadyToBurn memKeeper bob (memRelay 3 7) memInit alice false 3
      (memKeeper.AddEpochPayment memInit 20 alice bob 3 "7").2 { Name := "ETH1" } :=
    ⟨10, ⟨"alice", rfl, rfl, rfl, rfl, rfl⟩, rfl, rfl, by decide, rfl⟩
  have h := C6_paid_relay_calls memKeeper msgPaid memInit bob [] (memRelay 3 7) [] memInit []
    alice false 3 (memKeeper.AddEpochPayment memInit 20 alice bob 3 "7").2 { Name := "ETH1" }
    _ _ _ hreach hr rfl rfl rfl
  ⟨hreach, hr, h.2.2.1, h.2.2.2.1, h.2.2.2.2.1, rfl⟩

/-! ## Pairing validation -/

/-- C7, as stated, fails: in a state where bob is not in the pairing of alice,
pairing validation returns `isValidPairing = false` without an error for a
relay of 11 CU, and the handler rejects the relay with "user bypassed CU
limit", not with an "invalid pairing" error: the CU limit (10) is enforced
before the pairing flag is looked at. -/
theorem C7_counterexample :
    Reaches memKeeper msgOverLimit memUnpaired bob [] (memRelay 11 7) [] memUnpaired [] ∧
    memKeeper.ValidatePairingForClient memUnpaired 1 alice bob 25 = .ok (false, false, 10) ∧
    (RelayPayment memKeeper msgOverLimit memUnpaired).outcome =
      Outcome.error (Err.lava "relay_proof_user_limit"
        [("session", "20"), ("client", "alice"), ("provider", "bob"),
         ("error", "CU limit exceeded"), ("CU", "11"), ("totalCUInEpoch", "11")]
        "user bypassed CU limit") ∧
    (RelayPayment memKeeper msgOverLimit memUnpaired).outcome.description ≠
      some "invalid pairing claim on proof of relay" ∧
    (RelayPayment memKeeper msgOverLimit memUnpaired).outcome.description ≠
      some "invalid pairing on proof of relay" :=
  ⟨⟨rfl, rfl, rfl, rfl, rfl⟩, rfl, rfl, by decide, by decide⟩

/-- C7, amended: for a relay that the batch reaches and that gets to pairing
validation, when `ValidatePairingForClient` returns an error or returns
`isValidPairing = false`, the handler returns an error and makes no burn, mint
or transfer for the relay.  The error is "invalid pairing on proof of relay",
with the state untouched, when pairing validation returns an error.  When it
returns `isValidPairing = false`, the relay first goes through
`AddEpochPayment` and `EnforceUserCUsUsageInEpoch`: the error is "double
spending detected" if the epoch payment is refused, "user bypassed CU limit"
if the CU limit is enforced against it, and "invalid pairing claim on proof of
relay" otherwise. -/
theorem C7_invalid_pairing_rejected (k : Keeper σ Stake Rate) (msg : MsgRelayPayment)
    (s0 : σ) (creator : AccAddress) (pre : List RelayRequest) (relay : RelayRequest)
    (post : List RelayRequest) (s : σ) (t : List Call) (client : AccAddress)
    (hreach : Reaches k msg s0 creator pre relay post s t)
    (hp : ReachesPairing k creator relay s client)
    (hnot :
      (∃ e, k.ValidatePairingForClient s relay.ChainID client creator
        (uint64 relay.BlockHeight) = .error e) ∨
      (∃ isOverlap userStake, k.ValidatePairingForClient s relay.ChainID client creator
        (uint64 relay.BlockHeight) = .ok (false, isOverlap, userStake))) :
    (RelayPayment k msg s0).outcome.isError = true ∧
    (∀ c ∈ (RelayPayment k msg s0).trace.drop t.length,
      c.isBurn = false ∧ c.isMint = false ∧ c.isSend = false) ∧
    (∀ e, k.ValidatePairingForClient s relay.ChainID client creator
        (uint64 relay.BlockHeight) = .error e →
      RelayPayment k msg s0 =
        { state := s
          trace := t ++ [Call.LavaError "relay_proof_pairing"
            [("client", k.AddrString client), ("provider", k.AddrString creator), ("error", e)]
            "invalid pairing on proof of relay"]
          outcome := Outcome.error (Err.lava "relay_proof_pairing"
            [("client", k.AddrString client), ("provider", k.AddrString creator), ("error", e)]
            "invalid pairing on proof of relay") }) ∧
    (∀ isOverlap userStake, k.ValidatePairingForClient s relay.ChainID client creator
        (uint64 relay.BlockHeight) = .ok (false, isOverlap, userStake) →
      (RelayPayment k msg s0).outcome.description =
        some (rejectionOutsidePairing k creator relay s client isOverlap userStake)) := by
  obtain ⟨pk, hsig, hhex, hprov, hspec⟩ := hp
  have herr : ∀ e, k.ValidatePairingForClient s relay.ChainID client creator
        (uint64 relay.BlockHeight) = .error e →
      RelayPayment k msg s0 =
        { state := s
          trace := t ++ [Call.LavaError "relay_proof_pairing"
            [("client", k.AddrString client), ("provider", k.AddrString creator), ("error", e)]
            "invalid pairing on proof of relay"]
          outcome := Outcome.error (Err.lava "relay_proof_pairing"
            [("client", k.AddrString client), ("provider", k.AddrString creator), ("error", e)]
            "invalid pairing on proof of relay") } := by
    intro e he
    exact RelayPayment_fail hreach
      (body_pairing_error (c := msg.Creator) hsig hhex hprov hspec he)
  have hfalse : ∀ isOverlap userStake, k.ValidatePairingForClient s relay.ChainID client
        creator (uint64 relay.BlockHeight) = .ok (false, isOverlap, userStake) →
      ∃ s1 name attrs description,
        RelayPayment k msg s0 =
          { state := s1
            trace := t ++ [addCall k s relay client creator isOverlap,
              Call.LavaError name attrs description]
            outcome := Outcome.error (Err.lava name attrs description) } ∧
        description = rejectionOutsidePairing k creator relay s client isOverlap userStake := by
    intro isOverlap userStake hv0
    have hv : Validated k creator relay s client false isOverlap userStake :=
      ⟨pk, hsig, hhex, hprov, hspec, hv0⟩
    cases hadd : k.AddEpochPayment s (epochStartFor k s relay isOverlap) client creator
      relay.CuSum (FormatUint16 relay.SessionId) with
    | mk res s1 =>
      cases res with
      | error e =>
        exact ⟨s1, _, _, _,
          RelayPayment_fail hreach (body_add_error (c := msg.Creator) hv hadd),
          by simp [rejectionOutsidePairing, hadd]⟩
      | ok total =>
        cases hcu : k.EnforceUserCUsUsageInEpoch s1 userStake total with
        | some e =>
          exact ⟨s1, _, _, _,
            RelayPayment_fail hreach (body_limit_error (c := msg.Creator) hv hadd hcu),
            by simp [rejectionOutsidePairing, hadd, hcu]⟩
        | none =>
          exact ⟨s1, _, _, _,
            RelayPayment_fail hreach (body_invalid_pairing (c := msg.Creator) hv hadd hcu),
            by simp [rejectionOutsidePairing, hadd, hcu]⟩
  refine ⟨?_, ?_, herr, ?_⟩
  · rcases hnot with ⟨e, he⟩ | ⟨o, st, hv0⟩
    · rw [herr e he]; rfl
    · obtain ⟨s1, name, attrs, d, h, _⟩ := hfalse o st hv0
      rw [h]; rfl
  · rcases hnot with ⟨e, he⟩ | ⟨o, st, hv0⟩
    · rw [herr e he]; simp [Call.isBurn, Call.isMint, Call.isSend]
    · obtain ⟨s1, name, attrs, d, h, _⟩ := hfalse o st hv0
      rw [h]; simp [Call.isBurn, Call.isMint, Call.isSend, addCall]
  · intro o st hv0
    obtain ⟨s1, name, attrs, d, h, hd⟩ := hfalse o st hv0
    rw [h, ← hd]; rfl

/-- C7, amended, at a concrete batch: bob is not in the pairing of alice and
the relay is within her CU limit. -/
theorem C7_invalid_pairing_rejected_witness :
    Reaches memKeeper msgPaid memUnpaired bob [] (memRelay 3 7) [] memUnpaired [] ∧
    ReachesPairing memKeeper bob (memRelay 3 7) memUnpaired alice ∧
    memKeeper.ValidatePairingForClient memUnpaired 1 alice bob 25 = .ok (false, false, 10) ∧
    (RelayPayment memKeeper msgPaid memUnpaired).outcome.description =
      some "invalid pairing claim on proof of relay" ∧
    (RelayPayment memKeeper msgPaid memUnpaired).outcome.isError = true :=
  have hreach : Reaches memKeeper msgPaid memUnpaired bob [] (memRelay 3 7) [] memUnpaired [] :=
    ⟨rfl, rfl, rfl, rfl, rfl⟩
  have hp : ReachesPairing memKeeper bob (memRelay 3 7) memUnpaired alice :=
    ⟨"alice", rfl, rfl, rfl, rfl⟩
  have h := C7_invalid_pairing_rejected memKeeper msgPaid memUnpaired bob [] (memRelay 3 7) []
    memUnpaired [] alice hreach hp (Or.inr ⟨false, 10, rfl⟩)
  ⟨hreach, hp, rfl, h.2.2.2 false 10 rfl, h.1⟩

/-! ## The CU limit as an invariant of the epoch payments -/

/-- The invariant only looks at the clients and at the payments. -/
theorem WithinLimits.congr {s s1 : MemState} (h : WithinLimits s)
    (hc : s1.clients = s.clients) (hp : s1.payments = s.payments) : WithinLimits s1 := by
  intro epoch client provider limit hl
  have := h epoch client provider limit (by rw [← hc]; exact hl)
  simpa [MemState.recordedCU, hp] using this

/-- A refused epoch payment leaves the state as it was. -/
theorem mem_add_error {s s1 : MemState} {epoch : Nat} {client provider : AccAddress}
    {cu : Nat} {uid e : String}
    (h : memKeeper.AddEpochPayment s epoch client provider cu uid = (.error e, s1)) :
    s1 = s := by
  simp only [memKeeper, MemState.AddEpochPayment] at h
  split at h
  · exact (Prod.mk.inj h).2.symm
  · exact absurd (Prod.mk.inj h).1 (by simp)

/-- An accepted epoch payment adds one row and returns the sum under its key. -/
theorem mem_add_ok {s s1 : MemState} {epoch : Nat} {client provider : AccAddress}
    {cu total : Nat} {uid : String}
    (h : memKeeper.AddEpochPayment s epoch client provider cu uid = (.ok total, s1)) :
    s1 = { s with payments := s.payments ++
      [{ epoch := epoch, client := client, provider := provider,
         uniqueIdentifier := uid, usedCU := cu }] } ∧
    total = s1.recordedCU epoch client provider := by
  simp only [memKeeper, MemState.AddEpochPayment] at h
  split at h
  · exact absurd (Prod.mk.inj h).1 (by simp)
  · have h1 := (Prod.mk.inj h).1
    have h2 := (Prod.mk.inj h).2
    simp only [Except.ok.injEq] at h1
    subst h2
    exact ⟨rfl, h1.symm⟩

/-- An added row changes the sum under its own key only. -/
theorem recordedCU_add (s : MemState) (row : Payment) (epoch : Nat)
    (client provider : AccAddress) :
    ({ s with payments := s.payments ++ [row] } : MemState).recordedCU epoch client provider =
      s.recordedCU epoch client provider +
        (if row.epoch = epoch ∧ row.client = client ∧ row.provider = provider
          then row.usedCU else 0) := by
  simp only [MemState.recordedCU, List.filter_append, List.map_append, List.sum_append]
  by_cases hk : row.epoch = epoch ∧ row.client = client ∧ row.provider = provider
  · simp [List.filter_cons, hk]
  · simp [List.filter_cons, hk]

/-- The invariant survives an accepted epoch payment whose returned total the
CU limit is not enforced against. -/
theorem WithinLimits.add {s s1 : MemState} {epoch : Nat} {client provider : AccAddress}
    {cu total limit : Nat} {uid : String} (h : WithinLimits s)
    (hadd : memKeeper.AddEpochPayment s epoch client provider cu uid = (.ok total, s1))
    (hl : assoc s.clients client = some limit)
    (hcu : memKeeper.EnforceUserCUsUsageInEpoch s1 limit total = none) : WithinLimits s1 := by
  obtain ⟨hs1, htot⟩ := mem_add_ok hadd
  have hle : total ≤ limit := by
    simp only [memKeeper, MemState.EnforceUserCUsUsageInEpoch] at hcu
    split at hcu
    · cases hcu
    · omega
  intro e c p lim hlim
  have hclients : s1.clients = s.clients := by rw [hs1]
  rw [hclients] at hlim
  by_cases hk : epoch = e ∧ client = c ∧ provider = p
  · obtain ⟨rfl, rfl, rfl⟩ := hk
    rw [hl] at hlim
    cases hlim
    rw [← htot]
    exact hle
  · have := h e c p lim hlim
    rw [hs1, recordedCU_add]
    simpa [hk] using this

/-- The burn of the in-memory keeper touches neither clients nor payments. -/
theorem mem_burn_frame (s : MemState) (n : String) (c : AccAddress) (a : Coin) (f : Bool) :
    (memKeeper.BurnClientStake s n c a f).2.clients = s.clients ∧
    (memKeeper.BurnClientStake s n c a f).2.payments = s.payments := by
  simp only [memKeeper, MemState.BurnClientStake]
  repeat' split
  all_goals exact ⟨rfl, rfl⟩

/-- The mint of the in-memory keeper touches neither clients nor payments. -/
theorem mem_mint_frame (s : MemState) (n : String) (a : Coins) :
    (memKeeper.MintCoins s n a).2.clients = s.clients ∧
    (memKeeper.MintCoins s n a).2.payments = s.payments := by
  simp only [memKeeper, MemState.MintCoins]
  repeat' split
  all_goals exact ⟨rfl, rfl⟩

/-- The transfer of the in-memory keeper touches neither clients nor payments. -/
theorem mem_send_frame (s : MemState) (n : String) (r : AccAddress) (a : Coins) :
    (memKeeper.SendCoinsFromModuleToAccount s n r a).2.clients = s.clients ∧
    (memKeeper.SendCoinsFromModuleToAccount s n r a).2.payments = s.payments := by
  simp only [memKeeper, MemState.SendCoinsFromModuleToAccount]
  repeat' split
  all_goals exact ⟨rfl, rfl⟩

/-- Pairing validation of the in-memory keeper hands back the limit of the client. -/
theorem mem_validate_limit {s : MemState} {chainID block : Nat} {client provider : AccAddress}
    {valid overlap : Bool} {limit : Nat}
    (h : memKeeper.ValidatePairingForClient s chainID client provider block
      = .ok (valid, overlap, limit)) : assoc s.clients client = some limit := by
  simp only [memKeeper, MemState.ValidatePairingForClient] at h
  split at h
  · cases h
  · rename_i l hl
    simp only [Except.ok.injEq, Prod.mk.injEq] at h
    rw [hl, h.2.2]

/-- One pass of the loop body keeps the invariant, unless the pass is rejected
with "user bypassed CU limit". -/
theorem mem_body_withinLimits (c : String) (cr : AccAddress) (relay : RelayRequest)
    (s : MemState) (h : WithinLimits s)
    (hd : (relayPaymentBody memKeeper c cr relay s).flow.description ≠
      some "user bypassed CU limit") :
    WithinLimits (relayPaymentBody memKeeper c cr relay s).state := by
  cases hsig : memKeeper.RecoverPubKeyFromRelay relay with
  | error e => rw [body_sig_error hsig]; exact h
  | ok pk =>
  cases hhex : memKeeper.AccAddressFromHex pk with
  | error e => rw [body_hex_error hsig hhex]; exact h
  | ok client =>
  cases hp : memKeeper.AccAddressFromBech32 relay.Provider with
  | error e => rw [body_provider_error hsig hhex hp]; exact h
  | ok providerAddr =>
  by_cases hne : providerAddr = cr
  swap
  · rw [body_provider_mismatch hsig hhex hp hne]; exact h
  subst hne
  cases hspec : memKeeper.IsSpecFoundAndActive s relay.ChainID with
  | false => rw [body_spec_error hsig hhex hp hspec]; exact h
  | true =>
  cases hpair : memKeeper.ValidatePairingForClient s relay.ChainID client providerAddr
      (uint64 relay.BlockHeight) with
  | error e => rw [body_pairing_error hsig hhex hp hspec hpair]; exact h
  | ok res =>
  obtain ⟨valid, overlap, limit⟩ := res
  have hv : Validated memKeeper providerAddr relay s client valid overlap limit :=
    ⟨pk, hsig, hhex, hp, hspec, hpair⟩
  have hl := mem_validate_limit hpair
  cases hadd : memKeeper.AddEpochPayment s (epochStartFor memKeeper s relay overlap) client
      providerAddr relay.CuSum (FormatUint16 relay.SessionId) with
  | mk added s1 =>
  cases added with
  | error e =>
    rw [body_add_error hv hadd]
    have := mem_add_error hadd
    subst this
    exact h
  | ok total =>
  cases hcu : memKeeper.EnforceUserCUsUsageInEpoch s1 limit total with
  | some e =>
    rw [body_limit_error hv hadd hcu] at hd
    exact absurd rfl hd
  | none =>
  have h1 : WithinLimits s1 := h.add hadd hl hcu
  cases valid with
  | false => rw [body_invalid_pairing hv hadd hcu]; exact h1
  | true =>
  by_cases hz : memKeeper.Scale relay.CuSum (memKeeper.MintCoinsPerCU s1) = 0
  · rw [body_zero_reward hv hadd hcu hz]; exact h1
  cases hget : memKeeper.GetSpec s1 relay.ChainID with
  | none => rw [body_spec_missing hv hadd hcu hz hget]; exact h1
  | some spec =>
  have hr : ReadyToBurn memKeeper providerAddr relay s client overlap total s1 spec :=
    ⟨limit, hv, hadd, hcu, hz, hget⟩
  have hb := mem_burn_frame s1 spec.Name client (burnAmountFor memKeeper s1 relay) false
  cases hburn : memKeeper.BurnClientStake s1 spec.Name client
      (burnAmountFor memKeeper s1 relay) false with
  | mk burned s2 =>
  rw [hburn] at hb
  have h2 : WithinLimits s2 := h1.congr hb.1 hb.2
  obtain ⟨ok, err2⟩ := burned
  cases err2 with
  | some e => rw [body_burn_error hr hburn]; exact h2
  | none =>
  cases ok with
  | false => rw [body_burn_failed hr hburn]; exact h2
  | true =>
  have hm := mem_mint_frame s2 memKeeper.ModuleName (rewardCoinsFor memKeeper s1 relay)
  cases hmint : memKeeper.MintCoins s2 memKeeper.ModuleName
      (rewardCoinsFor memKeeper s1 relay) with
  | mk minted s3 =>
  rw [hmint] at hm
  have h3 : WithinLimits s3 := h2.congr hm.1 hm.2
  cases minted with
  | some e => rw [body_mint_panic hr hburn hmint]; exact h3
  | none =>
  have hs := mem_send_frame s3 memKeeper.ModuleName providerAddr
    (rewardCoinsFor memKeeper s1 relay)
  cases hsend : memKeeper.SendCoinsFromModuleToAccount s3 memKeeper.ModuleName providerAddr
      (rewardCoinsFor memKeeper s1 relay) with
  | mk sent s4 =>
  rw [hsend] at hs
  have h4 : WithinLimits s4 := h3.congr hs.1 hs.2
  cases sent with
  | some e => rw [body_send_panic hr hburn hmint hsend]; exact h4
  | none => rw [body_paid hr hburn hmint hsend]; exact h4

/-- The loop keeps the invariant, unless it ends rejected with "user bypassed
CU limit". -/
theorem mem_loop_withinLimits (c : String) (cr : AccAddress) (rs : List RelayRequest)
    (s : MemState) (t : List Call) (h : WithinLimits s)
    (hd : (relayPaymentLoop memKeeper c cr rs s t).outcome.description ≠
      some "user bypassed CU limit") :
    WithinLimits (relayPaymentLoop memKeeper c cr rs s t).state := by
  induction rs generalizing s t with
  | nil => exact h
  | cons r rest ih =>
    simp only [relayPaymentLoop] at hd ⊢
    cases hf : (relayPaymentBody memKeeper c cr r s).flow with
    | next =>
      simp only [hf] at hd ⊢
      exact ih _ _ (mem_body_withinLimits c cr r s h (by rw [hf]; simp [Flow.description])) hd
    | fail e =>
      simp only [hf] at hd ⊢
      refine mem_body_withinLimits c cr r s h ?_
      rw [hf]
      cases e with
      | sdk m => simp [Flow.description]
      | lava n a d => simpa [Flow.description, Outcome.description] using hd
    | panic m =>
      simp only [hf] at hd ⊢
      exact mem_body_withinLimits c cr r s h (by rw [hf]; simp [Flow.description])

/-- One call of the handler keeps the invariant, unless it is rejected with
"user bypassed CU limit". -/
theorem mem_RelayPayment_withinLimits (msg : MsgRelayPayment) (s : MemState)
    (h : WithinLimits s)
    (hd : (RelayPayment memKeeper msg s).outcome.description ≠ some "user bypassed CU limit") :
    WithinLimits (RelayPayment memKeeper msg s).state := by
  simp only [RelayPayment] at hd ⊢
  cases hc : memKeeper.AccAddressFromBech32 msg.Creator with
  | error e => exact h
  | ok creator =>
    simp only [hc] at hd ⊢
    exact mem_loop_withinLimits msg.Creator creator msg.Relays s [] h hd

/-- C3, as stated, fails: from a state with nothing recorded, where the limit
of alice is 10 CU, one call with one relay of 11 CU is rejected with "user
bypassed CU limit" and leaves 11 CU recorded for alice with provider bob in
epoch 20. -/
theorem C3_counterexample :
    WithinLimits memInit ∧
    assoc memInit.clients alice = some 10 ∧
    (RelayPayment memKeeper msgOverLimit memInit).outcome.description =
      some "user bypassed CU limit" ∧
    (RelayPayment memKeeper msgOverLimit memInit).state.recordedCU 20 alice bob = 11 ∧
    ¬ (∀ r ∈ RelayPayments memKeeper [msgOverLimit] memInit, WithinLimits r.state) := by
  refine ⟨?_, rfl, rfl, rfl, ?_⟩
  · intro e c p l _
    simp [MemState.recordedCU, memInit]
  · intro hall
    have h := hall (RelayPayment memKeeper msgOverLimit memInit)
      (by simp [RelayPayments]) 20 alice bob 10 rfl
    revert h
    decide

/-- C3, amended: from a state of the in-memory keeper in which every recorded
sum is within the limit of its client, after any sequence of calls of the
handler none of which is rejected with "user bypassed CU limit", the CU
recorded under every `(epoch, client, provider)` is at most the epoch CU limit
of the client, after each call of the sequence. -/
theorem C3_recorded_cu_within_limit (msgs : List MsgRelayPayment) (s0 : MemState)
    (hinv : WithinLimits s0)
    (hok : ∀ r ∈ RelayPayments memKeeper msgs s0,
      r.outcome.description ≠ some "user bypassed CU limit") :
    ∀ r ∈ RelayPayments memKeeper msgs s0,
      ∀ (epoch : Nat) (client provider : AccAddress) (limit : Nat),
        assoc r.state.clients client = some limit →
        r.state.recordedCU epoch client provider ≤ limit := by
  induction msgs generalizing s0 with
  | nil => intro r hr; simp [RelayPayments] at hr
  | cons m rest ih =>
    simp only [RelayPayments, List.mem_cons, forall_eq_or_imp] at hok ⊢
    have h1 := mem_RelayPayment_withinLimits m s0 hinv hok.1
    exact ⟨h1, ih _ h1 hok.2⟩

/-- C3, amended, at a concrete sequence: three calls, the last one refused as
a double spend; 7 CU are recorded for alice, whose limit is 10. -/
theorem C3_recorded_cu_within_limit_witness :
    WithinLimits memInit ∧
    (RelayPayments memKeeper
      [msgPaid, { Creator := "bob", Relays := [memRelay 4 8] }, msgPaid] memInit).map
        (fun r => r.outcome.description) = [none, none, some "double spending detected"] ∧
    ∀ r ∈ RelayPayments memKeeper
      [msgPaid, { Creator := "bob", Relays := [memRelay 4 8] }, msgPaid] memInit,
      r.state.recordedCU 20 alice bob ≤ 10 :=
  have hinv : WithinLimits memInit := by
    intro e c p l _
    simp [MemState.recordedCU, memInit]
  ⟨hinv, rfl, fun r hr =>
    C3_recorded_cu_within_limit
      [msgPaid, { Creator := "bob", Relays := [memRelay 4 8] }, msgPaid] memInit hinv
      (by decide) r hr 20 alice bob 10
      (by
        simp only [RelayPayments, List.mem_cons, List.mem_singleton, List.not_mem_nil,
          or_false] at hr
        rcases hr with rfl | rfl | rfl <;> rfl)⟩

/-! ## The exits of a validated relay, as a case rule -/

/-- To show a property of the pass over a relay that got past pairing
validation, it is enough to show it of each of the ten ways the pass can end
from there. -/
theorem body_validated_cases {k : Keeper σ Stake Rate} {c : String} {cr : AccAddress}
    {relay : RelayRequest} {s : σ} {client : AccAddress} {valid overlap : Bool}
    {stake : Stake} (hv : Validated k cr relay s client valid overlap stake)
    (motive : RelayRun σ → Prop)
    (addError : ∀ e s1,
      k.AddEpochPayment s (epochStartFor k s relay overlap) client cr relay.CuSum
        (FormatUint16 relay.SessionId) = (.error e, s1) →
      motive (errorLogAndFormat s1 [addCall k s relay client cr overlap] "relay_proof_claim"
        [("session", FormatUint10 (epochStartFor k s relay overlap)),
         ("client", k.AddrString client), ("provider", k.AddrString cr), ("error", e),
         ("unique_ID", FormatUint16 relay.EpochId)]
        "double spending detected"))
    (limitError : ∀ total s1 e,
      k.AddEpochPayment s (epochStartFor k s relay overlap) client cr relay.CuSum
        (FormatUint16 relay.SessionId) = (.ok total, s1) →
      k.EnforceUserCUsUsageInEpoch s1 stake total = some e →
      motive (errorLogAndFormat s1 [addCall k s relay client cr overlap]
        "relay_proof_user_limit"
        [("session", FormatUint10 (epochStartFor k s relay overlap)),
         ("client", k.AddrString client), ("provider", k.AddrString cr), ("error", e),
         ("CU", FormatUint10 relay.CuSum), ("totalCUInEpoch", FormatUint10 total)]
        "user bypassed CU limit"))
    (invalidPairing : valid = false → ∀ total s1,
      k.AddEpochPayment s (epochStartFor k s relay overlap) client cr relay.CuSum
        (FormatUint16 relay.SessionId) = (.ok total, s1) →
      k.EnforceUserCUsUsageInEpoch s1 stake total = none →
      motive (errorLogAndFormat s1 [addCall k s relay client cr overlap] "relay_proof_pairing"
        [("client", k.AddrString client), ("provider", k.AddrString cr),
         ("error", "pairing result doesn't include servicer")]
        "invalid pairing claim on proof of relay"))
    (zeroReward : valid = true → ∀ total s1,
      k.AddEpochPayment s (epochStartFor k s relay overlap) client cr relay.CuSum
        (FormatUint16 relay.SessionId) = (.ok total, s1) →
      k.EnforceUserCUsUsageInEpoch s1 stake total = none →
      k.Scale relay.CuSum (k.MintCoinsPerCU s1) = 0 →
      motive { state := s1, trace := [addCall k s relay client cr overlap], flow := Flow.next })
    (specMissing : ∀ total s1,
      k.AddEpochPayment s (epochStartFor k s relay overlap) client cr relay.CuSum
        (FormatUint16 relay.SessionId) = (.ok total, s1) →
      valid = true → k.EnforceUserCUsUsageInEpoch s1 stake total = none →
      k.Scale relay.CuSum (k.MintCoinsPerCU s1) ≠ 0 →
      k.GetSpec s1 relay.ChainID = none →
      motive
        { state := s1
          trace := [addCall k s relay client cr overlap,
            Call.LavaError "relay_proof_spec"
              ((paymentDetails k s1 relay client cr total overlap).set "chainID"
                (FormatUint10 relay.ChainID))
              "failed to get spec for chain ID"]
          flow := Flow.panic
            ("failed to get spec for index: " ++ FormatUint10 relay.ChainID) })
    (burnError : ∀ total s1 spec ok e s2,
      ReadyToBurn k cr relay s client overlap total s1 spec →
      k.BurnClientStake s1 spec.Name client (burnAmountFor k s1 relay) false
        = ((ok, some e), s2) →
      motive (errorLogAndFormat s2
        [addCall k s relay client cr overlap, burnCall k s1 relay client spec]
        "relay_proof_burn"
        (((paymentDetails k s1 relay client cr total overlap).set "amountToBurn"
          (burnAmountFor k s1 relay).String).set "error" e)
        "BurnUserStake failed on user"))
    (burnFailed : ∀ total s1 spec s2,
      ReadyToBurn k cr relay s client overlap total s1 spec →
      k.BurnClientStake s1 spec.Name client (burnAmountFor k s1 relay) false
        = ((false, none), s2) →
      motive (errorLogAndFormat s2
        [addCall k s relay client cr overlap, burnCall k s1 relay client spec]
        "relay_proof_burn"
        (((paymentDetails k s1 relay client cr total overlap).set "amountToBurn"
          (burnAmountFor k s1 relay).String).set "error"
          "insufficient funds or didn't find user")
        "BurnUserStake failed on user, did not find user, or insufficient funds"))
    (mintPanic : ∀ total s1 spec s2 e s3,
      ReadyToBurn k cr relay s client overlap total s1 spec →
      k.BurnClientStake s1 spec.Name client (burnAmountFor k s1 relay) false
        = ((true, none), s2) →
      k.MintCoins s2 k.ModuleName (rewardCoinsFor k s1 relay) = (some e, s3) →
      motive
        { state := s3
          trace := [addCall k s relay client cr overlap, burnCall k s1 relay client spec,
            mintCall k s1 relay,
            Call.LavaError "relay_payment"
              ((paymentDetails k s1 relay client cr total overlap).set "error" e)
              "MintCoins Failed,"]
          flow := Flow.panic ("module failed to mint coins to give to servicer: " ++ e) })
    (sendPanic : ∀ total s1 spec s2 s3 e s4,
      ReadyToBurn k cr relay s client overlap total s1 spec →
      k.BurnClientStake s1 spec.Name client (burnAmountFor k s1 relay) false
        = ((true, none), s2) →
      k.MintCoins s2 k.ModuleName (rewardCoinsFor k s1 relay) = (none, s3) →
      k.SendCoinsFromModuleToAccount s3 k.ModuleName cr (rewardCoinsFor k s1 relay)
        = (some e, s4) →
      motive
        { state := s4
          trace := [addCall k s relay client cr overlap, burnCall k s1 relay client spec,
            mintCall k s1 relay, sendCall k s1 relay cr,
            Call.LavaError "relay_payment"
              ((paymentDetails k s1 relay client cr total overlap).set "error" e)
              "SendCoinsFromModuleToAccount Failed,"]
          flow := Flow.panic ("failed to transfer minted new coins to servicer, " ++ e ++
            " account: " ++ k.AddrString cr) })
    (paid : ∀ total s1 spec s2 s3 s4,
      ReadyToBurn k cr relay s client overlap total s1 spec →
      k.BurnClientStake s1 spec.Name client (burnAmountFor k s1 relay) false
        = ((true, none), s2) →
      k.MintCoins s2 k.ModuleName (rewardCoinsFor k s1 relay) = (none, s3) →
      k.SendCoinsFromModuleToAccount s3 k.ModuleName cr (rewardCoinsFor k s1 relay)
        = (none, s4) →
      motive
        { state := s4
          trace := [addCall k s relay client cr overlap, burnCall k s1 relay client spec,
            mintCall k s1 relay, sendCall k s1 relay cr,
            Call.LogLavaEvent "relay_payment"
              ((paymentDetails k s1 relay client cr total overlap).set "clientFee"
                (burnAmountFor k s1 relay).String)
              "New Proof Of Work Was Accepted"]
          flow := Flow.next }) :
    motive (relayPaymentBody k c cr relay s) := by
  cases hadd : k.AddEpochPayment s (epochStartFor k s relay overlap) client
      cr relay.CuSum (FormatUint16 relay.SessionId) with
  | mk added s1 =>
  cases added with
  | error e => rw [body_add_error hv hadd]; exact addError e s1 hadd
  | ok total =>
  cases hcu : k.EnforceUserCUsUsageInEpoch s1 stake total with
  | some e => rw [body_limit_error hv hadd hcu]; exact limitError total s1 e hadd hcu
  | none =>
  cases valid with
  | false => rw [body_invalid_pairing hv hadd hcu]; exact invalidPairing rfl total s1 hadd hcu
  | true =>
  by_cases hz : k.Scale relay.CuSum (k.MintCoinsPerCU s1) = 0
  · rw [body_zero_reward hv hadd hcu hz]; exact zeroReward rfl total s1 hadd hcu hz
  cases hget : k.GetSpec s1 relay.ChainID with
  | none =>
    rw [body_spec_missing hv hadd hcu hz hget]; exact specMissing total s1 hadd rfl hcu hz hget
  | some spec =>
  have hr : ReadyToBurn k cr relay s client overlap total s1 spec :=
    ⟨stake, hv, hadd, hcu, hz, hget⟩
  cases hburn : k.BurnClientStake s1 spec.Name client (burnAmountFor k s1 relay) false with
  | mk burned s2 =>
  obtain ⟨ok, err2⟩ := burned
  cases err2 with
  | some e => rw [body_burn_error hr hburn]; exact burnError total s1 spec ok e s2 hr hburn
  | none =>
  cases ok with
  | false => rw [body_burn_failed hr hburn]; exact burnFailed total s1 spec s2 hr hburn
  | true =>
  cases hmint : k.MintCoins s2 k.ModuleName (rewardCoinsFor k s1 relay) with
  | mk minted s3 =>
  cases minted with
  | some e =>
    rw [body_mint_panic hr hburn hmint]; exact mintPanic total s1 spec s2 e s3 hr hburn hmint
  | none =>
  cases hsend : k.SendCoinsFromModuleToAccount s3 k.ModuleName cr
      (rewardCoinsFor k s1 relay) with
  | mk sent s4 =>
  cases sent with
  | some e =>
    rw [body_send_panic hr hburn hmint hsend]
    exact sendPanic total s1 spec s2 s3 e s4 hr hburn hmint hsend
  | none =>
    rw [body_paid hr hburn hmint hsend]
    exact paid total s1 spec s2 s3 s4 hr hburn hmint hsend

/-- To show a property of the pass over any relay, it is enough to show it of
the six ways the pass can end before pairing validation returns, and of the
pass over a relay that got past pairing validation. -/
theorem body_cases (k : Keeper σ Stake Rate) (c : String) (cr : AccAddress)
    (relay : RelayRequest) (s : σ) (motive : RelayRun σ → Prop)
    (early : ∀ name attrs description,
      motive (errorLogAndFormat s [] name attrs description))
    (validated : ∀ client valid overlap stake,
      Validated k cr relay s client valid overlap stake →
      motive (relayPaymentBody k c cr relay s)) :
    motive (relayPaymentBody k c cr relay s) := by
  cases hsig : k.RecoverPubKeyFromRelay relay with
  | error e => rw [body_sig_error hsig]; exact early _ _ _
  | ok pk =>
  cases hhex : k.AccAddressFromHex pk with
  | error e => rw [body_hex_error hsig hhex]; exact early _ _ _
  | ok client =>
  cases hp : k.AccAddressFromBech32 relay.Provider with
  | error e => rw [body_provider_error hsig hhex hp]; exact early _ _ _
  | ok providerAddr =>
  by_cases hne : providerAddr = cr
  swap
  · rw [body_provider_mismatch hsig hhex hp hne]; exact early _ _ _
  subst hne
  cases hspec : k.IsSpecFoundAndActive s relay.ChainID with
  | false => rw [body_spec_error hsig hhex hp hspec]; exact early _ _ _
  | true =>
  cases hpair : k.ValidatePairingForClient s relay.ChainID client providerAddr
      (uint64 relay.BlockHeight) with
  | error e => rw [body_pairing_error hsig hhex hp hspec hpair]; exact early _ _ _
  | ok res =>
  obtain ⟨valid, overlap, stake⟩ := res
  exact validated client valid overlap stake ⟨pk, hsig, hhex, hp, hspec, hpair⟩

/-! ## What a rejected relay leaves behind, and what follows it -/

/-- The calls of a run hold, after the calls made before a reached relay, the
calls of the pass over that relay. -/
theorem RelayPayment_trace_of_reaches {k : Keeper σ Stake Rate} {msg : MsgRelayPayment}
    {s0 : σ} {creator : AccAddress} {pre : List RelayRequest} {relay : RelayRequest}
    {post : List RelayRequest} {s : σ} {t : List Call}
    (h : Reaches k msg s0 creator pre relay post s t) :
    ∃ later, (RelayPayment k msg s0).trace =
      t ++ (relayPaymentBody k msg.Creator creator relay s).trace ++ later := by
  rw [RelayPayment_of_reaches h]
  simp only [relayPaymentLoop]
  cases hf : (relayPaymentBody k msg.Creator creator relay s).flow with
  | next => exact relayPaymentLoop_trace_prefix k msg.Creator creator post _ _
  | fail e => exact ⟨[], by simp⟩
  | panic m => exact ⟨[], by simp⟩

/-- When the pass over a reached relay falls through, the relay after it is reached. -/
theorem Reaches.step {k : Keeper σ Stake Rate} {msg : MsgRelayPayment} {s0 : σ}
    {creator : AccAddress} {pre : List RelayRequest} {relay next : RelayRequest}
    {post : List RelayRequest} {s : σ} {t : List Call}
    (h : Reaches k msg s0 creator pre relay (next :: post) s t)
    (hf : (relayPaymentBody k msg.Creator creator relay s).flow = Flow.next) :
    Reaches k msg s0 creator (pre ++ [relay]) next post
      (relayPaymentBody k msg.Creator creator relay s).state
      (t ++ (relayPaymentBody k msg.Creator creator relay s).trace) := by
  obtain ⟨hc, hrel, hs, ht, ho⟩ := h
  have hl : relayPaymentLoop k msg.Creator creator (pre ++ [relay]) s0 [] =
      { state := (relayPaymentBody k msg.Creator creator relay s).state
        trace := t ++ (relayPaymentBody k msg.Creator creator relay s).trace
        outcome := Outcome.response } := by
    rw [relayPaymentLoop_append k msg.Creator creator pre [relay] s0 [] ho, hs, ht]
    simp [relayPaymentLoop, hf]
  exact ⟨hc, by rw [hrel]; simp, by rw [hl], by rw [hl], by rw [hl]⟩

/-- C11, as stated, fails: the handler leaves the CU addition applied.  With
bob outside the pairing of alice, a relay of 3 CU is rejected with "invalid
pairing claim on proof of relay" after its epoch payment succeeded, and 3 CU
stay recorded where none were; with alice short of stake, a relay of 200 CU is
rejected because the burn failed, and 200 CU stay recorded. -/
theorem C11_counterexample :
    (memKeeper.AddEpochPayment memUnpaired 20 alice bob 3 "7").1 = .ok 3 ∧
    (RelayPayment memKeeper msgPaid memUnpaired).outcome.description =
      some "invalid pairing claim on proof of relay" ∧
    memUnpaired.recordedCU 20 alice bob = 0 ∧
    (RelayPayment memKeeper msgPaid memUnpaired).state.recordedCU 20 alice bob = 3 ∧
    (RelayPayment memKeeper msgPaid memUnpaired).state.payments ≠ memUnpaired.payments ∧
    (RelayPayment memKeeper { Creator := "bob", Relays := [relayCostly] }
      memRich).outcome.description =
        some "BurnUserStake failed on user, did not find user, or insufficient funds" ∧
    memRich.recordedCU 20 alice bob = 0 ∧
    (RelayPayment memKeeper { Creator := "bob", Relays := [relayCostly] }
      memRich).state.recordedCU 20 alice bob = 200 :=
  ⟨rfl, rfl, rfl, rfl, by decide, rfl, rfl, rfl⟩

/-- C11, amended: the handler undoes nothing.  For a relay that the batch
reaches, that got past pairing validation and whose epoch payment succeeded
within the CU limit: when the provider is not in the pairing, the handler
returns "invalid pairing claim on proof of relay" and the state it returns is
the state `AddEpochPayment` left; when the client burn fails, the handler
returns an error and the state it returns is the state the failed
`BurnClientStake` left of the state `AddEpochPayment` left.  In both cases
the epoch payment is the first call of the relay and no mint or transfer
follows. -/
theorem C11_rejection_keeps_epoch_payment (k : Keeper σ Stake Rate) (msg : MsgRelayPayment)
    (s0 : σ) (creator : AccAddress) (pre : List RelayRequest) (relay : RelayRequest)
    (post : List RelayRequest) (s : σ) (t : List Call) (client : AccAddress)
    (isValidPairing isOverlap : Bool) (userStake : Stake) (total : Nat) (s1 : σ)
    (hreach : Reaches k msg s0 creator pre relay post s t)
    (hv : Validated k creator relay s client isValidPairing isOverlap userStake)
    (hadd : k.AddEpochPayment s (epochStartFor k s relay isOverlap) client creator relay.CuSum
      (FormatUint16 relay.SessionId) = (.ok total, s1))
    (hcu : k.EnforceUserCUsUsageInEpoch s1 userStake total = none) :
    (isValidPairing = false →
      RelayPayment k msg s0 =
        { state := s1
          trace := t ++
            [Call.AddEpochPayment (epochStartFor k s relay isOverlap) client creator
              relay.CuSum (FormatUint16 relay.SessionId),
             Call.LavaError "relay_proof_pairing"
              [("client", k.AddrString client), ("provider", k.AddrString creator),
               ("error", "pairing result doesn't include servicer")]
              "invalid pairing claim on proof of relay"]
          outcome := Outcome.error (Err.lava "relay_proof_pairing"
            [("client", k.AddrString client), ("provider", k.AddrString creator),
             ("error", "pairing result doesn't include servicer")]
            "invalid pairing claim on proof of relay") } ∧
      (RelayPayment k msg s0).state =
        (k.AddEpochPayment s (epochStartFor k s relay isOverlap) client creator relay.CuSum
          (FormatUint16 relay.SessionId)).2) ∧
    (∀ spec burnSucceeded err2 s2,
      isValidPairing = true →
      k.Scale relay.CuSum (k.MintCoinsPerCU s1) ≠ 0 →
      k.GetSpec s1 relay.ChainID = some spec →
      k.BurnClientStake s1 spec.Name client (burnAmountFor k s1 relay) false
        = ((burnSucceeded, err2), s2) →
      (err2 ≠ none ∨ burnSucceeded = false) →
      (RelayPayment k msg s0).outcome.isError = true ∧
      (RelayPayment k msg s0).state =
        (k.BurnClientStake
          (k.AddEpochPayment s (epochStartFor k s relay isOverlap) client creator relay.CuSum
            (FormatUint16 relay.SessionId)).2
          spec.Name client (burnAmountFor k s1 relay) false).2 ∧
      (RelayPayment k msg s0).trace.drop t.length =
        [Call.AddEpochPayment (epochStartFor k s relay isOverlap) client creator
          relay.CuSum (FormatUint16 relay.SessionId),
         Call.BurnClientStake spec.Name client (burnAmountFor k s1 relay) false,
         Call.LavaError "relay_proof_burn"
          (((paymentDetails k s1 relay client creator total isOverlap).set "amountToBurn"
            (burnAmountFor k s1 relay).String).set "error"
            (err2.getD "insufficient funds or didn't find user"))
          (if err2.isSome then "BurnUserStake failed on user"
            else "BurnUserStake failed on user, did not find user, or insufficient funds")]) := by
  constructor
  · intro hvalid
    subst hvalid
    have h := RelayPayment_fail hreach (body_invalid_pairing (c := msg.Creator) hv hadd hcu)
    simp only [List.append_assoc, List.singleton_append, addCall] at h
    exact ⟨h, by rw [h, hadd]⟩
  · intro spec ok err2 s2 hvalid hpos hget hburn hfail
    subst hvalid
    have hr : ReadyToBurn k creator relay s client isOverlap total s1 spec :=
      ⟨userStake, hv, hadd, hcu, hpos, hget⟩
    cases err2 with
    | some e =>
      have h := RelayPayment_fail hreach (body_burn_error (c := msg.Creator) hr hburn)
      refine ⟨by rw [h]; rfl, by rw [h, hadd, hburn], ?_⟩
      rw [h]
      simp [addCall, burnCall]
    | none =>
      have hb : ok = false := by
        cases hfail with
        | inl h => exact absurd rfl h
        | inr h => exact h
      subst hb
      have h := RelayPayment_fail hreach (body_burn_failed (c := msg.Creator) hr hburn)
      refine ⟨by rw [h]; rfl, by rw [h, hadd, hburn], ?_⟩
      rw [h]
      simp [addCall, burnCall]

/-- C11, amended, at a concrete batch: bob is not in the pairing of alice; the
3 CU of the rejected relay are in the state returned. -/
theorem C11_rejection_keeps_epoch_payment_witness :
    Reaches memKeeper msgPaid memUnpaired bob [] (memRelay 3 7) [] memUnpaired [] ∧
    Validated memKeeper bob (memRelay 3 7) memUnpaired alice false false 10 ∧
    (RelayPayment memKeeper msgPaid memUnpaired).state =
      (memKeeper.AddEpochPayment memUnpaired 20 alice bob 3 "7").2 ∧
    (RelayPayment memKeeper msgPaid memUnpaired).state.recordedCU 20 alice bob = 3 :=
  have hreach : Reaches memKeeper msgPaid memUnpaired bob [] (memRelay 3 7) [] memUnpaired [] :=
    ⟨rfl, rfl, rfl, rfl, rfl⟩
  have hv : Validated memKeeper bob (memRelay 3 7) memUnpaired alice false false 10 :=
    ⟨"alice", rfl, rfl, rfl, rfl, rfl⟩
  ⟨hreach, hv,
   ((C11_rejection_keeps_epoch_payment memKeeper msgPaid memUnpaired bob [] (memRelay 3 7) []
      memUnpaired [] alice false false 10 3
      (memKeeper.AddEpochPayment memUnpaired 20 alice bob 3 "7").2 hreach hv rfl rfl).1 rfl).2,
   rfl⟩

/-- C12, as stated, fails: in the batch of a relay without signature followed
by a relay that settles when sent alone, the handler returns the signature
error of the first relay, makes no call but the error log and leaves the state
as it was: the second relay is neither validated nor settled. -/
theorem C12_counterexample :
    (RelayPayment memKeeper msgPaid memInit).outcome = Outcome.response ∧
    (RelayPayment memKeeper msgPaid memInit).state.recordedCU 20 alice bob = 3 ∧
    RelayPayment memKeeper msgBadThenGood memInit =
      { state := memInit
        trace := [Call.LavaError "relay_proof_sig" [("sig", "")]
          "recover PubKey from relay failed"]
        outcome := Outcome.error (Err.lava "relay_proof_sig" [("sig", "")]
          "recover PubKey from relay failed") } ∧
    (RelayPayment memKeeper msgBadThenGood memInit).state.recordedCU 20 alice bob = 0 :=
  ⟨rfl, rfl, rfl, rfl⟩

/-- C12, amended: a relay of the batch whose pass fails ends the handler.  The
handler returns the error of that relay, with the state and the calls of the
relays before it and of that relay; the result is the result of the batch cut
off after that relay, whatever relays follow it: they are neither validated
nor settled. -/
theorem C12_failure_ends_the_batch (k : Keeper σ Stake Rate) (msg : MsgRelayPayment)
    (s0 : σ) (creator : AccAddress) (pre : List RelayRequest) (relay : RelayRequest)
    (post : List RelayRequest) (s : σ) (t : List Call) (e : Err)
    (hreach : Reaches k msg s0 creator pre relay post s t)
    (hfail : (relayPaymentBody k msg.Creator creator relay s).flow = Flow.fail e) :
    RelayPayment k msg s0 =
      { state := (relayPaymentBody k msg.Creator creator relay s).state
        trace := t ++ (relayPaymentBody k msg.Creator creator relay s).trace
        outcome := Outcome.error e } ∧
    RelayPayment k msg s0 =
      RelayPayment k { Creator := msg.Creator, Relays := pre ++ [relay] } s0 ∧
    ∀ others : List RelayRequest,
      RelayPayment k { Creator := msg.Creator, Relays := pre ++ relay :: others } s0 =
        RelayPayment k msg s0 := by
  have hb : relayPaymentBody k msg.Creator creator relay s =
      { state := (relayPaymentBody k msg.Creator creator relay s).state
        trace := (relayPaymentBody k msg.Creator creator relay s).trace
        flow := Flow.fail e } := by
    rw [← hfail]
  have h := RelayPayment_fail hreach hb
  refine ⟨h, ?_, ?_⟩
  · rw [h, RelayPayment_fail hreach.truncate hb]
  · intro others
    have hreach2 : Reaches k { Creator := msg.Creator, Relays := pre ++ relay :: others } s0
        creator pre relay others s t :=
      ⟨hreach.1, rfl, hreach.2.2.1, hreach.2.2.2.1, hreach.2.2.2.2⟩
    rw [h, RelayPayment_fail hreach2 hb]

/-- C12, amended, at a concrete batch: the relay after the one without
signature changes nothing. -/
theorem C12_failure_ends_the_batch_witness :
    Reaches memKeeper msgBadThenGood memInit bob [] relayNoSig [memRelay 3 7] memInit [] ∧
    (relayPaymentBody memKeeper "bob" bob relayNoSig memInit).flow =
      Flow.fail (Err.lava "relay_proof_sig" [("sig", "")] "recover PubKey from relay failed") ∧
    RelayPayment memKeeper msgBadThenGood memInit =
      RelayPayment memKeeper { Creator := "bob", Relays := [relayNoSig] } memInit :=
  ⟨⟨rfl, rfl, rfl, rfl, rfl⟩, rfl,
   (C12_failure_ends_the_batch memKeeper msgBadThenGood memInit bob [] relayNoSig
      [memRelay 3 7] memInit []
      (Err.lava "relay_proof_sig" [("sig", "")] "recover PubKey from relay failed")
      ⟨rfl, rfl, rfl, rfl, rfl⟩ rfl).2.1⟩

/-! ## The row of the epoch payments a relay addresses -/

/-- In the in-memory keeper, the pass over a relay whose epoch payment is
accepted leaves the payments as the epoch payment left them. -/
theorem mem_body_payments {c : String} {cr : AccAddress} {relay : RelayRequest}
    {s s1 : MemState} {client : AccAddress} {valid overlap : Bool} {limit total : Nat}
    (hv : Validated memKeeper cr relay s client valid overlap limit)
    (hadd : memKeeper.AddEpochPayment s (epochStartFor memKeeper s relay overlap) client cr
      relay.CuSum (FormatUint16 relay.SessionId) = (.ok total, s1)) :
    (relayPaymentBody memKeeper c cr relay s).state.payments = s1.payments := by
  have key : ∀ {a : Except String Nat} {s1a : MemState},
      memKeeper.AddEpochPayment s (epochStartFor memKeeper s relay overlap) client cr
        relay.CuSum (FormatUint16 relay.SessionId) = (a, s1a) → s1a = s1 := by
    intro a s1a h
    rw [hadd] at h
    exact (Prod.mk.inj h).2.symm
  have ready : ∀ {tot : Nat} {s1a : MemState} {spec : Spec},
      ReadyToBurn memKeeper cr relay s client overlap tot s1a spec → s1a = s1 := by
    intro tot s1a spec hr
    obtain ⟨_, _, h, _⟩ := hr
    exact key h
  refine body_validated_cases (c := c) hv (fun run => run.state.payments = s1.payments)
    ?_ ?_ ?_ ?_ ?_ ?_ ?_ ?_ ?_ ?_
  · intro e s1a h
    rw [hadd] at h
    cases h
  · intro tot s1a e h _
    rw [key h]; rfl
  · intro _ tot s1a h _
    rw [key h]; rfl
  · intro _ tot s1a h _ _
    rw [key h]
  · intro tot s1a h _ _ _ _
    rw [key h]
  · intro tot s1a spec ok e s2 hr hburn
    have hf := mem_burn_frame s1a spec.Name client (burnAmountFor memKeeper s1a relay) false
    rw [hburn, ready hr] at hf
    exact hf.2
  · intro tot s1a spec s2 hr hburn
    have hf := mem_burn_frame s1a spec.Name client (burnAmountFor memKeeper s1a relay) false
    rw [hburn, ready hr] at hf
    exact hf.2
  · intro tot s1a spec s2 e s3 hr hburn hmint
    have hf := mem_burn_frame s1a spec.Name client (burnAmountFor memKeeper s1a relay) false
    have hm := mem_mint_frame s2 memKeeper.ModuleName (rewardCoinsFor memKeeper s1a relay)
    rw [hburn, ready hr] at hf
    rw [hmint] at hm
    exact hm.2.trans hf.2
  · intro tot s1a spec s2 s3 e s4 hr hburn hmint hsend
    have hf := mem_burn_frame s1a spec.Name client (burnAmountFor memKeeper s1a relay) false
    have hm := mem_mint_frame s2 memKeeper.ModuleName (rewardCoinsFor memKeeper s1a relay)
    have hs := mem_send_frame s3 memKeeper.ModuleName cr (rewardCoinsFor memKeeper s1a relay)
    rw [hburn, ready hr] at hf
    rw [hmint] at hm
    rw [hsend] at hs
    exact hs.2.trans (hm.2.trans hf.2)
  · intro tot s1a spec s2 s3 s4 hr hburn hmint hsend
    have hf := mem_burn_frame s1a spec.Name client (burnAmountFor memKeeper s1a relay) false
    have hm := mem_mint_frame s2 memKeeper.ModuleName (rewardCoinsFor memKeeper s1a relay)
    have hs := mem_send_frame s3 memKeeper.ModuleName cr (rewardCoinsFor memKeeper s1a relay)
    rw [hburn, ready hr] at hf
    rw [hmint] at hm
    rw [hsend] at hs
    exact hs.2.trans (hm.2.trans hf.2)

/-- In the in-memory keeper, a session whose epoch payment was accepted is
recorded in every state with the same payments as the one it left. -/
theorem mem_session_recorded {s s1 s2 : MemState} {epoch : Nat} {client provider : AccAddress}
    {cu total : Nat} {uid : String}
    (hadd : memKeeper.AddEpochPayment s epoch client provider cu uid = (.ok total, s1))
    (hp : s2.payments = s1.payments) :
    s2.sessionRecorded epoch client provider uid = true := by
  obtain ⟨hs1, _⟩ := mem_add_ok hadd
  simp only [MemState.sessionRecorded, hp, hs1, List.any_append, List.any_cons, List.any_nil,
    and_self, decide_True, Bool.or_false, Bool.or_true]

/-- In the in-memory keeper, the epoch payment of a recorded session is refused. -/
theorem mem_add_recorded {s : MemState} {epoch : Nat} {client provider : AccAddress}
    {cu : Nat} {uid : String} (h : s.sessionRecorded epoch client provider uid = true) :
    memKeeper.AddEpochPayment s epoch client provider cu uid =
      (.error "session already recorded in this epoch", s) := by
  simp [memKeeper, MemState.AddEpochPayment, h]

/-- The pass over a relay that got past pairing validation starts with the
call of `AddEpochPayment`, and makes no other such call. -/
theorem body_head_of_validated {k : Keeper σ Stake Rate} {c : String} {cr : AccAddress}
    {relay : RelayRequest} {s : σ} {client : AccAddress} {valid overlap : Bool}
    {stake : Stake} (hv : Validated k cr relay s client valid overlap stake) :
    ∃ rest, (relayPaymentBody k c cr relay s).trace =
        addCall k s relay client cr overlap :: rest ∧
      ∀ x ∈ rest, x.isAddEpochPayment = false := by
  refine body_validated_cases (c := c) hv
    (fun run => ∃ rest, run.trace = addCall k s relay client cr overlap :: rest ∧
      ∀ x ∈ rest, x.isAddEpochPayment = false)
    ?_ ?_ ?_ ?_ ?_ ?_ ?_ ?_ ?_ ?_
  all_goals intros
  all_goals refine ⟨_, rfl, ?_⟩
  all_goals simp [Call.isAddEpochPayment, burnCall, mintCall, sendCall]

/-- C13, as stated, fails: two relays of alice for provider bob with the same
session id 7, the same CU and the same block, one for chain 1 and one for
chain 2 (both chains active, bob paired with alice on both): the first is
paid, the second is rejected with "double spending detected".  With session id
8 the second relay is paid as well. -/
theorem C13_counterexample :
    relayOtherChain = { memRelay 3 7 with ChainID := 2 } ∧
    (RelayPayment memKeeper msgPaid memTwoChains).outcome = Outcome.response ∧
    (RelayPayment memKeeper msgTwoChains memTwoChains).outcome =
      Outcome.error (Err.lava "relay_proof_claim"
        [("session", "20"), ("client", "alice"), ("provider", "bob"),
         ("error", "session already recorded in this epoch"), ("unique_ID", "1")]
        "double spending detected") ∧
    (RelayPayment memKeeper
      { Creator := "bob", Relays := [memRelay 3 7, { memRelay 3 8 with ChainID := 2 }] }
      memTwoChains).outcome = Outcome.response :=
  ⟨rfl, rfl, rfl, rfl⟩

/-- C13, amended: the chain id of a relay is no part of what `AddEpochPayment`
is called with.  For any keeper, a relay and the same relay with any other
chain id, both past pairing validation in the same state with the same client
and overlap flag, start with the same call of `AddEpochPayment`: epoch,
client, provider, CU and session id.  And with the epoch payments of the
in-memory keeper: when a relay whose epoch payment was accepted falls
through, and the relay after it in the batch has the same client, provider,
epoch and session id, whatever its chain id, that relay is rejected with
"double spending detected". -/
theorem C13_row_ignores_chain (k : Keeper σ Stake Rate)
    (msg : MsgRelayPayment) (s0 : MemState) (creator : AccAddress)
    (pre : List RelayRequest) (r1 r2 : RelayRequest) (post : List RelayRequest)
    (s : MemState) (t : List Call) (client : AccAddress)
    (valid1 overlap1 : Bool) (limit1 : Nat) (valid2 overlap2 : Bool) (limit2 : Nat)
    (total : Nat) (s1 : MemState)
    (hreach : Reaches memKeeper msg s0 creator pre r1 (r2 :: post) s t)
    (hv1 : Validated memKeeper creator r1 s client valid1 overlap1 limit1)
    (hadd : memKeeper.AddEpochPayment s (epochStartFor memKeeper s r1 overlap1) client creator
      r1.CuSum (FormatUint16 r1.SessionId) = (.ok total, s1))
    (hnext : (relayPaymentBody memKeeper msg.Creator creator r1 s).flow = Flow.next)
    (hv2 : Validated memKeeper creator r2
      (relayPaymentBody memKeeper msg.Creator creator r1 s).state client valid2 overlap2 limit2)
    (hsession : r2.SessionId = r1.SessionId)
    (hepoch : epochStartFor memKeeper
      (relayPaymentBody memKeeper msg.Creator creator r1 s).state r2 overlap2 =
        epochStartFor memKeeper s r1 overlap1) :
    (∀ (c : String) (cr : AccAddress) (relay : RelayRequest) (chainID : Nat) (st : σ)
      (payer : AccAddress) (v v2 o : Bool) (stake stake2 : Stake),
      Validated k cr relay st payer v o stake →
      Validated k cr { relay with ChainID := chainID } st payer v2 o stake2 →
      (relayPaymentBody k c cr { relay with ChainID := chainID } st).trace.head? =
        some (Call.AddEpochPayment (epochStartFor k st relay o) payer cr relay.CuSum
          (FormatUint16 relay.SessionId)) ∧
      (relayPaymentBody k c cr relay st).trace.head? =
        some (Call.AddEpochPayment (epochStartFor k st relay o) payer cr relay.CuSum
          (FormatUint16 relay.SessionId))) ∧
    (RelayPayment memKeeper msg s0).outcome.description = some "double spending detected" ∧
    (RelayPayment memKeeper msg s0).trace =
      t ++ (relayPaymentBody memKeeper msg.Creator creator r1 s).trace ++
        [Call.AddEpochPayment (epochStartFor memKeeper s r1 overlap1) client creator r2.CuSum
          (FormatUint16 r1.SessionId),
         Call.LavaError "relay_proof_claim"
          [("session", FormatUint10 (epochStartFor memKeeper s r1 overlap1)),
           ("client", memKeeper.AddrString client), ("provider", memKeeper.AddrString creator),
           ("error", "session already recorded in this epoch"),
           ("unique_ID", FormatUint16 r2.EpochId)]
          "double spending detected"] := by
  refine ⟨?_, ?_⟩
  · intro c cr relay chainID st payer v v2 o stake stake2 h1 h2
    obtain ⟨rest1, e1, _⟩ := body_head_of_validated (c := c) h1
    obtain ⟨rest2, e2, _⟩ := body_head_of_validated (c := c) h2
    rw [e1, e2]
    exact ⟨rfl, rfl⟩
  · have hp := mem_body_payments (c := msg.Creator) hv1 hadd
    have hrec := mem_session_recorded hadd hp
    have hadd2 : memKeeper.AddEpochPayment
        (relayPaymentBody memKeeper msg.Creator creator r1 s).state
        (epochStartFor memKeeper (relayPaymentBody memKeeper msg.Creator creator r1 s).state
          r2 overlap2) client creator r2.CuSum (FormatUint16 r2.SessionId) =
        (.error "session already recorded in this epoch",
          (relayPaymentBody memKeeper msg.Creator creator r1 s).state) := by
      rw [hepoch, hsession]
      exact mem_add_recorded hrec
    have h := RelayPayment_fail (hreach.step hnext)
      (body_add_error (c := msg.Creator) hv2 hadd2)
    rw [h]
    refine ⟨rfl, ?_⟩
    simp [addCall, hepoch, hsession]

/-- C13, amended, at the batch of the two relays that differ in their chain id. -/
theorem C13_row_ignores_chain_witness :
    Reaches memKeeper msgTwoChains memTwoChains bob [] (memRelay 3 7) [relayOtherChain]
      memTwoChains [] ∧
    (relayPaymentBody memKeeper "bob" bob (memRelay 3 7) memTwoChains).flow = Flow.next ∧
    (memRelay 3 7).ChainID = 1 ∧ relayOtherChain.ChainID = 2 ∧
    (RelayPayment memKeeper msgTwoChains memTwoChains).outcome.description =
      some "double spending detected" :=
  ⟨⟨rfl, rfl, rfl, rfl, rfl⟩, rfl, rfl, rfl,
   (C13_row_ignores_chain memKeeper msgTwoChains memTwoChains bob [] (memRelay 3 7)
      relayOtherChain [] memTwoChains [] alice true false 10 true false 10 3
      (memKeeper.AddEpochPayment memTwoChains 20 alice bob 3 "7").2
      ⟨rfl, rfl, rfl, rfl, rfl⟩ ⟨"alice", rfl, rfl, rfl, rfl, rfl⟩ rfl rfl
      ⟨"alice", rfl, rfl, rfl, rfl, rfl⟩ rfl rfl).2.1⟩

/-- C14: for a relay that the batch reaches and that got past pairing
validation, the epoch handed to `AddEpochPayment` is
`GetEpochStartForBlock` of the block height of the relay when pairing
validation does not report an overlap, and `GetPreviousEpochStartForBlock` of
that block height when it does; it is the one call of `AddEpochPayment` made
for the relay. -/
theorem C14_epoch_of_record (k : Keeper σ Stake Rate) (msg : MsgRelayPayment)
    (s0 : σ) (creator : AccAddress) (pre : List RelayRequest) (relay : RelayRequest)
    (post : List RelayRequest) (s : σ) (t : List Call) (client : AccAddress)
    (isValidPairing isOverlap : Bool) (userStake : Stake)
    (hreach : Reaches k msg s0 creator pre relay post s t)
    (hv : Validated k creator relay s client isValidPairing isOverlap userStake) :
    (∃ rest later,
      (RelayPayment k msg s0).trace =
        t ++ (Call.AddEpochPayment
          (if isOverlap = true then
            k.GetPreviousEpochStartForBlock s (uint64 relay.BlockHeight)
           else k.GetEpochStartForBlock s (uint64 relay.BlockHeight))
          client creator relay.CuSum (FormatUint16 relay.SessionId) :: rest) ++ later ∧
      (relayPaymentBody k msg.Creator creator relay s).trace =
        Call.AddEpochPayment
          (if isOverlap = true then
            k.GetPreviousEpochStartForBlock s (uint64 relay.BlockHeight)
           else k.GetEpochStartForBlock s (uint64 relay.BlockHeight))
          client creator relay.CuSum (FormatUint16 relay.SessionId) :: rest ∧
      ∀ x ∈ rest, x.isAddEpochPayment = false) ∧
    (isOverlap = false →
      (relayPaymentBody k msg.Creator creator relay s).trace.head? =
        some (Call.AddEpochPayment (k.GetEpochStartForBlock s (uint64 relay.BlockHeight))
          client creator relay.CuSum (FormatUint16 relay.SessionId))) ∧
    (isOverlap = true →
      (relayPaymentBody k msg.Creator creator relay s).trace.head? =
        some (Call.AddEpochPayment
          (k.GetPreviousEpochStartForBlock s (uint64 relay.BlockHeight))
          client creator relay.CuSum (FormatUint16 relay.SessionId))) := by
  obtain ⟨rest, hrest, hno⟩ := body_head_of_validated (c := msg.Creator) hv
  obtain ⟨later, hlater⟩ := RelayPayment_trace_of_reaches hreach
  simp only [addCall, epochStartFor] at hrest
  refine ⟨⟨rest, later, ?_, hrest, hno⟩, ?_, ?_⟩
  · rw [hlater, hrest]
  · intro ho
    subst ho
    rw [hrest]
    simp
  · intro ho
    subst ho
    rw [hrest]
    simp

/-- C14 at a concrete batch: a relay signed at block 41, in the overlap of the
epoch that starts at block 40, is recorded under epoch 20. -/
theorem C14_epoch_of_record_witness :
    Reaches memKeeper { Creator := "bob", Relays := [relayOverlap] } memInit bob []
      relayOverlap [] memInit [] ∧
    Validated memKeeper bob relayOverlap memInit alice true true 10 ∧
    memKeeper.GetEpochStartForBlock memInit 41 = 40 ∧
    memKeeper.GetPreviousEpochStartForBlock memInit 41 = 20 ∧
    (relayPaymentBody memKeeper "bob" bob relayOverlap memInit).trace.head? =
      some (Call.AddEpochPayment 20 alice bob 3 "7") :=
  have hreach : Reaches memKeeper { Creator := "bob", Relays := [relayOverlap] } memInit bob []
      relayOverlap [] memInit [] := ⟨rfl, rfl, rfl, rfl, rfl⟩
  have hv : Validated memKeeper bob relayOverlap memInit alice true true 10 :=
    ⟨"alice", rfl, rfl, rfl, rfl, rfl⟩
  ⟨hreach, hv, rfl, rfl,
   (C14_epoch_of_record memKeeper { Creator := "bob", Relays := [relayOverlap] } memInit bob []
      relayOverlap [] memInit [] alice true true 10 hreach hv).2.2 rfl⟩

/-! ## The event and the response -/

/-- A pass of the loop body emits an event only when it falls through, and at
most one. -/
theorem body_events (k : Keeper σ Stake Rate) (c : String) (cr : AccAddress)
    (relay : RelayRequest) (s : σ) :
    (relayPaymentBody k c cr relay s).trace.countP Call.isEvent ≤ 1 ∧
    ((relayPaymentBody k c cr relay s).flow ≠ Flow.next →
      ∀ x ∈ (relayPaymentBody k c cr relay s).trace, x.isEvent = false) := by
  refine body_cases k c cr relay s
    (fun run => run.trace.countP Call.isEvent ≤ 1 ∧
      (run.flow ≠ Flow.next → ∀ x ∈ run.trace, x.isEvent = false)) ?_ ?_
  · intro name attrs description
    simp [errorLogAndFormat, Call.isEvent]
  · intro client valid overlap stake hv
    refine body_validated_cases (c := c) hv
      (fun run => run.trace.countP Call.isEvent ≤ 1 ∧
        (run.flow ≠ Flow.next → ∀ x ∈ run.trace, x.isEvent = false))
      ?_ ?_ ?_ ?_ ?_ ?_ ?_ ?_ ?_ ?_
    all_goals intros
    all_goals
      simp [errorLogAndFormat, Call.isEvent, addCall, burnCall, mintCall, sendCall,
        List.countP_cons]

/-- C15: for a relay that the batch reaches and that is accepted (it passes
every check with a valid pairing and a reward that is not zero, and its burn,
mint and transfer succeed), exactly one event "relay_payment" is emitted, with
the description "New Proof Of Work Was Accepted"; its attributes hold the
chain id, the client, the provider, the CU, the minted reward, the total CU of
the epoch, the overlap flag and the client fee burned.  And for no relay whose
pass fails (the relay is rejected), or panics, is an event emitted. -/
theorem C15_event_per_accepted_relay (k : Keeper σ Stake Rate) (msg : MsgRelayPayment)
    (s0 : σ) (creator : AccAddress) (pre : List RelayRequest) (relay : RelayRequest)
    (post : List RelayRequest) (s : σ) (t : List Call) (client : AccAddress)
    (isOverlap : Bool) (total : Nat) (s1 : σ) (spec : Spec) (s2 s3 s4 : σ)
    (hreach : Reaches k msg s0 creator pre relay post s t)
    (hr : ReadyToBurn k creator relay s client isOverlap total s1 spec)
    (hburn : k.BurnClientStake s1 spec.Name client (burnAmountFor k s1 relay) false
      = ((true, none), s2))
    (hmint : k.MintCoins s2 k.ModuleName (rewardCoinsFor k s1 relay) = (none, s3))
    (hsend : k.SendCoinsFromModuleToAccount s3 k.ModuleName creator (rewardCoinsFor k s1 relay)
      = (none, s4)) :
    (relayPaymentBody k msg.Creator creator relay s).trace.filter Call.isEvent =
      [Call.LogLavaEvent "relay_payment"
        [("chainID", FormatUint10 relay.ChainID), ("client", k.AddrString client),
         ("provider", k.AddrString creator), ("CU", FormatUint10 relay.CuSum),
         ("Mint", Coins.String
            [{ Denom := "stake", Amount := k.Scale relay.CuSum (k.MintCoinsPerCU s1) }]),
         ("totalCUInEpoch", FormatUint10 total), ("isOverlap", FormatBool isOverlap),
         ("clientFee", Coin.String
            { Amount := k.Scale relay.CuSum (k.GetCoinsPerCU s1), Denom := "stake" })]
        "New Proof Of Work Was Accepted"] ∧
    (relayPaymentBody k msg.Creator creator relay s).trace.countP Call.isEvent = 1 ∧
    (∃ later, (RelayPayment k msg s0).trace =
      t ++ (relayPaymentBody k msg.Creator creator relay s).trace ++ later) ∧
    ∀ (r : RelayRequest) (st : σ),
      (relayPaymentBody k msg.Creator creator r st).flow ≠ Flow.next →
      ∀ x ∈ (relayPaymentBody k msg.Creator creator r st).trace, x.isEvent = false := by
  have hb := body_paid (c := msg.Creator) hr hburn hmint hsend
  have hattrs : (paymentDetails k s1 relay client creator total isOverlap).set "clientFee"
      (burnAmountFor k s1 relay).String =
      [("chainID", FormatUint10 relay.ChainID), ("client", k.AddrString client),
       ("provider", k.AddrString creator), ("CU", FormatUint10 relay.CuSum),
       ("Mint", Coins.String
          [{ Denom := "stake", Amount := k.Scale relay.CuSum (k.MintCoinsPerCU s1) }]),
       ("totalCUInEpoch", FormatUint10 total), ("isOverlap", FormatBool isOverlap),
       ("clientFee", Coin.String
          { Amount := k.Scale relay.CuSum (k.GetCoinsPerCU s1), Denom := "stake" })] := by
    simp [Attrs.set, paymentDetails, rewardCoinsFor, burnAmountFor]
  refine ⟨?_, ?_, RelayPayment_trace_of_reaches hreach, ?_⟩
  · rw [hb, hattrs]
    simp [List.filter_cons, Call.isEvent, addCall, burnCall, mintCall, sendCall]
  · rw [hb]
    simp [List.countP_cons, Call.isEvent, addCall, burnCall, mintCall, sendCall]
  · intro r st
    exact (body_events k msg.Creator creator r st).2

/-- C15 at a concrete batch: the event of the relay of 3 CU that alice pays bob for. -/
theorem C15_event_per_accepted_relay_witness :
    Reaches memKeeper msgPaid memInit bob [] (memRelay 3 7) [] memInit [] ∧
    ReadyToBurn memKeeper bob (memRelay 3 7) memInit alice false 3
      (memKeeper.AddEpochPayment memInit 20 alice bob 3 "7").2 { Name := "ETH1" } ∧
    (RelayPayment memKeeper msgPaid memInit).trace.filter Call.isEvent =
      [Call.LogLavaEvent "relay_payment"
        [("chainID", "1"), ("client", "alice"), ("provider", "bob"), ("CU", "3"),
         ("Mint", "6stake"), ("totalCUInEpoch", "3"), ("isOverlap", "false"),
         ("clientFee", "3stake")]
        "New Proof Of Work Was Accepted"] ∧
    (relayPaymentBody memKeeper "bob" bob (memRelay 3 7) memInit).trace.countP Call.isEvent
      = 1 ∧
    (RelayPayment memKeeper msgZeroReward memInit).outcome = Outcome.response ∧
    (RelayPayment memKeeper msgZeroReward memInit).trace.filter Call.isEvent = [] :=
  have hreach : Reaches memKeeper msgPaid memInit bob [] (memRelay 3 7) [] memInit [] :=
    ⟨rfl, rfl, rfl, rfl, rfl⟩
  have hr : ReadyToBurn memKeeper bob (memRelay 3 7) memInit alice false 3
      (memKeeper.AddEpochPayment memInit 20 alice bob 3 "7").2 { Name := "ETH1" } :=
    ⟨10, ⟨"alice", rfl, rfl, rfl, rfl, rfl⟩, rfl, rfl, by decide, rfl⟩
  ⟨hreach, hr, rfl,
   (C15_event_per_accepted_relay memKeeper msgPaid memInit bob [] (memRelay 3 7) [] memInit []
      alice false 3 (memKeeper.AddEpochPayment memInit 20 alice bob 3 "7").2
      { Name := "ETH1" } _ _ _ hreach hr rfl rfl rfl).2.1,
   rfl, rfl⟩

/-- C16, as stated, fails: the response is the same for the empty batch, for a
batch that mints 6 coins for one relay and for a batch that mints 8 coins for
another relay. -/
theorem C16_counterexample :
    (RelayPayment memKeeper { Creator := "bob", Relays := [] } memInit).outcome =
      Outcome.response ∧
    (RelayPayment memKeeper msgPaid memInit).outcome = Outcome.response ∧
    (RelayPayment memKeeper { Creator := "bob", Relays := [memRelay 4 8] } memInit).outcome =
      Outcome.response ∧
    (RelayPayment memKeeper { Creator := "bob", Relays := [] } memInit).trace.filter
      Call.isMint = [] ∧
    (RelayPayment memKeeper msgPaid memInit).trace.filter Call.isMint =
      [Call.MintCoins "pairing" [{ Denom := "stake", Amount := 6 }]] ∧
    (RelayPayment memKeeper { Creator := "bob", Relays := [memRelay 4 8] }
      memInit).trace.filter Call.isMint =
      [Call.MintCoins "pairing" [{ Denom := "stake", Amount := 8 }]] :=
  ⟨rfl, rfl, rfl, rfl, rfl, rfl⟩

/-- A loop that ends with the response fell through every relay: each relay
is reached after the relays before it, and its pass falls through. -/
theorem relayPaymentLoop_response (k : Keeper σ Stake Rate) (c : String) (cr : AccAddress)
    (pre : List RelayRequest) :
    ∀ (s0 : σ) (t0 : List Call) (relay : RelayRequest) (post : List RelayRequest),
      (relayPaymentLoop k c cr (pre ++ relay :: post) s0 t0).outcome = Outcome.response →
      (relayPaymentLoop k c cr pre s0 t0).outcome = Outcome.response ∧
      (relayPaymentBody k c cr relay (relayPaymentLoop k c cr pre s0 t0).state).flow =
        Flow.next := by
  induction pre with
  | nil =>
    intro s0 t0 relay post h
    refine ⟨rfl, ?_⟩
    simp only [List.nil_append, relayPaymentLoop] at h ⊢
    cases hf : (relayPaymentBody k c cr relay s0).flow with
    | next => rfl
    | fail e => simp [hf] at h
    | panic m => simp [hf] at h
  | cons p pre ih =>
    intro s0 t0 relay post h
    simp only [List.cons_append, relayPaymentLoop] at h ⊢
    cases hf : (relayPaymentBody k c cr p s0).flow with
    | next =>
      simp only [hf] at h ⊢
      exact ih _ _ relay post h
    | fail e => simp [hf] at h
    | panic m => simp [hf] at h

/-- A loop that ends with an error ends with the error of the first pass that
fails: the relays before it fell through, and its calls are the last made. -/
theorem relayPaymentLoop_error (k : Keeper σ Stake Rate) (c : String) (cr : AccAddress)
    (rs : List RelayRequest) :
    ∀ (s0 : σ) (t0 : List Call) (e : Err),
      (relayPaymentLoop k c cr rs s0 t0).outcome = Outcome.error e →
      ∃ pre relay post, rs = pre ++ relay :: post ∧
        (relayPaymentLoop k c cr pre s0 t0).outcome = Outcome.response ∧
        (relayPaymentBody k c cr relay (relayPaymentLoop k c cr pre s0 t0).state).flow =
          Flow.fail e ∧
        (relayPaymentLoop k c cr rs s0 t0).trace =
          (relayPaymentLoop k c cr pre s0 t0).trace ++
            (relayPaymentBody k c cr relay (relayPaymentLoop k c cr pre s0 t0).state).trace ∧
        (relayPaymentLoop k c cr rs s0 t0).state =
          (relayPaymentBody k c cr relay (relayPaymentLoop k c cr pre s0 t0).state).state := by
  induction rs with
  | nil =>
    intro s0 t0 e h
    simp [relayPaymentLoop] at h
  | cons r rs ih =>
    intro s0 t0 e h
    simp only [relayPaymentLoop] at h
    cases hf : (relayPaymentBody k c cr r s0).flow with
    | next =>
      simp only [hf] at h
      obtain ⟨pre, relay, post, hsplit, hresp, hflow, htrace, hstate⟩ := ih _ _ e h
      refine ⟨r :: pre, relay, post, by rw [hsplit]; rfl, ?_, ?_, ?_, ?_⟩
      · simp only [relayPaymentLoop, hf]
        exact hresp
      · simp only [relayPaymentLoop, hf]
        exact hflow
      · simp only [relayPaymentLoop, hf]
        exact htrace
      · simp only [relayPaymentLoop, hf]
        exact hstate
    | fail e2 =>
      simp only [hf, Outcome.error.injEq] at h
      subst h
      refine ⟨[], r, rs, rfl, rfl, hf, ?_, ?_⟩
      · simp only [relayPaymentLoop, hf]
      · simp only [relayPaymentLoop, hf]
    | panic m => simp [hf] at h

/-- A pass that falls through either paid its relay, with one mint, one
transfer and one event, or skipped it, with no event and no tokens moved. -/
theorem body_next_paid_or_skipped (k : Keeper σ Stake Rate) (c : String) (cr : AccAddress)
    (relay : RelayRequest) (s : σ)
    (hf : (relayPaymentBody k c cr relay s).flow = Flow.next) :
    ((relayPaymentBody k c cr relay s).trace.countP Call.isEvent = 1 ∧
      (relayPaymentBody k c cr relay s).trace.countP Call.isMint = 1 ∧
      (relayPaymentBody k c cr relay s).trace.countP Call.isSend = 1) ∨
    ((relayPaymentBody k c cr relay s).trace.countP Call.isEvent = 0 ∧
      ∀ x ∈ (relayPaymentBody k c cr relay s).trace, x.movesTokens = false) := by
  revert hf
  refine body_cases k c cr relay s (fun run => run.flow = Flow.next →
    (run.trace.countP Call.isEvent = 1 ∧ run.trace.countP Call.isMint = 1 ∧
      run.trace.countP Call.isSend = 1) ∨
    (run.trace.countP Call.isEvent = 0 ∧ ∀ x ∈ run.trace, x.movesTokens = false)) ?_ ?_
  · intro name attrs description h
    simp [errorLogAndFormat] at h
  · intro client valid overlap stake hv
    refine body_validated_cases (c := c) hv (fun run => run.flow = Flow.next →
      (run.trace.countP Call.isEvent = 1 ∧ run.trace.countP Call.isMint = 1 ∧
        run.trace.countP Call.isSend = 1) ∨
      (run.trace.countP Call.isEvent = 0 ∧ ∀ x ∈ run.trace, x.movesTokens = false))
      ?_ ?_ ?_ ?_ ?_ ?_ ?_ ?_ ?_ ?_
    · intro e s1 _ h
      simp [errorLogAndFormat] at h
    · intro total s1 e _ _ h
      simp [errorLogAndFormat] at h
    · intro _ total s1 _ _ h
      simp [errorLogAndFormat] at h
    · intro _ total s1 _ _ _ _
      right
      simp [addCall, Call.isEvent, Call.movesTokens, Call.isBurn, Call.isMint, Call.isSend,
        List.countP_cons]
    · intro total s1 _ _ _ _ _ h
      simp at h
    · intro total s1 spec ok e s2 _ _ h
      simp [errorLogAndFormat] at h
    · intro total s1 spec s2 _ _ h
      simp [errorLogAndFormat] at h
    · intro total s1 spec s2 e s3 _ _ _ h
      simp at h
    · intro total s1 spec s2 s3 e s4 _ _ _ _ h
      simp at h
    · intro total s1 spec s2 s3 s4 _ _ _ _ _
      left
      simp [addCall, burnCall, mintCall, sendCall, Call.isEvent, Call.isMint, Call.isSend,
        List.countP_cons]

/-- C16, amended: the value returned carries no report.  When the handler
returns the response, every relay of the batch was reached and its pass fell
through, and the response is the one empty value, the same for every batch.
When it returns an error, either the creator did not decode and nothing was
done, or the error is that of the first relay whose pass failed: the relays
before it fell through, its calls are the last made and no relay after it is
gone through.  What was accepted shows in the events only: a pass that falls
through either paid its relay, with one mint, one transfer and one event, or
skipped it without an event and without moving tokens, and a pass that does
not fall through emits no event. -/
theorem C16_response_is_empty (k : Keeper σ Stake Rate) (msg : MsgRelayPayment) (s0 : σ) :
    ((RelayPayment k msg s0).outcome = Outcome.response →
      ∃ creator, k.AccAddressFromBech32 msg.Creator = .ok creator ∧
        ∀ pre relay post, msg.Relays = pre ++ relay :: post →
          ∃ s t, Reaches k msg s0 creator pre relay post s t ∧
            (relayPaymentBody k msg.Creator creator relay s).flow = Flow.next) ∧
    (∀ e, (RelayPayment k msg s0).outcome = Outcome.error e →
      (∃ err, k.AccAddressFromBech32 msg.Creator = .error err ∧ e = Err.sdk err ∧
        (RelayPayment k msg s0).trace = [] ∧ (RelayPayment k msg s0).state = s0) ∨
      (∃ creator pre relay post s t, Reaches k msg s0 creator pre relay post s t ∧
        (relayPaymentBody k msg.Creator creator relay s).flow = Flow.fail e ∧
        (RelayPayment k msg s0).trace =
          t ++ (relayPaymentBody k msg.Creator creator relay s).trace ∧
        (RelayPayment k msg s0).state =
          (relayPaymentBody k msg.Creator creator relay s).state)) ∧
    (∀ (c : String) (cr : AccAddress) (relay : RelayRequest) (s : σ),
      ((relayPaymentBody k c cr relay s).flow = Flow.next →
        ((relayPaymentBody k c cr relay s).trace.countP Call.isEvent = 1 ∧
          (relayPaymentBody k c cr relay s).trace.countP Call.isMint = 1 ∧
          (relayPaymentBody k c cr relay s).trace.countP Call.isSend = 1) ∨
        ((relayPaymentBody k c cr relay s).trace.countP Call.isEvent = 0 ∧
          ∀ x ∈ (relayPaymentBody k c cr relay s).trace, x.movesTokens = false)) ∧
      ((relayPaymentBody k c cr relay s).flow ≠ Flow.next →
        ∀ x ∈ (relayPaymentBody k c cr relay s).trace, x.isEvent = false)) ∧
    ∀ (other : Keeper σ Stake Rate) (msg2 : MsgRelayPayment) (s2 : σ),
      (RelayPayment k msg s0).outcome = Outcome.response →
      (RelayPayment other msg2 s2).outcome = Outcome.response →
      (RelayPayment other msg2 s2).outcome = (RelayPayment k msg s0).outcome := by
  refine ⟨?_, ?_, ?_, ?_⟩
  · intro h
    unfold RelayPayment at h
    cases hc : k.AccAddressFromBech32 msg.Creator with
    | error err => simp [hc] at h
    | ok creator =>
      simp only [hc] at h
      refine ⟨creator, rfl, ?_⟩
      intro pre relay post hsplit
      rw [hsplit] at h
      obtain ⟨hresp, hflow⟩ := relayPaymentLoop_response k msg.Creator creator pre s0 []
        relay post h
      exact ⟨_, _, ⟨hc, hsplit, rfl, rfl, hresp⟩, hflow⟩
  · intro e h
    cases hc : k.AccAddressFromBech32 msg.Creator with
    | error err =>
      have hrun : RelayPayment k msg s0 =
          { state := s0, trace := [], outcome := Outcome.error (Err.sdk err) } := by
        simp only [RelayPayment, hc]
      rw [hrun] at h ⊢
      simp only [Outcome.error.injEq] at h
      exact Or.inl ⟨err, rfl, h.symm, rfl, rfl⟩
    | ok creator =>
      have hrun : RelayPayment k msg s0 =
          relayPaymentLoop k msg.Creator creator msg.Relays s0 [] := by
        simp only [RelayPayment, hc]
      rw [hrun] at h ⊢
      obtain ⟨pre, relay, post, hsplit, hresp, hflow, htrace, hstate⟩ :=
        relayPaymentLoop_error k msg.Creator creator msg.Relays s0 [] e h
      exact Or.inr ⟨creator, pre, relay, post, _, _, ⟨hc, hsplit, rfl, rfl, hresp⟩, hflow,
        htrace, hstate⟩
  · intro c cr relay s
    exact ⟨body_next_paid_or_skipped k c cr relay s, (body_events k c cr relay s).2⟩
  · intro other msg2 s2 h1 h2
    rw [h1, h2]

/-- C16, amended, at concrete batches: the batch whose first relay has no
signature returns the error of that relay and runs nothing of the second; the
batch of one relay that settles returns the response after one event. -/
theorem C16_response_is_empty_witness :
    (RelayPayment memKeeper msgBadThenGood memInit).outcome =
      Outcome.error (Err.lava "relay_proof_sig" [("sig", "")]
        "recover PubKey from relay failed") ∧
    (RelayPayment memKeeper msgPaid memInit).outcome = Outcome.response ∧
    (RelayPayment memKeeper msgPaid memInit).trace.countP Call.isEvent = 1 ∧
    ((∃ err, memKeeper.AccAddressFromBech32 msgBadThenGood.Creator = .error err ∧
        Err.lava "relay_proof_sig" [("sig", "")] "recover PubKey from relay failed" =
          Err.sdk err ∧
        (RelayPayment memKeeper msgBadThenGood memInit).trace = [] ∧
        (RelayPayment memKeeper msgBadThenGood memInit).state = memInit) ∨
      (∃ creator pre relay post s t,
        Reaches memKeeper msgBadThenGood memInit creator pre relay post s t ∧
        (relayPaymentBody memKeeper msgBadThenGood.Creator creator relay s).flow =
          Flow.fail (Err.lava "relay_proof_sig" [("sig", "")]
            "recover PubKey from relay failed") ∧
        (RelayPayment memKeeper msgBadThenGood memInit).trace =
          t ++ (relayPaymentBody memKeeper msgBadThenGood.Creator creator relay s).trace ∧
        (RelayPayment memKeeper msgBadThenGood memInit).state =
          (relayPaymentBody memKeeper msgBadThenGood.Creator creator relay s).state)) :=
  ⟨rfl, rfl, rfl,
   (C16_response_is_empty memKeeper msgBadThenGood memInit).2.1 _ rfl⟩

/-! ## Pairing: slots -/

/-- Every element of `geoBits` is a single bit of the mask. -/
theorem mem_geoBits {mask g : Nat} (h : g ∈ geoBits mask) :
    ∃ i, i < 64 ∧ g = 2 ^ i ∧ mask.testBit i = true := by
  simp only [geoBits, List.mem_map, List.mem_filter, List.mem_range] at h
  obtain ⟨i, ⟨hi, hb⟩, rfl⟩ := h
  exact ⟨i, hi, rfl, hb⟩

/-- A 64-bit mask that is not zero has a single bit. -/
theorem geoBits_ne_nil {mask : Nat} (h0 : mask ≠ 0) (h64 : mask < 2 ^ 64) :
    geoBits mask ≠ [] := by
  obtain ⟨i, hi⟩ := Nat.ne_zero_implies_bit_true h0
  have hge : 2 ^ i ≤ mask := Nat.testBit_implies_ge hi
  have hlt : i < 64 := by
    by_contra hcon
    have : 2 ^ 64 ≤ 2 ^ i := Nat.pow_le_pow_right (by decide) (by omega)
    omega
  intro hnil
  have hmem : 2 ^ i ∈ geoBits mask := by
    simp only [geoBits, List.mem_map, List.mem_filter, List.mem_range]
    exact ⟨i, ⟨hlt, hi⟩, rfl⟩
  rw [hnil] at hmem
  cases hmem

/-- The geolocation requirement of the slot at one index. -/
theorem CalcSlots_geoReq {policy : Policy} {slot : PairingSlot} (h : slot ∈ CalcSlots policy) :
    ∃ i, i < policy.MaxProvidersToPair ∧
      slot.geoReq = some ((geoBits policy.GeolocationProfile).getD
        (i % (geoBits policy.GeolocationProfile).length) 0) := by
  simp only [CalcSlots, List.mem_map, List.mem_range] at h
  obtain ⟨i, hi, rfl⟩ := h
  exact ⟨i, hi, rfl⟩

/-- C19: for every policy whose geolocation profile is a 64-bit mask other than
zero (any single geolocation, any mask of several, the global one), the slot
calculator returns `MaxProvidersToPair` slots, and every slot carries a
`GeoReq` whose geolocation is a single bit, one of the bits of the profile. -/
theorem C19_slot_geolocation_single_bit (policy : Policy)
    (h0 : policy.GeolocationProfile ≠ 0) (h64 : policy.GeolocationProfile < 2 ^ 64) :
    (CalcSlots policy).length = policy.MaxProvidersToPair ∧
    ∀ slot ∈ CalcSlots policy,
      ∃ g i, slot.geoReq = some g ∧ g = 2 ^ i ∧ i < 64 ∧
        policy.GeolocationProfile.testBit i = true := by
  refine ⟨by simp [CalcSlots], ?_⟩
  intro slot hslot
  obtain ⟨n, _, hgeo⟩ := CalcSlots_geoReq hslot
  have hne := geoBits_ne_nil h0 h64
  have hlen : 0 < (geoBits policy.GeolocationProfile).length := List.length_pos.mpr hne
  have hidx : n % (geoBits policy.GeolocationProfile).length <
      (geoBits policy.GeolocationProfile).length := Nat.mod_lt _ hlen
  have hmem : (geoBits policy.GeolocationProfile).getD
      (n % (geoBits policy.GeolocationProfile).length) 0 ∈ geoBits policy.GeolocationProfile := by
    rw [List.getD_eq_getElem _ _ hidx]
    exact List.getElem_mem _
  obtain ⟨i, hi, hg, hb⟩ := mem_geoBits hmem
  exact ⟨_, i, hgeo, hg, hi, hb⟩

/-- C19 at concrete policies: the mask 5 gives the bits 1 and 4 in turn, and
the global geolocation 65535 gives sixteen single bits in turn. -/
theorem C19_slot_geolocation_single_bit_witness :
    ({ GeolocationProfile := 5, MaxProvidersToPair := 5 } : Policy).GeolocationProfile ≠ 0 ∧
    (CalcSlots { GeolocationProfile := 5, MaxProvidersToPair := 5 }).map PairingSlot.geoReq =
      [some 1, some 4, some 1, some 4, some 1] ∧
    (CalcSlots { GeolocationProfile := 65535, MaxProvidersToPair := 3 }).map PairingSlot.geoReq =
      [some 1, some 2, some 4] ∧
    ∀ slot ∈ CalcSlots { GeolocationProfile := 65535, MaxProvidersToPair := 14 },
      ∃ g i, slot.geoReq = some g ∧ g = 2 ^ i ∧ i < 64 ∧ (65535 : Nat).testBit i = true :=
  ⟨by decide, rfl, rfl,
   (C19_slot_geolocation_single_bit { GeolocationProfile := 65535, MaxProvidersToPair := 14 }
      (by decide) (by decide)).2⟩

/-! ## Pairing: the selector -/

/-- What the walk picks is one of the candidates. -/
theorem pickByWeight_mem {scores : List PairingScore} {r : Nat} {p : StakeEntry}
    (h : pickByWeight scores r = some p) : ∃ ps ∈ scores, ps.Provider = p := by
  induction scores generalizing r with
  | nil => simp [pickByWeight] at h
  | cons ps rest ih =>
    simp only [pickByWeight] at h
    split at h
    · exact ⟨ps, List.mem_cons_self _ _, by simpa using h⟩
    · obtain ⟨q, hq, hp⟩ := ih h
      exact ⟨q, List.mem_cons_of_mem _ hq, hp⟩

/-- The walk picks whenever its start is below the total weight. -/
theorem pickByWeight_isSome {scores : List PairingScore} {r : Nat}
    (h : r < (scores.map PairingScore.Score).sum) : ∃ p, pickByWeight scores r = some p := by
  induction scores generalizing r with
  | nil => simp at h
  | cons ps rest ih =>
    simp only [pickByWeight]
    split
    · exact ⟨_, rfl⟩
    · rename_i hlt
      simp only [List.map_cons, List.sum_cons] at h
      exact ih (by omega)

/-- What a draw picks is one of the candidates. -/
theorem drawProvider_mem {scores : List PairingScore} {seed : Nat} {p : StakeEntry}
    (h : drawProvider scores seed = some p) : ∃ ps ∈ scores, ps.Provider = p := by
  simp only [drawProvider] at h
  split at h
  · cases h
  · obtain ⟨ps, hps, hp⟩ := pickByWeight_mem h
    exact ⟨ps, (List.perm_insertionSort _ scores).mem_iff.mp hps, hp⟩

/-- A draw over candidates of positive weight picks, unless there is none. -/
theorem drawProvider_isSome {scores : List PairingScore} (seed : Nat)
    (hne : scores ≠ []) (hpos : ∀ ps ∈ scores, 0 < ps.Score) :
    ∃ p, drawProvider scores seed = some p := by
  have hperm := List.perm_insertionSort
    (fun a b : PairingScore => addressLE a.Provider.Address b.Provider.Address = true) scores
  have hsum : 0 < ((scores.insertionSort
      (fun a b => addressLE a.Provider.Address b.Provider.Address = true)).map
        PairingScore.Score).sum := by
    rw [(hperm.map PairingScore.Score).sum_eq]
    cases scores with
    | nil => exact absurd rfl hne
    | cons ps rest =>
      simp only [List.map_cons, List.sum_cons]
      have := hpos ps (List.mem_cons_self _ _)
      omega
  simp only [drawProvider]
  rw [if_neg (by omega)]
  exact pickByWeight_isSome (Nat.mod_lt _ hsum)

/-- A draw over no candidate picks nothing. -/
theorem drawProvider_nil (seed : Nat) : drawProvider [] seed = none := by
  simp [drawProvider]

/-- Every provider the selector returns was chosen before, or is a staked
provider that a slot admits. -/
theorem selectProviders_mem (params : PairingParams) (epoch : Nat) (consumer chainID : String)
    (staked : List StakeEntry) (slots : List PairingSlot) (index : Nat)
    (chosen : List StakeEntry) :
    ∀ p ∈ selectProviders params epoch consumer chainID staked slots index chosen,
      p ∈ chosen ∨ (p ∈ staked ∧ ∃ slot ∈ slots, slot.admits p = true) := by
  induction slots generalizing index chosen with
  | nil => intro p hp; exact Or.inl hp
  | cons slot rest ih =>
    intro p hp
    simp only [selectProviders] at hp
    split at hp
    · rcases ih _ _ p hp with h | ⟨hs, sl, hsl, ha⟩
      · exact Or.inl h
      · exact Or.inr ⟨hs, sl, List.mem_cons_of_mem _ hsl, ha⟩
    · rename_i q hq
      rcases ih _ _ p hp with h | ⟨hs, sl, hsl, ha⟩
      · rcases List.mem_append.mp h with h | h
        · exact Or.inl h
        · simp only [List.mem_singleton] at h
          subst h
          obtain ⟨ps, hps, hprov⟩ := drawProvider_mem hq
          simp only [CalcPairingScores, List.mem_filter, List.mem_map] at hps
          obtain ⟨⟨x, ⟨hx, hadm⟩, rfl⟩, _⟩ := hps
          simp only at hprov
          subst hprov
          exact Or.inr ⟨hx, slot, List.mem_cons_self _ _, hadm⟩
      · exact Or.inr ⟨hs, sl, List.mem_cons_of_mem _ hsl, ha⟩

/-- The selector never returns an address twice. -/
theorem selectProviders_nodup (params : PairingParams) (epoch : Nat) (consumer chainID : String)
    (staked : List StakeEntry) (slots : List PairingSlot) (index : Nat)
    (chosen : List StakeEntry) (h : (chosen.map StakeEntry.Address).Nodup) :
    ((selectProviders params epoch consumer chainID staked slots index chosen).map
      StakeEntry.Address).Nodup := by
  induction slots generalizing index chosen with
  | nil => exact h
  | cons slot rest ih =>
    simp only [selectProviders]
    split
    · exact ih _ _ h
    · rename_i q hq
      apply ih
      obtain ⟨ps, hps, hprov⟩ := drawProvider_mem hq
      simp only [List.mem_filter, decide_eq_true_eq] at hps
      rw [hprov] at hps
      rw [List.map_append, List.map_singleton]
      exact List.Nodup.append h (List.nodup_singleton _)
        (by
          intro a ha hb
          simp only [List.mem_singleton] at hb
          subst hb
          exact hps.2 ha)

/-- C18: in every pairing the pairing query returns, for any policies, any
staked providers, any score and any seed, no provider address appears twice. -/
theorem C18_pairing_has_no_duplicate (params : PairingParams) (store : PairingStore)
    (chainID consumer : String) (block : Nat) (pairing : Pairing)
    (h : GetPairing params store chainID consumer block = .ok pairing) :
    (pairing.Providers.map StakeEntry.Address).Nodup := by
  simp only [GetPairing] at h
  split at h
  · cases h
  · split at h
    · cases h
    · simp only [Except.ok.injEq] at h
      subst h
      exact selectProviders_nodup _ _ _ _ _ _ _ _ (by simp)

/-- C18 at a concrete query: carol asks for 14 providers in geolocations 1 and
2, five providers are staked, two of them in each of the two geolocations:
the pairing lists each of the five once. -/
theorem C18_pairing_has_no_duplicate_witness :
    (GetPairing exampleParams exampleStore "ETH1" "carol" 25).map
      (fun p => p.Providers.map StakeEntry.Address) = .ok ["p3", "p5", "p1", "p2", "p4"] ∧
    ∀ pairing, GetPairing exampleParams exampleStore "ETH1" "carol" 25 = .ok pairing →
      (pairing.Providers.map StakeEntry.Address).Nodup :=
  ⟨rfl, fun pairing h =>
    C18_pairing_has_no_duplicate exampleParams exampleStore "ETH1" "carol" 25 pairing h⟩

/-! ## Pairing: exclusive selected providers -/

/-- What one layer does to the selected providers kept so far. -/
theorem narrowSelectedProviders_spec (kept : Option (List String)) (layer : Policy) :
    (layer.SelectedProvidersMode = SELECTED_PROVIDERS_MODE.EXCLUSIVE ∧
        layer.SelectedProviders ≠ [] →
      ∃ r, narrowSelectedProviders kept layer = some r ∧
        ∀ a, a ∈ r ↔ (∀ k, kept = some k → a ∈ k) ∧ a ∈ layer.SelectedProviders) ∧
    (¬ (layer.SelectedProvidersMode = SELECTED_PROVIDERS_MODE.EXCLUSIVE ∧
        layer.SelectedProviders ≠ []) →
      narrowSelectedProviders kept layer = kept) := by
  constructor
  · rintro ⟨hm, hl⟩
    cases kept with
    | none =>
      exact ⟨layer.SelectedProviders, by simp [narrowSelectedProviders, hm, hl], by simp⟩
    | some k =>
      refine ⟨k.filter (fun a => decide (a ∈ layer.SelectedProviders)),
        by simp [narrowSelectedProviders, hm, hl], ?_⟩
      intro a
      simp [List.mem_filter]
  · intro h
    simp only [narrowSelectedProviders]
    split
    · rename_i hm
      split
      · rfl
      · rename_i hl
        exact absurd ⟨hm, hl⟩ h
    · rfl

/-- What the layers together do to the selected providers: either nothing is
kept and no layer narrows, or the list kept holds exactly the addresses that
were in what was kept before and are in the list of every layer that narrows. -/
theorem foldl_narrowSelectedProviders (layers : List Policy) (kept : Option (List String)) :
    (layers.foldl narrowSelectedProviders kept = none →
      kept = none ∧ ∀ l ∈ layers,
        ¬ (l.SelectedProvidersMode = SELECTED_PROVIDERS_MODE.EXCLUSIVE ∧
          l.SelectedProviders ≠ [])) ∧
    (∀ r, layers.foldl narrowSelectedProviders kept = some r →
      ∀ a, a ∈ r ↔ (∀ k, kept = some k → a ∈ k) ∧
        ∀ l ∈ layers, l.SelectedProvidersMode = SELECTED_PROVIDERS_MODE.EXCLUSIVE →
          l.SelectedProviders ≠ [] → a ∈ l.SelectedProviders) := by
  induction layers generalizing kept with
  | nil =>
    refine ⟨fun h => ⟨h, by simp⟩, ?_⟩
    intro r h a
    simp only [List.foldl_nil] at h
    simp [h]
  | cons layer rest ih =>
    simp only [List.foldl_cons]
    obtain ⟨hnone, hsome⟩ := ih (narrowSelectedProviders kept layer)
    obtain ⟨hnarrow, hkeep⟩ := narrowSelectedProviders_spec kept layer
    by_cases hn : layer.SelectedProvidersMode = SELECTED_PROVIDERS_MODE.EXCLUSIVE ∧
        layer.SelectedProviders ≠ []
    · obtain ⟨r0, hr0, hmem0⟩ := hnarrow hn
      constructor
      · intro h
        have := (hnone h).1
        rw [hr0] at this
        cases this
      · intro r h a
        rw [hsome r h a]
        constructor
        · rintro ⟨h1, h2⟩
          have := (hmem0 a).mp (h1 r0 hr0)
          refine ⟨this.1, ?_⟩
          intro l hl
          rcases List.mem_cons.mp hl with rfl | hl
          · exact fun _ _ => this.2
          · exact h2 l hl
        · rintro ⟨h1, h2⟩
          refine ⟨?_, fun l hl => h2 l (List.mem_cons_of_mem _ hl)⟩
          intro k hk
          rw [hr0] at hk
          cases hk
          exact (hmem0 a).mpr ⟨h1, h2 layer (List.mem_cons_self _ _) hn.1 hn.2⟩
    · rw [hkeep hn] at hnone hsome ⊢
      constructor
      · intro h
        refine ⟨(hnone h).1, ?_⟩
        intro l hl
        rcases List.mem_cons.mp hl with rfl | hl
        · exact hn
        · exact (hnone h).2 l hl
      · intro r h a
        rw [hsome r h a]
        constructor
        · rintro ⟨h1, h2⟩
          refine ⟨h1, ?_⟩
          intro l hl
          rcases List.mem_cons.mp hl with rfl | hl
          · exact fun hm hl => absurd ⟨hm, hl⟩ hn
          · exact h2 l hl
        · rintro ⟨h1, h2⟩
          exact ⟨h1, fun l hl => h2 l (List.mem_cons_of_mem _ hl)⟩

/-- The add-ons gathered from the layers, starting from `acc`. -/
theorem mem_foldl_addons (layers : List Policy) (acc : List String) (a : String) :
    a ∈ layers.foldl (fun a l => a ++ l.Addons.filter (fun x => decide (x ∉ a))) acc ↔
      a ∈ acc ∨ ∃ l ∈ layers, a ∈ l.Addons := by
  induction layers generalizing acc with
  | nil => simp
  | cons layer rest ih =>
    simp only [List.foldl_cons]
    rw [ih]
    simp only [List.mem_append, List.mem_filter, decide_eq_true_eq, List.mem_cons,
      exists_eq_or_imp]
    constructor
    · rintro ((h | ⟨h, _⟩) | h)
      · exact Or.inl h
      · exact Or.inr (Or.inl h)
      · exact Or.inr (Or.inr h)
    · rintro (h | h | h)
      · exact Or.inl (Or.inl h)
      · by_cases hacc : a ∈ acc
        · exact Or.inl (Or.inl hacc)
        · exact Or.inl (Or.inr ⟨h, hacc⟩)
      · exact Or.inr h

/-- The selector returns every staked provider that the slots admit, when the
slots admit the same providers, the scores are positive and the slots are at
least as many as the addresses not chosen yet. -/
theorem selectProviders_exhausts (params : PairingParams) (epoch : Nat)
    (consumer chainID : String) (staked : List StakeEntry) (adm : StakeEntry → Bool)
    (hpos : ∀ p ∈ staked, ∀ slot, 0 < params.Score p slot)
    (slots : List PairingSlot) (index : Nat) (chosen : List StakeEntry)
    (hadm : ∀ slot ∈ slots, ∀ p ∈ staked, slot.admits p = adm p)
    (hcard : (((staked.filter adm).map StakeEntry.Address).toFinset \
      (chosen.map StakeEntry.Address).toFinset).card ≤ slots.length) :
    ∀ p ∈ staked, adm p = true →
      p.Address ∈ (selectProviders params epoch consumer chainID staked slots index chosen).map
        StakeEntry.Address := by
  induction slots generalizing index chosen with
  | nil =>
    intro p hp ha
    simp only [List.length_nil, Nat.le_zero, Finset.card_eq_zero, Finset.sdiff_eq_empty_iff_subset]
      at hcard
    have hmem : p.Address ∈ ((staked.filter adm).map StakeEntry.Address).toFinset := by
      simp only [List.mem_toFinset, List.mem_map, List.mem_filter]
      exact ⟨p, ⟨hp, ha⟩, rfl⟩
    have := hcard hmem
    simpa [selectProviders] using this
  | cons slot rest ih =>
    have hrest : ∀ sl ∈ rest, ∀ p ∈ staked, sl.admits p = adm p :=
      fun sl hsl => hadm sl (List.mem_cons_of_mem _ hsl)
    have hslot : ∀ p ∈ staked, slot.admits p = adm p := hadm slot (List.mem_cons_self _ _)
    simp only [selectProviders]
    split
    · rename_i hq
      apply ih _ _ hrest
      have hempty : ((staked.filter adm).map StakeEntry.Address).toFinset \
          (chosen.map StakeEntry.Address).toFinset = ∅ := by
        rw [Finset.sdiff_eq_empty_iff_subset]
        intro a ha
        by_contra hnot
        simp only [List.mem_toFinset, List.mem_map, List.mem_filter] at ha
        obtain ⟨p, ⟨hp, hadmp⟩, rfl⟩ := ha
        simp only [List.mem_toFinset] at hnot
        have hps : ({ Provider := p, Score := params.Score p slot } : PairingScore) ∈
            (CalcPairingScores params slot staked).filter
              (fun ps => decide (ps.Provider.Address ∉ chosen.map StakeEntry.Address)) := by
          refine List.mem_filter.mpr ⟨?_, by simpa using hnot⟩
          simp only [CalcPairingScores, List.mem_filter, List.mem_map]
          exact ⟨p, ⟨hp, by rw [hslot p hp]; exact hadmp⟩, rfl⟩
        obtain ⟨q, hq2⟩ := drawProvider_isSome (params.Seed epoch consumer chainID index)
          (List.ne_nil_of_mem hps)
          (by
            intro ps hps2
            simp only [CalcPairingScores, List.mem_filter, List.mem_map] at hps2
            obtain ⟨⟨x, hx, rfl⟩, _⟩ := hps2
            exact hpos x hx.1 slot)
        rw [hq] at hq2
        cases hq2
      rw [hempty]
      simp
    · rename_i q hq
      apply ih _ _ hrest
      obtain ⟨ps, hps, hprov⟩ := drawProvider_mem hq
      simp only [CalcPairingScores, List.mem_filter, List.mem_map, decide_eq_true_eq] at hps
      obtain ⟨⟨x, ⟨hx, hadmx⟩, rfl⟩, hnot⟩ := hps
      simp only at hprov hnot
      subst hprov
      have hin : x.Address ∈ ((staked.filter adm).map StakeEntry.Address).toFinset \
          (chosen.map StakeEntry.Address).toFinset := by
        simp only [Finset.mem_sdiff, List.mem_toFinset, List.mem_map, List.mem_filter]
        refine ⟨⟨x, ⟨hx, by rw [← hslot x hx]; exact hadmx⟩, rfl⟩, ?_⟩
        simpa using hnot
      have hlt : (((staked.filter adm).map StakeEntry.Address).toFinset \
          ((chosen ++ [x]).map StakeEntry.Address).toFinset).card <
          (((staked.filter adm).map StakeEntry.Address).toFinset \
          (chosen.map StakeEntry.Address).toFinset).card := by
        apply Finset.card_lt_card
        rw [Finset.ssubset_iff_of_subset]
        · refine ⟨x.Address, hin, ?_⟩
          simp
        · intro a ha
          simp only [Finset.mem_sdiff, List.mem_toFinset, List.map_append, List.mem_append,
            List.map_cons, List.map_nil, List.mem_singleton, not_or] at ha ⊢
          exact ⟨ha.1, ha.2.1⟩
      simp only [List.length_cons] at hcard
      omega

/-- The providers the slots of a merged policy admit: those in the list of
every layer that narrows, serving every add-on a layer requires. -/
theorem CalcSlots_admits {global : Nat} {plan : Policy} {sub proj : Option Policy}
    {policy : Policy} (h : CalcStrictestPolicy global plan sub proj = .ok policy)
    {slot : PairingSlot} (hslot : slot ∈ CalcSlots policy) (p : StakeEntry) :
    slot.admits p =
      (inExclusiveLists (policyLayers plan sub proj) p.Address &&
        servesAddons (policyLayers plan sub proj) p) := by
  simp only [CalcStrictestPolicy] at h
  split at h
  · cases h
  · rename_i hsel
    simp only [Except.ok.injEq] at h
    obtain ⟨hnone, hsome⟩ :=
      foldl_narrowSelectedProviders (policyLayers plan sub proj) none
    simp only [CalcSlots, List.mem_map, List.mem_range] at hslot
    obtain ⟨i, _, rfl⟩ := hslot
    rw [Bool.eq_iff_iff]
    simp only [PairingSlot.admits, List.all_cons, List.all_nil, Bool.and_true, ScoreReq.admits,
      Bool.true_and, Bool.and_eq_true, Bool.or_eq_true, decide_eq_true_eq, List.all_eq_true,
      inExclusiveLists, servesAddons]
    have haddons : (∀ a ∈ policy.Addons, a ∈ p.Addons) ↔
        ∀ l ∈ policyLayers plan sub proj, ∀ a ∈ l.Addons, a ∈ p.Addons := by
      rw [← h]
      simp only [mem_foldl_addons, List.not_mem_nil, false_or]
      constructor
      · intro hh l hl a ha
        exact hh a ⟨l, hl, ha⟩
      · rintro hh a ⟨l, hl, ha⟩
        exact hh l hl a ha
    rw [haddons]
    refine and_congr_left (fun _ => ?_)
    cases hfold : (policyLayers plan sub proj).foldl narrowSelectedProviders none with
    | none =>
      have hno := (hnone hfold).2
      have hlist : (if policy.SelectedProvidersMode = SELECTED_PROVIDERS_MODE.EXCLUSIVE
          then policy.SelectedProviders else []) = [] := by
        rw [← h]
        simp [hfold]
      rw [hlist]
      simp only [true_or, true_iff]
      intro l hl hm hne
      exact absurd ⟨hm, hne⟩ (hno l hl)
    | some r =>
      have hr : r ≠ [] := by
        intro hr
        exact hsel (by rw [hfold, hr])
      have hmem := hsome r hfold p.Address
      by_cases hex : (policyLayers plan sub proj).any
          (fun l => decide (l.SelectedProvidersMode = SELECTED_PROVIDERS_MODE.EXCLUSIVE)) = true
      · have hlist : (if policy.SelectedProvidersMode = SELECTED_PROVIDERS_MODE.EXCLUSIVE
            then policy.SelectedProviders else []) = r := by
          rw [← h]
          simp [hfold, hex]
        rw [hlist]
        simp only [hr, false_or]
        rw [hmem]
        simp
      · exfalso
        obtain ⟨hk, _⟩ := foldl_narrowSelectedProviders (policyLayers plan sub proj) none
        have hall : ∀ l ∈ policyLayers plan sub proj,
            ¬ (l.SelectedProvidersMode = SELECTED_PROVIDERS_MODE.EXCLUSIVE ∧
              l.SelectedProviders ≠ []) := by
          intro l hl hcon
          apply hex
          simp only [List.any_eq_true, decide_eq_true_eq]
          exact ⟨l, hl, hcon.1⟩
        have hx : ∀ a, a ∈ r := by
          intro a
          rw [hsome r hfold a]
          exact ⟨by simp, fun l hl hm hne => absurd ⟨hm, hne⟩ (hall l hl)⟩
        have hkeep : ∀ (ls : List Policy),
            (∀ l ∈ ls, ¬ (l.SelectedProvidersMode = SELECTED_PROVIDERS_MODE.EXCLUSIVE ∧
              l.SelectedProviders ≠ [])) →
            ls.foldl narrowSelectedProviders none = none := by
          intro ls
          induction ls with
          | nil => intro _; rfl
          | cons l rest ih =>
            intro hls
            simp only [List.foldl_cons]
            rw [(narrowSelectedProviders_spec none l).2 (hls l (List.mem_cons_self _ _))]
            exact ih (fun x hx => hls x (List.mem_cons_of_mem _ hx))
        rw [hkeep _ hall] at hfold
        cases hfold

/-- The number of providers to pair of a merged policy is the least of the layers. -/
theorem CalcStrictestPolicy_max {global : Nat} {plan : Policy} {sub proj : Option Policy}
    {policy : Policy} (h : CalcStrictestPolicy global plan sub proj = .ok policy) :
    policy.MaxProvidersToPair =
      (sub.toList ++ proj.toList).foldl (fun m l => min m l.MaxProvidersToPair)
        plan.MaxProvidersToPair := by
  simp only [CalcStrictestPolicy] at h
  split at h
  · cases h
  · simp only [Except.ok.injEq] at h
    rw [← h]

/-- A number that is at most the providers to pair of every layer is at most
the least of them. -/
theorem le_foldl_min (n : Nat) (rest : List Policy) :
    ∀ m0 : Nat, n ≤ m0 → (∀ l ∈ rest, n ≤ l.MaxProvidersToPair) →
      n ≤ rest.foldl (fun m l => min m l.MaxProvidersToPair) m0 := by
  induction rest with
  | nil => intro m0 h _; exact h
  | cons l rest ih =>
    intro m0 h hall
    simp only [List.foldl_cons]
    exact ih _ (le_min h (hall l (List.mem_cons_self _ _)))
      (fun x hx => hall x (List.mem_cons_of_mem _ hx))

/-- C20, as stated, fails: with the lists of the claim (plan p1, p2, p3;
subscription p1, p2; project none), all three policies in mode EXCLUSIVE and
three providers to pair, p1 and p2 are the staked providers of the
intersection; but when the plan requires the add-on "archive", which p1 does
not serve, the pairing is p2 alone; and so it is when no add-on is required
and p1 has a score of zero, which no draw picks. -/
theorem C20_counterexample :
    exampleArchiveStore.Policies (exampleArchiveStore.EpochStart 25) "alice" =
      some (exampleArchivePlan, some exampleSubscription, some exampleProject) ∧
    [exampleArchivePlan, exampleSubscription, exampleProject].map
        Policy.SelectedProvidersMode =
      [SELECTED_PROVIDERS_MODE.EXCLUSIVE, SELECTED_PROVIDERS_MODE.EXCLUSIVE,
       SELECTED_PROVIDERS_MODE.EXCLUSIVE] ∧
    [exampleArchivePlan, exampleSubscription, exampleProject].map Policy.SelectedProviders =
      [["p1", "p2", "p3"], ["p1", "p2"], []] ∧
    [exampleArchivePlan, exampleSubscription, exampleProject].map Policy.MaxProvidersToPair =
      [3, 3, 3] ∧
    ((exampleArchiveStore.StakeSnapshot 20 "ETH1").filter
      (fun p => inExclusiveLists [exampleArchivePlan, exampleSubscription, exampleProject]
        p.Address)).map StakeEntry.Address = ["p1", "p2"] ∧
    (GetPairing exampleParams exampleArchiveStore "ETH1" "alice" 25).map
      (fun p => p.Providers.map StakeEntry.Address) = .ok ["p2"] ∧
    exampleIdleStore.Policies (exampleIdleStore.EpochStart 25) "alice" =
      some (examplePlan, some exampleSubscription, some exampleProject) ∧
    ((exampleIdleStore.StakeSnapshot 20 "ETH1").filter
      (fun p => inExclusiveLists [examplePlan, exampleSubscription, exampleProject]
        p.Address)).map StakeEntry.Address = ["p1", "p2"] ∧
    (GetPairing exampleParams exampleIdleStore "ETH1" "alice" 25).map
      (fun p => p.Providers.map StakeEntry.Address) = .ok ["p2"] :=
  ⟨rfl, rfl, rfl, rfl, rfl, rfl, rfl, rfl, rfl⟩

/-- C20, amended: when the policies of a consumer (the plan, and the
subscription and project policies that are set) are in mode EXCLUSIVE, every
provider of the pairing is a staked provider whose address is in every list of
the layers that is not empty (an empty list imposes no restriction) and that
serves every add-on the layers require.  And when the scores of the staked
providers are positive and the staked providers that are in that intersection
and serve the add-ons are at most `MaxProvidersToPair` of every layer, the
pairing is exactly those providers: an address is in the pairing if and only
if it is the address of a staked provider that is in every list that is not
empty and serves the add-ons. -/
theorem C20_exclusive_selected_providers (params : PairingParams) (store : PairingStore)
    (chainID consumer : String) (block : Nat) (plan : Policy) (sub proj : Option Policy)
    (pairing : Pairing)
    (hpol : store.Policies (store.EpochStart block) consumer = some (plan, sub, proj))
    (hmode : ∀ l ∈ policyLayers plan sub proj,
      l.SelectedProvidersMode = SELECTED_PROVIDERS_MODE.EXCLUSIVE)
    (hget : GetPairing params store chainID consumer block = .ok pairing) :
    (∀ p ∈ pairing.Providers,
      p ∈ store.StakeSnapshot (store.EpochStart block) chainID ∧
      (∀ l ∈ policyLayers plan sub proj, l.SelectedProviders ≠ [] →
        p.Address ∈ l.SelectedProviders) ∧
      servesAddons (policyLayers plan sub proj) p = true) ∧
    ((∀ p ∈ store.StakeSnapshot (store.EpochStart block) chainID,
        ∀ slot, 0 < params.Score p slot) →
     (∀ l ∈ policyLayers plan sub proj,
        ((store.StakeSnapshot (store.EpochStart block) chainID).filter
          (fun p => inExclusiveLists (policyLayers plan sub proj) p.Address &&
            servesAddons (policyLayers plan sub proj) p)).length ≤ l.MaxProvidersToPair) →
     ∀ a, a ∈ pairing.Providers.map StakeEntry.Address ↔
       ∃ p ∈ store.StakeSnapshot (store.EpochStart block) chainID, p.Address = a ∧
         (∀ l ∈ policyLayers plan sub proj, l.SelectedProviders ≠ [] →
           a ∈ l.SelectedProviders) ∧
         servesAddons (policyLayers plan sub proj) p = true) := by
  have hin : ∀ a, inExclusiveLists (policyLayers plan sub proj) a = true ↔
      ∀ l ∈ policyLayers plan sub proj, l.SelectedProviders ≠ [] →
        a ∈ l.SelectedProviders := by
    intro a
    simp only [inExclusiveLists, List.all_eq_true, decide_eq_true_eq]
    constructor
    · intro h l hl hne
      exact h l hl (hmode l hl) hne
    · intro h l hl _ hne
      exact h l hl hne
  simp only [GetPairing, hpol] at hget
  cases hs : CalcStrictestPolicy params.Geolocation_GL plan sub proj with
  | error e => rw [hs] at hget; cases hget
  | ok policy =>
    rw [hs] at hget
    simp only [Except.ok.injEq] at hget
    have hadm : ∀ slot ∈ CalcSlots policy, ∀ p : StakeEntry,
        slot.admits p = (inExclusiveLists (policyLayers plan sub proj) p.Address &&
          servesAddons (policyLayers plan sub proj) p) := by
      intro slot hslot p
      rw [CalcSlots_admits hs hslot p]
    have hprov : pairing.Providers = selectProviders params (store.EpochStart block) consumer
        chainID (store.StakeSnapshot (store.EpochStart block) chainID) (CalcSlots policy) 0 [] := by
      rw [← hget]
    have hfirst : ∀ p ∈ pairing.Providers,
        p ∈ store.StakeSnapshot (store.EpochStart block) chainID ∧
        (∀ l ∈ policyLayers plan sub proj, l.SelectedProviders ≠ [] →
          p.Address ∈ l.SelectedProviders) ∧
        servesAddons (policyLayers plan sub proj) p = true := by
      intro p hp
      rw [hprov] at hp
      rcases selectProviders_mem _ _ _ _ _ _ _ _ p hp with h | ⟨hst, slot, hslot, ha⟩
      · cases h
      · rw [hadm slot hslot p, Bool.and_eq_true] at ha
        exact ⟨hst, (hin p.Address).mp ha.1, ha.2⟩
    refine ⟨hfirst, ?_⟩
    intro hpos hcount a
    constructor
    · intro ha
      simp only [List.mem_map] at ha
      obtain ⟨p, hp, rfl⟩ := ha
      exact ⟨p, (hfirst p hp).1, rfl, (hfirst p hp).2⟩
    · rintro ⟨p, hp, rfl, hl, hserve⟩
      rw [hprov]
      refine selectProviders_exhausts params _ _ _ _
        (fun p => inExclusiveLists (policyLayers plan sub proj) p.Address &&
          servesAddons (policyLayers plan sub proj) p)
        hpos (CalcSlots policy) 0 [] (fun slot hslot x _ => hadm slot hslot x) ?_ p hp ?_
      · have hlen : (CalcSlots policy).length = policy.MaxProvidersToPair := by
          simp [CalcSlots]
        rw [hlen, CalcStrictestPolicy_max hs]
        refine le_trans ?_ (le_foldl_min _ (sub.toList ++ proj.toList) plan.MaxProvidersToPair
          (hcount plan (List.mem_cons_self _ _))
          (fun l hl => hcount l (List.mem_cons_of_mem _ hl)))
        simp only [List.map_nil, List.toFinset_nil, Finset.sdiff_empty]
        exact le_trans (List.toFinset_card_le _) (by simp)
      · rw [Bool.and_eq_true]
        exact ⟨(hin p.Address).mpr hl, hserve⟩

/-- C20, amended, at the example of the claim, where no add-on is required:
plan {p1, p2, p3}, subscription {p1, p2}, project {} (no restriction), three
providers to pair, five providers staked: the pairing is p1 and p2. -/
theorem C20_exclusive_selected_providers_witness :
    exampleStore.Policies (exampleStore.EpochStart 25) "alice" =
      some (examplePlan, some exampleSubscription, some exampleProject) ∧
    examplePlan.SelectedProviders = ["p1", "p2", "p3"] ∧
    exampleSubscription.SelectedProviders = ["p1", "p2"] ∧
    exampleProject.SelectedProviders = [] ∧
    (GetPairing exampleParams exampleStore "ETH1" "alice" 25).map
      (fun p => p.Providers.map StakeEntry.Address) = .ok ["p2", "p1"] ∧
    ∀ pairing, GetPairing exampleParams exampleStore "ETH1" "alice" 25 = .ok pairing →
      ∀ a, a ∈ pairing.Providers.map StakeEntry.Address ↔
        ∃ p ∈ exampleProviders, p.Address = a ∧
          (∀ l ∈ [examplePlan, exampleSubscription, exampleProject],
            l.SelectedProviders ≠ [] → a ∈ l.SelectedProviders) ∧
          servesAddons [examplePlan, exampleSubscription, exampleProject] p = true :=
  ⟨rfl, rfl, rfl, rfl, rfl, fun pairing h =>
    (C20_exclusive_selected_providers exampleParams exampleStore "ETH1" "alice" 25
      examplePlan (some exampleSubscription) (some exampleProject) pairing rfl
      (by
        intro l hl
        simp only [policyLayers, Option.toList, List.cons_append, List.nil_append,
          List.mem_cons, List.mem_singleton, List.not_mem_nil, or_false] at hl
        rcases hl with rfl | rfl | rfl <;> rfl)
      h).2
      (by
        intro p hp slot
        simp only [exampleStore, exampleProviders, List.mem_cons, List.mem_singleton,
          List.not_mem_nil, or_false] at hp
        rcases hp with rfl | rfl | rfl | rfl | rfl <;>
          simp only [exampleParams, exampleScore] <;> split <;> try split
        all_goals decide)
      (by
        intro l hl
        simp only [policyLayers, Option.toList, List.cons_append, List.nil_append,
          List.mem_cons, List.mem_singleton, List.not_mem_nil, or_false] at hl
        rcases hl with rfl | rfl | rfl <;> decide)⟩

/-! ## The order of the checks -/

/-- C22, as stated, fails: the provider is compared with the creator before
the chain is looked up.  The relay of alice for chain 9, which is not active,
names provider carol in a batch sent by bob: its signature is recovered, and
the handler returns the mismatch error, not the spec error.  The same relay
naming bob gets the spec error. -/
theorem C22_counterexample :
    memKeeper.RecoverPubKeyFromRelay relayStray = .ok "alice" ∧
    memKeeper.IsSpecFoundAndActive memInit relayStray.ChainID = false ∧
    relayStray = { relayUnknownChain with Provider := "carol" } ∧
    (RelayPayment memKeeper { Creator := "bob", Relays := [relayStray] }
      memInit).outcome.description =
      some "invalid servicer address in relay msg, creator and signed servicer mismatch" ∧
    (RelayPayment memKeeper { Creator := "bob", Relays := [relayStray] }
      memInit).outcome.description ≠ some "invalid spec ID specified in proof" ∧
    (RelayPayment memKeeper { Creator := "bob", Relays := [relayUnknownChain] }
      memInit).outcome.description = some "invalid spec ID specified in proof" :=
  ⟨rfl, rfl, rfl, rfl, by decide, rfl⟩

/-- C22, amended: for a relay that the batch reaches, the checks come in the
order signature recovery, provider equals creator, chain found and active.  A
relay whose signer cannot be recovered fails with "recover PubKey from relay
failed", whatever its provider and chain.  A relay whose signer is recovered
and decodes, and whose provider decodes to an address other than the creator,
fails with the mismatch error, whether or not its chain is active.  A relay
whose provider decodes to the creator and whose chain is not found and active
fails with "invalid spec ID specified in proof".  In all three cases the
state is the one in which the relay was reached. -/
theorem C22_validation_order (k : Keeper σ Stake Rate) (msg : MsgRelayPayment)
    (s0 : σ) (creator : AccAddress) (pre : List RelayRequest) (relay : RelayRequest)
    (post : List RelayRequest) (s : σ) (t : List Call)
    (hreach : Reaches k msg s0 creator pre relay post s t) :
    (∀ e, k.RecoverPubKeyFromRelay relay = .error e →
      (RelayPayment k msg s0).outcome.description = some "recover PubKey from relay failed" ∧
      (RelayPayment k msg s0).state = s) ∧
    (∀ pubKeyAddress client providerAddr (active : Bool),
      k.RecoverPubKeyFromRelay relay = .ok pubKeyAddress →
      k.AccAddressFromHex pubKeyAddress = .ok client →
      k.AccAddressFromBech32 relay.Provider = .ok providerAddr →
      providerAddr ≠ creator →
      k.IsSpecFoundAndActive s relay.ChainID = active →
      (RelayPayment k msg s0).outcome.description =
        some "invalid servicer address in relay msg, creator and signed servicer mismatch" ∧
      (RelayPayment k msg s0).state = s) ∧
    (∀ pubKeyAddress client,
      k.RecoverPubKeyFromRelay relay = .ok pubKeyAddress →
      k.AccAddressFromHex pubKeyAddress = .ok client →
      k.AccAddressFromBech32 relay.Provider = .ok creator →
      k.IsSpecFoundAndActive s relay.ChainID = false →
      (RelayPayment k msg s0).outcome.description =
        some "invalid spec ID specified in proof" ∧
      (RelayPayment k msg s0).state = s) := by
  refine ⟨?_, ?_, ?_⟩
  · intro e hsig
    have hb : relayPaymentBody k msg.Creator creator relay s =
        errorLogAndFormat s [] "relay_proof_sig" [("sig", relay.Sig)]
          "recover PubKey from relay failed" := body_sig_error hsig
    have h := RelayPayment_fail hreach hb
    rw [h]
    exact ⟨rfl, rfl⟩
  · intro pk client providerAddr active hsig hhex hp hne _
    have h := RelayPayment_fail hreach (body_provider_mismatch (c := msg.Creator)
      (s := s) hsig hhex hp hne)
    rw [h]
    exact ⟨rfl, rfl⟩
  · intro pk client hsig hhex hp hspec
    have h := RelayPayment_fail hreach (body_spec_error (c := msg.Creator)
      hsig hhex hp hspec)
    rw [h]
    exact ⟨rfl, rfl⟩

/-- C22, amended, at a concrete batch: after a relay that is paid, the relay
for the inactive chain 9 that names carol fails on the provider. -/
theorem C22_validation_order_witness :
    Reaches memKeeper { Creator := "bob", Relays := [memRelay 3 7, relayStray] }
      memInit bob [memRelay 3 7] relayStray [] memPaid.state memPaid.trace ∧
    memKeeper.IsSpecFoundAndActive memPaid.state relayStray.ChainID = false ∧
    (RelayPayment memKeeper { Creator := "bob", Relays := [memRelay 3 7, relayStray] }
      memInit).outcome.description =
      some "invalid servicer address in relay msg, creator and signed servicer mismatch" :=
  ⟨⟨rfl, rfl, rfl, rfl, rfl⟩, rfl,
   ((C22_validation_order memKeeper
      { Creator := "bob", Relays := [memRelay 3 7, relayStray] } memInit bob
      [memRelay 3 7] relayStray [] memPaid.state memPaid.trace
      ⟨rfl, rfl, rfl, rfl, rfl⟩).2.1 "alice" alice [99, 97, 114, 111, 108] false
        rfl rfl rfl (by decide) rfl).1⟩

/-! ## Skipped rewards and session identifiers -/

/-- A digit rendered by `Nat.digitChar` reads back as itself. -/
theorem digitValue_digitChar (d : Nat) (h : d < 16) : digitValue (Nat.digitChar d) = some d := by
  interval_cases d <;> rfl

/-- Reading the digits rendered for `n` in front of `ds` is reading `ds` onto `n`. -/
theorem readDigits_toDigitsCore (base : Nat) (h2 : 2 ≤ base) (h16 : base ≤ 16) (fuel : Nat) :
    ∀ (n : Nat) (ds : List Char), n < fuel →
      readDigits base (Nat.toDigitsCore base fuel n ds) 0 = readDigits base ds n := by
  induction fuel with
  | zero => intro n ds h; omega
  | succ fuel ih =>
    intro n ds h
    have hmod : n % base < base := Nat.mod_lt _ (by omega)
    have hd : digitValue (Nat.digitChar (n % base)) = some (n % base) :=
      digitValue_digitChar _ (by omega)
    have hsplit : base * (n / base) + n % base = n := Nat.div_add_mod n base
    simp only [Nat.toDigitsCore]
    by_cases h0 : n / base = 0
    · simp only [h0, if_true, readDigits, hd, hmod, Nat.mul_zero, Nat.zero_add]
      have : n % base = n := by
        rw [h0] at hsplit
        omega
      rw [this]
    · simp only [h0, if_false]
      have hlt : n / base < fuel := by
        have : n / base < n := Nat.div_lt_self (by
          rcases Nat.eq_zero_or_pos n with hn | hn
          · subst hn
            simp at h0
          · exact hn) (by omega)
        omega
      rw [ih (n / base) (Nat.digitChar (n % base) :: ds) hlt]
      simp only [readDigits, hd, hmod, if_true, hsplit]

/-- The digits rendered for a number read back as that number. -/
theorem readDigits_toDigits (base : Nat) (h2 : 2 ≤ base) (h16 : base ≤ 16) (n : Nat) :
    readDigits base (Nat.toDigits base n) 0 = some n := by
  rw [Nat.toDigits, readDigits_toDigitsCore base h2 h16 (n + 1) n [] (by omega)]
  rfl

/-- The base-sixteen rendering tells numbers apart. -/
theorem FormatUint16_injective {a b : Nat} (h : FormatUint16 a = FormatUint16 b) : a = b := by
  have hd : Nat.toDigits 16 a = Nat.toDigits 16 b := congrArg String.data h
  have ha := readDigits_toDigits 16 (by decide) (by decide) a
  rw [hd, readDigits_toDigits 16 (by decide) (by decide) b] at ha
  exact (Option.some.inj ha).symm

/-- C24: for a relay that the batch reaches, that got past pairing validation
with a valid pairing, whose epoch payment is accepted and against which the CU
limit is not enforced, and whose computed reward is zero: the one call made
for the relay is the `AddEpochPayment` that recorded its CU under its session
id; no burn, no mint, no transfer and no event is made for it; the pass falls
through, and the handler goes on with the relays after it from the state that
`AddEpochPayment` left behind, so that, when it is the last relay, the handler
returns the response. -/
theorem C24_zero_reward_is_skipped (k : Keeper σ Stake Rate) (msg : MsgRelayPayment)
    (s0 : σ) (creator : AccAddress) (pre : List RelayRequest) (relay : RelayRequest)
    (post : List RelayRequest) (s : σ) (t : List Call) (client : AccAddress)
    (isOverlap : Bool) (userStake : Stake) (total : Nat) (s1 : σ)
    (hreach : Reaches k msg s0 creator pre relay post s t)
    (hv : Validated k creator relay s client true isOverlap userStake)
    (hadd : k.AddEpochPayment s (epochStartFor k s relay isOverlap) client creator relay.CuSum
      (FormatUint16 relay.SessionId) = (.ok total, s1))
    (hcu : k.EnforceUserCUsUsageInEpoch s1 userStake total = none)
    (hzero : k.Scale relay.CuSum (k.MintCoinsPerCU s1) = 0) :
    relayPaymentBody k msg.Creator creator relay s =
      { state := s1
        trace := [Call.AddEpochPayment (epochStartFor k s relay isOverlap) client creator
          relay.CuSum (FormatUint16 relay.SessionId)]
        flow := Flow.next } ∧
    (∀ c ∈ (relayPaymentBody k msg.Creator creator relay s).trace,
      c.movesTokens = false ∧ c.isEvent = false) ∧
    RelayPayment k msg s0 =
      relayPaymentLoop k msg.Creator creator post s1
        (t ++ [Call.AddEpochPayment (epochStartFor k s relay isOverlap) client creator
          relay.CuSum (FormatUint16 relay.SessionId)]) ∧
    (post = [] →
      RelayPayment k msg s0 =
        { state := s1
          trace := t ++ [Call.AddEpochPayment (epochStartFor k s relay isOverlap) client
            creator relay.CuSum (FormatUint16 relay.SessionId)]
          outcome := Outcome.response }) := by
  have hb := body_zero_reward (c := msg.Creator) hv hadd hcu hzero
  simp only [addCall] at hb
  have hnext := RelayPayment_next hreach hb
  refine ⟨hb, ?_, hnext, ?_⟩
  · rw [hb]
    simp [Call.movesTokens, Call.isBurn, Call.isMint, Call.isSend, Call.isEvent]
  · intro hpost
    rw [hnext, hpost]
    rfl

/-- C24 at a concrete batch: with a reward rate of zero, the relay of 3 CU of
session 7 is recorded and nothing else happens. -/
theorem C24_zero_reward_is_skipped_witness :
    Reaches memKeeper msgPaid memNoReward bob [] (memRelay 3 7) [] memNoReward [] ∧
    Validated memKeeper bob (memRelay 3 7) memNoReward alice true false 10 ∧
    memKeeper.Scale (memRelay 3 7).CuSum (memKeeper.MintCoinsPerCU memNoReward) = 0 ∧
    (RelayPayment memKeeper msgPaid memNoReward).outcome = Outcome.response ∧
    (RelayPayment memKeeper msgPaid memNoReward).trace =
      [Call.AddEpochPayment 20 alice bob 3 "7"] ∧
    (RelayPayment memKeeper msgPaid memNoReward).state.payments =
      [{ epoch := 20, client := alice, provider := bob, uniqueIdentifier := "7", usedCU := 3 }] :=
  have hreach : Reaches memKeeper msgPaid memNoReward bob [] (memRelay 3 7) [] memNoReward [] :=
    ⟨rfl, rfl, rfl, rfl, rfl⟩
  have hv : Validated memKeeper bob (memRelay 3 7) memNoReward alice true false 10 :=
    ⟨"alice", rfl, rfl, rfl, rfl, rfl⟩
  have h := (C24_zero_reward_is_skipped memKeeper msgPaid memNoReward bob [] (memRelay 3 7) []
    memNoReward [] alice false 10 3
    (memKeeper.AddEpochPayment memNoReward 20 alice bob 3 "7").2 hreach hv rfl rfl rfl).2.2.2 rfl
  ⟨hreach, hv, rfl, congrArg Result.outcome h, congrArg Result.trace h, rfl⟩

/-- C25: for a relay that the batch reaches and that got past pairing
validation, the unique identifier handed to `AddEpochPayment` is the
base-sixteen rendering of the session id of the relay; and that rendering is
injective: two session ids have the same identifier exactly when they are
equal. -/
theorem C25_unique_identifier_injective (k : Keeper σ Stake Rate) (msg : MsgRelayPayment)
    (s0 : σ) (creator : AccAddress) (pre : List RelayRequest) (relay : RelayRequest)
    (post : List RelayRequest) (s : σ) (t : List Call) (client : AccAddress)
    (isValidPairing isOverlap : Bool) (userStake : Stake)
    (hreach : Reaches k msg s0 creator pre relay post s t)
    (hv : Validated k creator relay s client isValidPairing isOverlap userStake) :
    (∃ rest later,
      (RelayPayment k msg s0).trace =
        t ++ (Call.AddEpochPayment (epochStartFor k s relay isOverlap) client creator
          relay.CuSum (String.mk (Nat.toDigits 16 relay.SessionId)) :: rest) ++ later ∧
      ∀ x ∈ rest, x.isAddEpochPayment = false) ∧
    (∀ a b : Nat, FormatUint16 a = FormatUint16 b ↔ a = b) ∧
    ∀ other : RelayRequest,
      FormatUint16 other.SessionId = FormatUint16 relay.SessionId ↔
        other.SessionId = relay.SessionId := by
  obtain ⟨rest, hrest, hno⟩ := body_head_of_validated (c := msg.Creator) hv
  obtain ⟨later, hlater⟩ := RelayPayment_trace_of_reaches hreach
  refine ⟨⟨rest, later, ?_, hno⟩, ?_, ?_⟩
  · rw [hlater, hrest]
    rfl
  · intro a b
    exact ⟨FormatUint16_injective, fun h => by rw [h]⟩
  · intro other
    exact ⟨FormatUint16_injective, fun h => by rw [h]⟩

/-- C25 at a concrete batch: session 255 is recorded as "ff". -/
theorem C25_unique_identifier_injective_witness :
    Reaches memKeeper { Creator := "bob", Relays := [memRelay 3 255] } memInit bob []
      (memRelay 3 255) [] memInit [] ∧
    Validated memKeeper bob (memRelay 3 255) memInit alice true false 10 ∧
    (RelayPayment memKeeper { Creator := "bob", Relays := [memRelay 3 255] }
      memInit).trace.head? = some (Call.AddEpochPayment 20 alice bob 3 "ff") ∧
    (FormatUint16 255 = FormatUint16 255 ↔ 255 = 255) :=
  have hreach : Reaches memKeeper { Creator := "bob", Relays := [memRelay 3 255] } memInit bob
      [] (memRelay 3 255) [] memInit [] := ⟨rfl, rfl, rfl, rfl, rfl⟩
  have hv : Validated memKeeper bob (memRelay 3 255) memInit alice true false 10 :=
    ⟨"alice", rfl, rfl, rfl, rfl, rfl⟩
  ⟨hreach, hv, rfl,
   (C25_unique_identifier_injective memKeeper
      { Creator := "bob", Relays := [memRelay 3 255] } memInit bob [] (memRelay 3 255) []
      memInit [] alice true false 10 hreach hv).2.1 255 255⟩

/-! ## The panics of the handler -/

/-- The message of a failed mint is not the message of a missing spec. -/
theorem mint_message_ne (e x : String) :
    "module failed to mint coins to give to servicer: " ++ e ≠
      "failed to get spec for index: " ++ x := by
  intro h
  have h1 := congrArg String.data h
  simp only [String.data_append] at h1
  have h2 := congrArg (fun l => l.head?) h1
  simp at h2

/-- The message of a failed transfer is not the message of a missing spec. -/
theorem send_message_ne (e a x : String) :
    "failed to transfer minted new coins to servicer, " ++ e ++ " account: " ++ a ≠
      "failed to get spec for index: " ++ x := by
  intro h
  have h1 := congrArg String.data h
  simp only [String.data_append] at h1
  have h2 := congrArg (fun l => l.get? 10) h1
  simp at h2

/-- With a spec keeper that finds the spec of every chain it reports found and
active, and epoch payments that leave the report alone, a pass of the loop
body panics only after a failed mint or a failed transfer. -/
theorem body_panic_from_bank (k : Keeper σ Stake Rate)
    (hfound : ∀ s chainID, k.IsSpecFoundAndActive s chainID = true →
      (k.GetSpec s chainID).isSome = true)
    (hkeep : ∀ s epoch client provider cu uid chainID,
      k.IsSpecFoundAndActive (k.AddEpochPayment s epoch client provider cu uid).2 chainID =
        k.IsSpecFoundAndActive s chainID)
    (c : String) (cr : AccAddress) (relay : RelayRequest) (s : σ) (m : String)
    (hp : (relayPaymentBody k c cr relay s).flow = Flow.panic m) :
    PanicFromBank k cr m (relayPaymentBody k c cr relay s).trace := by
  revert m
  refine body_cases k c cr relay s (fun run => ∀ m, run.flow = Flow.panic m →
    PanicFromBank k cr m run.trace) ?_ ?_
  · intro name attrs description m hm
    simp [errorLogAndFormat] at hm
  · intro client valid overlap stake hv
    refine body_validated_cases (c := c) hv (fun run => ∀ m, run.flow = Flow.panic m →
      PanicFromBank k cr m run.trace) ?_ ?_ ?_ ?_ ?_ ?_ ?_ ?_ ?_ ?_
    · intro e s1 _ m hm
      simp [errorLogAndFormat] at hm
    · intro total s1 e _ _ m hm
      simp [errorLogAndFormat] at hm
    · intro _ total s1 _ _ m hm
      simp [errorLogAndFormat] at hm
    · intro _ total s1 _ _ _ m hm
      simp at hm
    · intro total s1 hadd _ _ _ hget m _
      obtain ⟨pk, _, _, _, hspec, _⟩ := hv
      have hs1 : s1 = (k.AddEpochPayment s (epochStartFor k s relay overlap) client cr
          relay.CuSum (FormatUint16 relay.SessionId)).2 := by rw [hadd]
      have hactive := hkeep s (epochStartFor k s relay overlap) client cr relay.CuSum
        (FormatUint16 relay.SessionId) relay.ChainID
      rw [← hs1, hspec] at hactive
      have := hfound s1 relay.ChainID hactive
      rw [hget] at this
      simp at this
    · intro total s1 spec ok e s2 _ _ m hm
      simp [errorLogAndFormat] at hm
    · intro total s1 spec s2 _ _ m hm
      simp [errorLogAndFormat] at hm
    · intro total s1 spec s2 e s3 _ _ _ m hm
      simp only [Flow.panic.injEq] at hm
      exact Or.inl ⟨e, _, [addCall k s relay client cr overlap, burnCall k s1 relay client spec,
        mintCall k s1 relay], hm.symm, rfl⟩
    · intro total s1 spec s2 s3 e s4 _ _ _ _ m hm
      simp only [Flow.panic.injEq] at hm
      exact Or.inr ⟨e, _, [addCall k s relay client cr overlap, burnCall k s1 relay client spec,
        mintCall k s1 relay, sendCall k s1 relay cr], hm.symm, rfl⟩
    · intro total s1 spec s2 s3 s4 _ _ _ _ m hm
      simp at hm

/-- A loop that ends in a panic ends in the panic of one of its passes, whose
calls are the last calls made. -/
theorem relayPaymentLoop_panic (k : Keeper σ Stake Rate) (c : String) (cr : AccAddress)
    (rs : List RelayRequest) (s0 : σ) (t0 : List Call) (m : String)
    (hp : (relayPaymentLoop k c cr rs s0 t0).outcome = Outcome.panic m) :
    ∃ relay s t, relay ∈ rs ∧ (relayPaymentBody k c cr relay s).flow = Flow.panic m ∧
      (relayPaymentLoop k c cr rs s0 t0).trace = t ++ (relayPaymentBody k c cr relay s).trace := by
  induction rs generalizing s0 t0 with
  | nil => simp [relayPaymentLoop] at hp
  | cons r rs ih =>
    simp only [relayPaymentLoop] at hp ⊢
    cases hf : (relayPaymentBody k c cr r s0).flow with
    | next =>
      simp only [hf] at hp ⊢
      obtain ⟨relay, s, t, hmem, hflow, htrace⟩ := ih _ _ hp
      exact ⟨relay, s, t, List.mem_cons_of_mem _ hmem, hflow, htrace⟩
    | fail e => simp [hf] at hp
    | panic m2 =>
      simp only [hf, Outcome.panic.injEq] at hp ⊢
      subst hp
      exact ⟨r, s0, t0, List.mem_cons_self _ _, hf, rfl⟩

/-- C26: with a spec keeper that finds, through `GetSpec`, every chain id that
`IsSpecFoundAndActive` reports found and active (and epoch payments that leave
that report as it was), a handler that panics does so after the log of a
failed mint or of a failed transfer, which is the last call made, and with the
message of that failure; its message is never "failed to get spec for index". -/
theorem C26_spec_panic_unreachable (k : Keeper σ Stake Rate)
    (hfound : ∀ s chainID, k.IsSpecFoundAndActive s chainID = true →
      (k.GetSpec s chainID).isSome = true)
    (hkeep : ∀ s epoch client provider cu uid chainID,
      k.IsSpecFoundAndActive (k.AddEpochPayment s epoch client provider cu uid).2 chainID =
        k.IsSpecFoundAndActive s chainID)
    (msg : MsgRelayPayment) (s0 : σ) (m : String)
    (hpanic : (RelayPayment k msg s0).outcome = Outcome.panic m) :
    (∀ x : String, m ≠ "failed to get spec for index: " ++ x) ∧
    ((∃ e attrs before,
      m = "module failed to mint coins to give to servicer: " ++ e ∧
      (RelayPayment k msg s0).trace =
        before ++ [Call.LavaError "relay_payment" attrs "MintCoins Failed,"]) ∨
     (∃ e account attrs before,
      m = "failed to transfer minted new coins to servicer, " ++ e ++ " account: " ++ account ∧
      (RelayPayment k msg s0).trace =
        before ++ [Call.LavaError "relay_payment" attrs
          "SendCoinsFromModuleToAccount Failed,"])) := by
  have key : ∃ creator, PanicFromBank k creator m (RelayPayment k msg s0).trace := by
    unfold RelayPayment at hpanic ⊢
    cases hc : k.AccAddressFromBech32 msg.Creator with
    | error e => simp [hc] at hpanic
    | ok creator =>
      simp only [hc] at hpanic ⊢
      obtain ⟨relay, s, t, _, hflow, htrace⟩ :=
        relayPaymentLoop_panic k msg.Creator creator msg.Relays s0 [] m hpanic
      have hb := body_panic_from_bank k hfound hkeep msg.Creator creator relay s m hflow
      refine ⟨creator, ?_⟩
      rw [htrace]
      rcases hb with ⟨e, attrs, before, hm, ht⟩ | ⟨e, attrs, before, hm, ht⟩
      · exact Or.inl ⟨e, attrs, t ++ before, hm, by rw [ht, List.append_assoc]⟩
      · exact Or.inr ⟨e, attrs, t ++ before, hm, by rw [ht, List.append_assoc]⟩
  obtain ⟨creator, hbank⟩ := key
  rcases hbank with ⟨e, attrs, before, hm, ht⟩ | ⟨e, attrs, before, hm, ht⟩
  · refine ⟨?_, Or.inl ⟨e, attrs, before, hm, ht⟩⟩
    intro x
    rw [hm]
    exact mint_message_ne e x
  · refine ⟨?_, Or.inr ⟨e, k.AddrString creator, attrs, before, hm, ht⟩⟩
    intro x
    rw [hm]
    exact send_message_ne e _ x

/-- The spec keeper of `memSpecKeeper` finds every chain it reports found and active. -/
theorem memSpecKeeper_found (s : MemState) (chainID : Nat)
    (h : memSpecKeeper.IsSpecFoundAndActive s chainID = true) :
    (memSpecKeeper.GetSpec s chainID).isSome = true := by
  simp only [memSpecKeeper, memKeeper, Bool.and_eq_true] at h ⊢
  exact h.2

/-- The epoch payments of `memSpecKeeper` leave the specs alone. -/
theorem memSpecKeeper_keep (s : MemState) (epoch : Nat) (client provider : AccAddress)
    (cu : Nat) (uid : String) (chainID : Nat) :
    memSpecKeeper.IsSpecFoundAndActive
        (memSpecKeeper.AddEpochPayment s epoch client provider cu uid).2 chainID =
      memSpecKeeper.IsSpecFoundAndActive s chainID := by
  simp only [memSpecKeeper, memKeeper, MemState.AddEpochPayment]
  split <;> rfl

/-- C26 at a concrete batch: with a module account that may not mint, the
handler panics on the mint of the relay of 3 CU. -/
theorem C26_spec_panic_unreachable_witness :
    (∀ s chainID, memSpecKeeper.IsSpecFoundAndActive s chainID = true →
      (memSpecKeeper.GetSpec s chainID).isSome = true) ∧
    (RelayPayment memSpecKeeper msgPaid memNoMinter).outcome =
      Outcome.panic ("module failed to mint coins to give to servicer: " ++
        "module account has no permission to mint") ∧
    ∀ x : String,
      "module failed to mint coins to give to servicer: " ++
        "module account has no permission to mint" ≠ "failed to get spec for index: " ++ x :=
  ⟨memSpecKeeper_found, rfl,
   (C26_spec_panic_unreachable memSpecKeeper memSpecKeeper_found memSpecKeeper_keep msgPaid
      memNoMinter _ rfl).1⟩

/-! ## The command line of the provider -/

/-- C21: the argument validator of the `rpcprovider` command returns no error
exactly when the argument list has no argument, one argument, or a number of
arguments that is a multiple of 4; for every other number of arguments it
returns the error that starts "invalid number of arguments" and ends with the
number of arguments. -/
theorem C21_args_validator (args : List String) :
    (CreateRPCProviderCobraCommand.Args args = none ↔
      args.length = 0 ∨ args.length = 1 ∨ args.length % 4 = 0) ∧
    (¬(args.length = 0 ∨ args.length = 1 ∨ args.length % 4 = 0) →
      CreateRPCProviderCobraCommand.Args args =
        some ("invalid number of arguments, either its a single config file or repeated " ++
          "groups of 4 HOST:PORT chain-id api-interface [node_url,node_url_2], arg count: " ++
          FormatUint10 args.length)) ∧
    Yaml_config_properties.length = 4 ∧
    CreateRPCProviderCobraCommand.Args [] = none ∧
    CreateRPCProviderCobraCommand.Args ["rpcprovider.yml"] = none ∧
    CreateRPCProviderCobraCommand.Args ["127.0.0.1:3333", "ETH1", "jsonrpc", "wss://node"] =
      none ∧
    (CreateRPCProviderCobraCommand.Args ["127.0.0.1:3333", "ETH1"]).isSome = true := by
  have hlen : Yaml_config_properties.length = 4 := rfl
  refine ⟨?_, ?_, hlen, rfl, rfl, rfl, rfl⟩
  · unfold CreateRPCProviderCobraCommand.Args RangeArgs
    rw [hlen]
    by_cases h1 : args.length < 0 ∨ args.length > 1
    · simp only [h1, if_true]
      by_cases h4 : args.length % 4 = 0
      · simp [h4]
      · rw [if_pos h4]
        constructor
        · intro h
          cases h
        · intro h
          omega
    · simp only [h1, if_false]
      constructor
      · intro _
        omega
      · intro _
        trivial
  · intro h
    unfold CreateRPCProviderCobraCommand.Args RangeArgs
    rw [hlen]
    have h1 : args.length < 0 ∨ args.length > 1 := by omega
    have h4 : args.length % 4 ≠ 0 := by omega
    simp only [h1, if_true, ne_eq, h4, not_false_eq_true]

/-! ## Plan proposals: the price hook -/

/-- The base-ten rendering of a natural number is read back as that number. -/
theorem SetString10_FormatUint10 (n : Nat) : SetString10 (FormatUint10 n) = some (n : Int) := by
  have hread := readDigits_toDigits 10 (by decide) (by decide) n
  unfold SetString10 FormatUint10
  simp only
  cases hds : Nat.toDigits 10 n with
  | nil =>
    rw [hds] at hread
    simp only [readDigits, Option.some.injEq] at hread
    subst hread
    simp [Nat.toDigits, Nat.toDigitsCore] at hds
  | cons c cs =>
    rw [hds] at hread
    have hc : digitValue c ≠ none := by
      intro hnone
      simp [readDigits, hnone] at hread
    have hminus : c ≠ '-' := by
      intro h
      subst h
      exact hc rfl
    have hplus : c ≠ '+' := by
      intro h
      subst h
      exact hc rfl
    simp only [hminus, hplus, if_false, hread, Option.map_some', Int.ofNat_eq_coe]

/-- The base-ten rendering of a natural number after a minus sign is read as
the negative of that number. -/
theorem SetString10_minus (n : Nat) :
    SetString10 ("-" ++ FormatUint10 n) = some (-(n : Int)) := by
  have hread := readDigits_toDigits 10 (by decide) (by decide) n
  have hdata : ("-" ++ FormatUint10 n).data = '-' :: Nat.toDigits 10 n := by
    simp [FormatUint10, String.data_append]
  have hne : Nat.toDigits 10 n ≠ [] := by
    intro h
    rw [h] at hread
    simp only [readDigits, Option.some.injEq] at hread
    subst hread
    simp [Nat.toDigits, Nat.toDigitsCore] at h
  unfold SetString10
  rw [hdata]
  simp only [if_true, hne, if_false, hread, Option.map_some', Int.ofNat_eq_coe]

set_option maxRecDepth 100000 in
/-- C27, as stated, fails: the numeral of `2 ^ 256` is a base-ten integer,
`SetString` reads it, and the hook neither returns the `sdk.Int` equal to it
nor an error: `sdk.NewIntFromBigInt` panics.  The numeral of `2 ^ 256 - 1` is
still taken. -/
theorem C27_counterexample :
    SetString10
      "115792089237316195423570985008687907853269984665640564039457584007913129639936" =
      some (2 ^ 256) ∧
    priceDecodeHookFunc "sdk.Int" "string" "sdk.Int"
      (HookData.string
        "115792089237316195423570985008687907853269984665640564039457584007913129639936" :
        HookData Unit) = .panic "NewIntFromBigInt() out of bound" ∧
    priceDecodeHookFunc "sdk.Int" "string" "sdk.Int"
      (HookData.string
        "115792089237316195423570985008687907853269984665640564039457584007913129639935" :
        HookData Unit) = .ok (.sdkInt { i := 2 ^ 256 - 1 }) :=
  ⟨rfl, rfl, rfl⟩

/-- C27, amended: `priceDecodeHookFunc` returns its data unchanged, and no
error, when the target type is not that of `sdk.Int`.  When it is, a string
that is a base-ten numeral of a number below `2 ^ 256` in absolute value
gives the `sdk.Int` equal to that number (so the rendering of `n` gives `n`,
and after a minus sign `-n`); a numeral of a number from `2 ^ 256` on in
absolute value makes the hook panic inside `sdk.NewIntFromBigInt`; a string
that is no base-ten numeral, and data that is no string, give an error and no
value. -/
theorem C27_price_decode_hook {T Other : Type} [DecidableEq T] (sdkIntType : T)
    (f t : T) (data : HookData Other) :
    (t ≠ sdkIntType → priceDecodeHookFunc sdkIntType f t data = .ok data) ∧
    (∀ (s : String) (amount : Int), SetString10 s = some amount →
      (amount.natAbs < 2 ^ 256 →
        priceDecodeHookFunc sdkIntType f sdkIntType (HookData.string s : HookData Other) =
          .ok (.sdkInt { i := amount })) ∧
      (2 ^ 256 ≤ amount.natAbs →
        priceDecodeHookFunc sdkIntType f sdkIntType (HookData.string s : HookData Other) =
          .panic "NewIntFromBigInt() out of bound")) ∧
    (∀ n : Nat, n < 2 ^ 256 →
      priceDecodeHookFunc sdkIntType f sdkIntType
        (HookData.string (FormatUint10 n) : HookData Other) = .ok (.sdkInt { i := n }) ∧
      priceDecodeHookFunc sdkIntType f sdkIntType
        (HookData.string ("-" ++ FormatUint10 n) : HookData Other) =
        .ok (.sdkInt { i := -(n : Int) })) ∧
    (∀ s : String, SetString10 s = none →
      priceDecodeHookFunc sdkIntType f sdkIntType (HookData.string s : HookData Other) =
        .error "failed to convert amount to sdk.Int") ∧
    ((∀ s : String, data ≠ HookData.string s) →
      priceDecodeHookFunc sdkIntType f sdkIntType data =
        .error "unexpected data type for amount field") ∧
    SetString10 "1000" = some 1000 ∧ SetString10 "+7" = some 7 ∧
    SetString10 "-12" = some (-12) ∧ SetString10 "007" = some 7 ∧
    SetString10 "" = none ∧ SetString10 "-" = none ∧ SetString10 "12a" = none ∧
    SetString10 "1.5" = none ∧ SetString10 " 1" = none ∧ SetString10 "0x10" = none := by
  have hok : ∀ amount : Int, amount.natAbs < 2 ^ 256 →
      NewIntFromBigInt amount = some { i := amount } := by
    intro amount h
    simp only [NewIntFromBigInt, h, if_true]
  refine ⟨?_, ?_, ?_, ?_, ?_, rfl, rfl, rfl, rfl, rfl, rfl, rfl, rfl, rfl, rfl⟩
  · intro h
    simp only [priceDecodeHookFunc, h, if_false]
  · intro s amount h
    constructor
    · intro hlt
      simp only [priceDecodeHookFunc, if_true, h, hok amount hlt]
    · intro hge
      have hnone : NewIntFromBigInt amount = none := by
        simp only [NewIntFromBigInt, Nat.not_lt.mpr hge, if_false]
      simp only [priceDecodeHookFunc, if_true, h, hnone]
  · intro n hn
    constructor
    · simp only [priceDecodeHookFunc, if_true, SetString10_FormatUint10,
        hok (n : Int) (by simpa using hn)]
    · simp only [priceDecodeHookFunc, if_true, SetString10_minus,
        hok (-(n : Int)) (by simpa using hn)]
  · intro s h
    simp only [priceDecodeHookFunc, if_true, h]
  · intro h
    cases data with
    | string s => exact absurd rfl (h s)
    | sdkInt i => simp only [priceDecodeHookFunc, if_true]
    | other v => simp only [priceDecodeHookFunc, if_true]

/-! ## Plan proposals: the parsers -/

/-- Onto a result without plans, the proposal of a file is taken as it is. -/
theorem mergeProposal_of_nil {P C : Type} (lib : CoinLib C) (ret proposal : PlansProposalJSON P)
    (h : ret.Proposal.Plans = []) : mergeProposal lib ret proposal = .ok proposal := by
  simp [mergeProposal, h]

/-- Onto a result with plans, the proposal of a file is merged, when both
deposits parse and add. -/
theorem mergeProposal_of_ne_nil {P C : Type} (lib : CoinLib C)
    (ret proposal : PlansProposalJSON P) (a b sum : C)
    (h : ret.Proposal.Plans ≠ [])
    (ha : lib.ParseCoinNormalized ret.Deposit = .ok a)
    (hb : lib.ParseCoinNormalized proposal.Deposit = .ok b)
    (hsum : lib.Add a b = .ok sum) :
    mergeProposal lib ret proposal =
      .ok { Proposal :=
              { Title := proposal.Proposal.Title ++ " " ++ ret.Proposal.Title
                Description := proposal.Proposal.Description ++ " " ++ ret.Proposal.Description
                Plans := ret.Proposal.Plans ++ proposal.Proposal.Plans }
            Deposit := lib.String sum } := by
  have hpos : ret.Proposal.Plans.length > 0 := List.length_pos.mpr h
  simp only [mergeProposal, hpos, if_true, ha, hb, hsum]

/-- From a result that holds a plan, the loop of `ParsePlansAddProposalJSON`
over files that decode and whose deposits add up appends their plans. -/
theorem parseAddFiles_appends {Plan C : Type} (files : AddFiles Plan) (lib : CoinLib C)
    (names : List String) :
    ∀ ret : PlansAddProposalJSON Plan, ret.Proposal.Plans ≠ [] →
      (∀ name ∈ names, (files.DecodeFileProposal name).2 = none ∧
        (files.DecodeFileDeposit name).2 = none) →
      DepositsAddUp lib ret.Deposit (names.map (fun name => (files.DecodeFileDeposit name).1)) →
      ∃ out, parseAddFiles files lib names ret = .ok out ∧
        out.Proposal.Plans = ret.Proposal.Plans ++
          (names.map (fun name => (files.DecodeFileProposal name).1.Plans)).flatten := by
  induction names with
  | nil =>
    intro ret _ _ _
    exact ⟨ret, rfl, by simp⟩
  | cons name rest ih =>
    intro ret hne hdec hdep
    obtain ⟨hp, hd⟩ := hdec name (List.mem_cons_self _ _)
    simp only [List.map_cons, DepositsAddUp] at hdep
    obtain ⟨a, b, sum, ha, hb, hsum, hrest⟩ := hdep
    have hm := mergeProposal_of_ne_nil lib ret
      { Proposal := (files.DecodeFileProposal name).1
        Deposit := (files.DecodeFileDeposit name).1 } a b sum hne ha hb hsum
    obtain ⟨out, hout, hplans⟩ := ih
      { Proposal :=
          { Title := (files.DecodeFileProposal name).1.Title ++ " " ++ ret.Proposal.Title
            Description :=
              (files.DecodeFileProposal name).1.Description ++ " " ++ ret.Proposal.Description
            Plans := ret.Proposal.Plans ++ (files.DecodeFileProposal name).1.Plans }
        Deposit := lib.String sum }
      (by simp only [ne_eq, List.append_eq_nil, not_and]; exact fun h => absurd h hne)
      (fun n hn => hdec n (List.mem_cons_of_mem _ hn)) hrest
    refine ⟨out, ?_, ?_⟩
    · simp only [parseAddFiles, hp, hd, hm]
      exact hout
    · rw [hplans]
      simp

/-- C28, as stated, fails: the files `bad.json` and `b.json` both decode
without error and each holds a plan, but the deposit of `bad.json`, the text
"lots", is no coin; when `b.json` is merged, parsing that deposit fails, and
the parser returns the error, with the proposal of `b.json` alone. -/
theorem C28_counterexample :
    Split "bad.json,b.json" ',' = ["bad.json", "b.json"] ∧
    exampleAddFiles.DecodeFileProposal "bad.json" =
      ({ Title := "C", Description := "third", Plans := ["tin"] }, none) ∧
    exampleAddFiles.DecodeFileDeposit "bad.json" = ("lots", none) ∧
    exampleAddFiles.DecodeFileProposal "b.json" =
      ({ Title := "B", Description := "second", Plans := ["silver", "bronze"] }, none) ∧
    exampleAddFiles.DecodeFileDeposit "b.json" = ("5ulava", none) ∧
    ParsePlansAddProposalJSON exampleAddFiles exampleCoinLib "bad.json,b.json" =
      .error
        { Proposal := { Title := "B", Description := "second", Plans := ["silver", "bronze"] }
          Deposit := "5ulava" }
        "invalid decimal coin expression: lots" :=
  ⟨rfl, rfl, rfl, rfl, rfl, rfl⟩

/-- C28, amended: for a comma-separated list of proposal files that all decode
without error and each hold at least one plan, and whose deposits add up (at
every merge the deposit accumulated so far and the deposit of the file parse
as coins that can be added), `ParsePlansAddProposalJSON` returns without
error a proposal whose plans are the plans of the files, one file after the
other in the order the files are named; for a single file the result is the
proposal and the deposit of that file. -/
theorem C28_plans_are_concatenated {Plan C : Type} (files : AddFiles Plan) (lib : CoinLib C)
    (proposalFile : String) (first : String) (others : List String)
    (hsplit : Split proposalFile ',' = first :: others)
    (hdecode : ∀ name ∈ first :: others,
      (files.DecodeFileProposal name).2 = none ∧ (files.DecodeFileDeposit name).2 = none)
    (hplans : ∀ name ∈ first :: others, (files.DecodeFileProposal name).1.Plans ≠ [])
    (hdeposits : DepositsAddUp lib (files.DecodeFileDeposit first).1
      (others.map (fun name => (files.DecodeFileDeposit name).1))) :
    ∃ ret, ParsePlansAddProposalJSON files lib proposalFile = .ok ret ∧
      ret.Proposal.Plans =
        ((first :: others).map (fun name => (files.DecodeFileProposal name).1.Plans)).flatten ∧
      (others = [] →
        ret = { Proposal := (files.DecodeFileProposal first).1
                Deposit := (files.DecodeFileDeposit first).1 }) := by
  obtain ⟨hp, hd⟩ := hdecode first (List.mem_cons_self _ _)
  have hfirst := hplans first (List.mem_cons_self _ _)
  obtain ⟨out, hout, hcat⟩ := parseAddFiles_appends files lib others
    { Proposal := (files.DecodeFileProposal first).1
      Deposit := (files.DecodeFileDeposit first).1 }
    hfirst (fun n hn => hdecode n (List.mem_cons_of_mem _ hn)) hdeposits
  have hrun : ParsePlansAddProposalJSON files lib proposalFile = .ok out := by
    simp only [ParsePlansAddProposalJSON, hsplit, parseAddFiles, hp, hd]
    rw [mergeProposal_of_nil lib _ _ rfl]
    exact hout
  refine ⟨out, hrun, ?_, ?_⟩
  · rw [hcat]
    simp
  · intro hnil
    subst hnil
    simp only [parseAddFiles, Returned.ok.injEq] at hout
    exact hout.symm

/-- C28, amended, at concrete files: `a.json` holds the plan gold and `b.json`
the plans silver and bronze, with deposits of 10 and 5 ulava. -/
theorem C28_plans_are_concatenated_witness :
    Split "a.json,b.json" ',' = ["a.json", "b.json"] ∧
    DepositsAddUp exampleCoinLib "10ulava" ["5ulava"] ∧
    ParsePlansAddProposalJSON exampleAddFiles exampleCoinLib "a.json,b.json" =
      .ok { Proposal :=
              { Title := "B A", Description := "second first"
                Plans := ["gold", "silver", "bronze"] }
            Deposit := "15ulava" } ∧
    ∃ ret, ParsePlansAddProposalJSON exampleAddFiles exampleCoinLib "a.json,b.json" = .ok ret ∧
      ret.Proposal.Plans = ["gold", "silver", "bronze"] :=
  have hdep : DepositsAddUp exampleCoinLib "10ulava" ["5ulava"] :=
    ⟨{ Denom := "ulava", Amount := 10 }, { Denom := "ulava", Amount := 5 },
      { Denom := "ulava", Amount := 15 }, rfl, rfl, rfl, trivial⟩
  have h := C28_plans_are_concatenated exampleAddFiles exampleCoinLib "a.json,b.json"
    "a.json" ["b.json"] rfl
    (by
      intro name hn
      simp only [List.mem_cons, List.mem_singleton, List.not_mem_nil, or_false] at hn
      rcases hn with rfl | rfl <;> exact ⟨rfl, rfl⟩)
    (by
      intro name hn
      simp only [List.mem_cons, List.mem_singleton, List.not_mem_nil, or_false] at hn
      rcases hn with rfl | rfl <;> decide)
    hdep
  ⟨rfl, hdep, rfl, h.imp fun _ hret => ⟨hret.1, hret.2.1⟩⟩

/-- Files without plans before other files leave nothing in the result of
`ParsePlansAddProposalJSON`: the loop over them and the files kept, from a
result without plans, is the loop over the files kept. -/
theorem parseAddFiles_skips {Plan C : Type} (files : AddFiles Plan) (lib : CoinLib C)
    (kept : List String) (hkept : kept ≠ []) (skipped : List String) :
    ∀ ret : PlansAddProposalJSON Plan, ret.Proposal.Plans = [] →
      (∀ name ∈ skipped, (files.DecodeFileProposal name).2 = none ∧
        (files.DecodeFileDeposit name).2 = none ∧
        (files.DecodeFileProposal name).1.Plans = []) →
      parseAddFiles files lib (skipped ++ kept) ret =
        parseAddFiles files lib kept PlansProposalJSON.zero := by
  induction skipped with
  | nil =>
    intro ret hret _
    cases kept with
    | nil => exact absurd rfl hkept
    | cons name rest =>
      simp only [List.nil_append, parseAddFiles]
      rw [mergeProposal_of_nil lib ret _ hret, mergeProposal_of_nil lib _ _ rfl]
  | cons name rest ih =>
    intro ret hret hskip
    obtain ⟨hp, hd, hnil⟩ := hskip name (List.mem_cons_self _ _)
    simp only [List.cons_append, parseAddFiles, hp, hd]
    rw [mergeProposal_of_nil lib ret _ hret]
    exact ih _ hnil (fun n hn => hskip n (List.mem_cons_of_mem _ hn))

/-- Files without plans before other files leave nothing in the result of
`ParsePlansDelProposalJSON`. -/
theorem parseDelFiles_skips {Bytes C : Type} (files : DelFiles Bytes) (lib : CoinLib C)
    (kept : List String) (hkept : kept ≠ []) (skipped : List String) :
    ∀ ret : PlansDelProposalJSON, ret.Proposal.Plans = [] →
      (∀ name ∈ skipped, ∃ contents, files.ReadFile name = .ok contents ∧
        (files.UnmarshalJSON contents).2 = none ∧
        (files.UnmarshalJSON contents).1.Proposal.Plans = []) →
      parseDelFiles files lib (skipped ++ kept) ret =
        parseDelFiles files lib kept PlansProposalJSON.zero := by
  induction skipped with
  | nil =>
    intro ret hret _
    cases kept with
    | nil => exact absurd rfl hkept
    | cons name rest =>
      simp only [List.nil_append, parseDelFiles]
      cases files.ReadFile name with
      | error err => rfl
      | ok contents =>
        simp only
        cases (files.UnmarshalJSON contents).2 with
        | some err => rfl
        | none =>
          simp only
          rw [mergeProposal_of_nil lib ret _ hret, mergeProposal_of_nil lib _ _ rfl]
  | cons name rest ih =>
    intro ret hret hskip
    obtain ⟨contents, hread, herr, hnil⟩ := hskip name (List.mem_cons_self _ _)
    simp only [List.cons_append, parseDelFiles, hread, herr]
    rw [mergeProposal_of_nil lib ret _ hret]
    exact ih _ hnil (fun n hn => hskip n (List.mem_cons_of_mem _ hn))

/-- The pieces of a text are never none. -/
theorem Split_ne_nil (s : String) (sep : Char) : Split s sep ≠ [] := by
  have key : ∀ cs : List Char, splitChars sep cs ≠ [] := by
    intro cs
    cases cs with
    | nil => simp [splitChars]
    | cons c cs =>
      simp only [splitChars]
      split
      · simp
      · split <;> simp
  simp [Split, key]

/-- C29: in both parsers, the proposal of a file replaces a result that holds
no plan, and is merged into a result that holds one (plans appended, title and
description put in front, deposits added).  So when the files named first
decode without error and hold no plan, the result of either parser is what
it returns for the remaining files alone, and the titles, descriptions and
deposits of the files named first are not in it: with one file remaining the
result is the proposal and the deposit of that file; with two files
remaining, the first of which holds a plan, it is the merge of the two. -/
theorem C29_empty_accumulator_is_replaced {Plan Bytes C : Type} (addFiles : AddFiles Plan)
    (delFiles : DelFiles Bytes) (lib : CoinLib C) (proposalFile remaining : String)
    (skipped kept : List String)
    (hsplit : Split proposalFile ',' = skipped ++ kept)
    (hkept : Split remaining ',' = kept) :
    ((∀ name ∈ skipped, (addFiles.DecodeFileProposal name).2 = none ∧
        (addFiles.DecodeFileDeposit name).2 = none ∧
        (addFiles.DecodeFileProposal name).1.Plans = []) →
      ParsePlansAddProposalJSON addFiles lib proposalFile =
        ParsePlansAddProposalJSON addFiles lib remaining ∧
      (∀ f, kept = [f] →
        (addFiles.DecodeFileProposal f).2 = none → (addFiles.DecodeFileDeposit f).2 = none →
        ParsePlansAddProposalJSON addFiles lib proposalFile =
          .ok { Proposal := (addFiles.DecodeFileProposal f).1
                Deposit := (addFiles.DecodeFileDeposit f).1 }) ∧
      (∀ f g a b sum, kept = [f, g] →
        (addFiles.DecodeFileProposal f).2 = none → (addFiles.DecodeFileDeposit f).2 = none →
        (addFiles.DecodeFileProposal g).2 = none → (addFiles.DecodeFileDeposit g).2 = none →
        (addFiles.DecodeFileProposal f).1.Plans ≠ [] →
        lib.ParseCoinNormalized (addFiles.DecodeFileDeposit f).1 = .ok a →
        lib.ParseCoinNormalized (addFiles.DecodeFileDeposit g).1 = .ok b →
        lib.Add a b = .ok sum →
        ParsePlansAddProposalJSON addFiles lib proposalFile =
          .ok { Proposal :=
                  { Title := (addFiles.DecodeFileProposal g).1.Title ++ " " ++
                      (addFiles.DecodeFileProposal f).1.Title
                    Description := (addFiles.DecodeFileProposal g).1.Description ++ " " ++
                      (addFiles.DecodeFileProposal f).1.Description
                    Plans := (addFiles.DecodeFileProposal f).1.Plans ++
                      (addFiles.DecodeFileProposal g).1.Plans }
                Deposit := lib.String sum })) ∧
    ((∀ name ∈ skipped, ∃ contents, delFiles.ReadFile name = .ok contents ∧
        (delFiles.UnmarshalJSON contents).2 = none ∧
        (delFiles.UnmarshalJSON contents).1.Proposal.Plans = []) →
      ParsePlansDelProposalJSON delFiles lib proposalFile =
        ParsePlansDelProposalJSON delFiles lib remaining ∧
      (∀ f contents, kept = [f] →
        delFiles.ReadFile f = .ok contents → (delFiles.UnmarshalJSON contents).2 = none →
        ParsePlansDelProposalJSON delFiles lib proposalFile =
          .ok (delFiles.UnmarshalJSON contents).1) ∧
      (∀ f g cf cg a b sum, kept = [f, g] →
        delFiles.ReadFile f = .ok cf → (delFiles.UnmarshalJSON cf).2 = none →
        delFiles.ReadFile g = .ok cg → (delFiles.UnmarshalJSON cg).2 = none →
        (delFiles.UnmarshalJSON cf).1.Proposal.Plans ≠ [] →
        lib.ParseCoinNormalized (delFiles.UnmarshalJSON cf).1.Deposit = .ok a →
        lib.ParseCoinNormalized (delFiles.UnmarshalJSON cg).1.Deposit = .ok b →
        lib.Add a b = .ok sum →
        ParsePlansDelProposalJSON delFiles lib proposalFile =
          .ok { Proposal :=
                  { Title := (delFiles.UnmarshalJSON cg).1.Proposal.Title ++ " " ++
                      (delFiles.UnmarshalJSON cf).1.Proposal.Title
                    Description := (delFiles.UnmarshalJSON cg).1.Proposal.Description ++ " " ++
                      (delFiles.UnmarshalJSON cf).1.Proposal.Description
                    Plans := (delFiles.UnmarshalJSON cf).1.Proposal.Plans ++
                      (delFiles.UnmarshalJSON cg).1.Proposal.Plans }
                Deposit := lib.String sum })) ∧
    (∀ (P : Type) (ret proposal : PlansProposalJSON P), ret.Proposal.Plans = [] →
      mergeProposal lib ret proposal = .ok proposal) ∧
    (∀ (P : Type) (ret proposal : PlansProposalJSON P) (a b sum : C),
      ret.Proposal.Plans ≠ [] →
      lib.ParseCoinNormalized ret.Deposit = .ok a →
      lib.ParseCoinNormalized proposal.Deposit = .ok b →
      lib.Add a b = .ok sum →
      mergeProposal lib ret proposal =
        .ok { Proposal :=
                { Title := proposal.Proposal.Title ++ " " ++ ret.Proposal.Title
                  Description :=
                    proposal.Proposal.Description ++ " " ++ ret.Proposal.Description
                  Plans := ret.Proposal.Plans ++ proposal.Proposal.Plans }
              Deposit := lib.String sum }) := by
  have hne : kept ≠ [] := by
    rw [← hkept]
    exact Split_ne_nil remaining ','
  refine ⟨?_, ?_, ?_, ?_⟩
  · intro h
    have hrun : ParsePlansAddProposalJSON addFiles lib proposalFile =
        parseAddFiles addFiles lib kept PlansProposalJSON.zero := by
      simp only [ParsePlansAddProposalJSON, hsplit]
      exact parseAddFiles_skips addFiles lib kept hne skipped _ rfl h
    refine ⟨?_, ?_, ?_⟩
    · rw [hrun]
      simp only [ParsePlansAddProposalJSON, hkept]
    · intro f hf hp hd
      rw [hrun, hf]
      simp only [parseAddFiles, hp, hd]
      rw [mergeProposal_of_nil lib _ _ rfl]
    · intro f g a b sum hfg hpf hdf hpg hdg hplans ha hb hsum
      rw [hrun, hfg]
      simp only [parseAddFiles, hpf, hdf, hpg, hdg]
      rw [mergeProposal_of_nil lib _ _ rfl]
      simp only
      rw [mergeProposal_of_ne_nil lib _ _ a b sum hplans ha hb hsum]
  · intro h
    have hrun : ParsePlansDelProposalJSON delFiles lib proposalFile =
        parseDelFiles delFiles lib kept PlansProposalJSON.zero := by
      simp only [ParsePlansDelProposalJSON, hsplit]
      exact parseDelFiles_skips delFiles lib kept hne skipped _ rfl h
    refine ⟨?_, ?_, ?_⟩
    · rw [hrun]
      simp only [ParsePlansDelProposalJSON, hkept]
    · intro f contents hf hread herr
      rw [hrun, hf]
      simp only [parseDelFiles, hread, herr]
      rw [mergeProposal_of_nil lib _ _ rfl]
    · intro f g cf cg a b sum hfg hrf hef hrg heg hplans ha hb hsum
      rw [hrun, hfg]
      simp only [parseDelFiles, hrf, hef, hrg, heg]
      rw [mergeProposal_of_nil lib _ _ rfl]
      simp only
      rw [mergeProposal_of_ne_nil lib _ _ a b sum hplans ha hb hsum]
  · intro P ret proposal h
    exact mergeProposal_of_nil lib ret proposal h
  · intro P ret proposal a b sum h ha hb hsum
    exact mergeProposal_of_ne_nil lib ret proposal a b sum h ha hb hsum

/-- C29 at concrete files: `empty.json` holds no plan, a title, a description
and a deposit of 1 ulava; named first, it leaves no trace in the result of
either parser, which is the merge of `a.json` and `b.json`. -/
theorem C29_empty_accumulator_is_replaced_witness :
    Split "empty.json,a.json,b.json" ',' = ["empty.json"] ++ ["a.json", "b.json"] ∧
    Split "a.json,b.json" ',' = ["a.json", "b.json"] ∧
    exampleAddFiles.DecodeFileProposal "empty.json" =
      ({ Title := "E", Description := "no plan", Plans := [] }, none) ∧
    exampleAddFiles.DecodeFileDeposit "empty.json" = ("1ulava", none) ∧
    ParsePlansAddProposalJSON exampleAddFiles exampleCoinLib "empty.json,a.json,b.json" =
      .ok { Proposal :=
              { Title := "B A", Description := "second first"
                Plans := ["gold", "silver", "bronze"] }
            Deposit := "15ulava" } ∧
    ParsePlansDelProposalJSON exampleDelFiles exampleCoinLib "empty.json,a.json,b.json" =
      .ok { Proposal :=
              { Title := "B A", Description := "second first"
                Plans := ["gold", "silver", "bronze"] }
            Deposit := "15ulava" } ∧
    ParsePlansDelProposalJSON exampleDelFiles exampleCoinLib "empty.json,a.json" =
      .ok { Proposal := { Title := "A", Description := "first", Plans := ["gold"] }
            Deposit := "10ulava" } :=
  have hadd : ∀ name ∈ ["empty.json"],
      (exampleAddFiles.DecodeFileProposal name).2 = none ∧
      (exampleAddFiles.DecodeFileDeposit name).2 = none ∧
      (exampleAddFiles.DecodeFileProposal name).1.Plans = [] := by
    intro name hn
    simp only [List.mem_singleton] at hn
    subst hn
    exact ⟨rfl, rfl, rfl⟩
  have hdel : ∀ name ∈ ["empty.json"], ∃ contents,
      exampleDelFiles.ReadFile name = .ok contents ∧
      (exampleDelFiles.UnmarshalJSON contents).2 = none ∧
      (exampleDelFiles.UnmarshalJSON contents).1.Proposal.Plans = [] := by
    intro name hn
    simp only [List.mem_singleton] at hn
    subst hn
    exact ⟨"empty.json", rfl, rfl, rfl⟩
  have h := C29_empty_accumulator_is_replaced exampleAddFiles exampleDelFiles exampleCoinLib
    "empty.json,a.json,b.json" "a.json,b.json" ["empty.json"] ["a.json", "b.json"] rfl rfl
  have h1 := C29_empty_accumulator_is_replaced exampleAddFiles exampleDelFiles exampleCoinLib
    "empty.json,a.json" "a.json" ["empty.json"] ["a.json"] rfl rfl
  ⟨rfl, rfl, rfl, rfl,
   (h.1 hadd).2.2 "a.json" "b.json" { Denom := "ulava", Amount := 10 }
     { Denom := "ulava", Amount := 5 } { Denom := "ulava", Amount := 15 }
     rfl rfl rfl rfl rfl (by decide) rfl rfl rfl,
   (h.2.1 hdel).2.2 "a.json" "b.json" "a.json" "b.json" { Denom := "ulava", Amount := 10 }
     { Denom := "ulava", Amount := 5 } { Denom := "ulava", Amount := 15 }
     rfl rfl rfl rfl rfl (by decide) rfl rfl rfl,
   (h1.2.1 hdel).2.1 "a.json" "a.json" rfl rfl rfl⟩

/-! ## The geolocation check of the pairing tests -/

/-- When the loop over scores in descending order, none above `maxScore`,
returns true, every score equal to `maxScore` is the score of a provider of
the geolocation asked for. -/
theorem geoScoreLoop_sound (geo maxScore : Nat) (l : List PairingScore)
    (hloop : geoScoreLoop geo maxScore l = true)
    (hsorted : l.Pairwise (fun a b => b.Score ≤ a.Score))
    (hmax : ∀ x ∈ l, x.Score ≤ maxScore) :
    ∀ p ∈ l, p.Score = maxScore → p.Provider.Geolocation = geo := by
  induction l with
  | nil => intro p hp; cases hp
  | cons x rest ih =>
    intro p hp hscore
    rw [List.pairwise_cons] at hsorted
    simp only [geoScoreLoop] at hloop
    by_cases hgeo : x.Provider.Geolocation = geo
    · simp only [hgeo, if_true] at hloop
      by_cases hx : x.Score = maxScore
      · simp only [hx, ne_eq, not_true_eq_false, if_false] at hloop
        rcases List.mem_cons.mp hp with rfl | hrest
        · exact hgeo
        · exact ih hloop hsorted.2 (fun y hy => hmax y (List.mem_cons_of_mem _ hy)) p hrest
            hscore
      · simp [hx] at hloop
    · simp only [hgeo, if_false] at hloop
      have hx : x.Score ≠ maxScore := by
        intro hx
        simp [hx] at hloop
      have hlt : x.Score < maxScore :=
        lt_of_le_of_ne (hmax x (List.mem_cons_self _ _)) hx
      rcases List.mem_cons.mp hp with rfl | hrest
      · exact absurd hscore hx
      · have := hsorted.1 p hrest
        omega

/-- Insertion sort by score sorts as `sort.Slice` is asked to. -/
theorem exampleSortSlice_sorts : SortsByScore exampleSortSlice := by
  intro l
  refine ⟨List.perm_insertionSort _ l, ?_⟩
  exact @List.sorted_insertionSort PairingScore (fun a b => b.Score ≤ a.Score) _
    ⟨fun a b => Nat.le_total b.Score a.Score⟩ ⟨fun _ _ _ hab hbc => Nat.le_trans hbc hab⟩ l

/-- C30: `verifyGeoScoreForTesting` returns false when the slot is nil, when
there is no score, when the slot carries no `GeoReq`, and when the
geolocation of its `GeoReq` is not among the expected ones.  And with a
`sort.Slice` that sorts, whenever it returns true the slot carries a `GeoReq`
of an expected geolocation, every provider in the list whose score is the
greatest score of the list has that geolocation, and at least one provider
in the list has the greatest score and that geolocation. -/
theorem C30_geo_score_check_is_sound (sortSlice : List PairingScore → List PairingScore)
    (providerScores : List PairingScore) (slot : PairingSlot)
    (expectedGeoSeen : List (Nat × Bool)) :
    (verifyGeoScoreForTesting sortSlice providerScores none expectedGeoSeen).ok = false ∧
    (verifyGeoScoreForTesting sortSlice [] (some slot) expectedGeoSeen).ok = false ∧
    (slot.geoReq = none →
      (verifyGeoScoreForTesting sortSlice providerScores (some slot) expectedGeoSeen).ok
        = false) ∧
    (∀ geo, slot.geoReq = some geo → assoc expectedGeoSeen geo = none →
      (verifyGeoScoreForTesting sortSlice providerScores (some slot) expectedGeoSeen).ok
        = false) ∧
    (SortsByScore sortSlice →
      (verifyGeoScoreForTesting sortSlice providerScores (some slot) expectedGeoSeen).ok
        = true →
      ∃ geo, slot.geoReq = some geo ∧ (assoc expectedGeoSeen geo).isSome = true ∧
        (∀ p ∈ providerScores, (∀ q ∈ providerScores, q.Score ≤ p.Score) →
          p.Provider.Geolocation = geo) ∧
        ∃ p ∈ providerScores, (∀ q ∈ providerScores, q.Score ≤ p.Score) ∧
          p.Provider.Geolocation = geo) := by
  refine ⟨rfl, rfl, ?_, ?_, ?_⟩
  · intro h
    simp only [verifyGeoScoreForTesting, h]
    split <;> rfl
  · intro geo h hseen
    simp only [verifyGeoScoreForTesting, h, hseen]
    split <;> rfl
  · intro hsort hok
    obtain ⟨hperm, hsorted⟩ := hsort providerScores
    simp only [verifyGeoScoreForTesting] at hok
    by_cases hlen : providerScores.length = 0
    · simp [hlen] at hok
    simp only [hlen, if_false] at hok
    cases hgeo : slot.geoReq with
    | none => simp [hgeo] at hok
    | some geo =>
      simp only [hgeo] at hok
      cases hseen : assoc expectedGeoSeen geo with
      | none => simp [hseen] at hok
      | some seen =>
        simp only [hseen] at hok
        cases hs : sortSlice providerScores with
        | nil => simp [hs] at hok
        | cons top rest =>
          simp only [hs] at hok
          rw [hs] at hperm hsorted
          have htop : ∀ x ∈ top :: rest, x.Score ≤ top.Score := by
            intro x hx
            rcases List.mem_cons.mp hx with rfl | hrest
            · exact le_refl _
            · exact (List.pairwise_cons.mp hsorted).1 x hrest
          have hsound := geoScoreLoop_sound geo top.Score (top :: rest) hok hsorted htop
          have htopmem : top ∈ providerScores := hperm.subset (List.mem_cons_self _ _)
          refine ⟨geo, rfl, by rw [hseen]; rfl, ?_, ?_⟩
          · intro p hp hgreatest
            have hp2 : p ∈ top :: rest := hperm.symm.subset hp
            exact hsound p hp2 (le_antisymm (htop p hp2) (hgreatest top htopmem))
          · refine ⟨top, htopmem, ?_, hsound top (List.mem_cons_self _ _) rfl⟩
            intro q hq
            exact htop q (hperm.symm.subset hq)

/-- C30 at concrete scores: the check passes for the slot of geolocation 2,
whose two providers hold the greatest score, and marks that geolocation; it
fails for the slot of geolocation 1. -/
theorem C30_geo_score_check_is_sound_witness :
    SortsByScore exampleSortSlice ∧
    verifyGeoScoreForTesting exampleSortSlice exampleGeoScores
      (some { Reqs := [ScoreReq.GeoReq 2] }) [(1, false), (2, false)] =
      { ok := true
        providerScores := exampleSortSlice exampleGeoScores
        expectedGeoSeen := [(1, false), (2, true)] } ∧
    (verifyGeoScoreForTesting exampleSortSlice exampleGeoScores
      (some { Reqs := [ScoreReq.GeoReq 1] }) [(1, false), (2, false)]).ok = false ∧
    ∃ geo, PairingSlot.geoReq { Reqs := [ScoreReq.GeoReq 2] } = some geo ∧
      (assoc [(1, false), (2, false)] geo).isSome = true ∧
      (∀ p ∈ exampleGeoScores, (∀ q ∈ exampleGeoScores, q.Score ≤ p.Score) →
        p.Provider.Geolocation = geo) ∧
      ∃ p ∈ exampleGeoScores, (∀ q ∈ exampleGeoScores, q.Score ≤ p.Score) ∧
        p.Provider.Geolocation = geo :=
  ⟨exampleSortSlice_sorts, rfl, rfl,
   (C30_geo_score_check_is_sound exampleSortSlice exampleGeoScores
      { Reqs := [ScoreReq.GeoReq 2] } [(1, false), (2, false)]).2.2.2.2
      exampleSortSlice_sorts rfl⟩

/-! ## The float64 arithmetic of the amounts -/

/-- With enough fuel, no bit is dropped from a number below `2 ^ 53`, and what
is left of a larger number has exactly 53 bits. -/
theorem dropBits_spec (fuel : Nat) :
    ∀ n, n < 2 ^ 53 * 2 ^ fuel →
      (n < 2 ^ 53 → dropBits fuel n = 0) ∧
      (2 ^ 53 ≤ n → 1 ≤ dropBits fuel n ∧ 2 ^ 52 ≤ n / 2 ^ dropBits fuel n ∧
        n / 2 ^ dropBits fuel n < 2 ^ 53) := by
  induction fuel with
  | zero =>
    intro n hn
    simp only [pow_zero, mul_one] at hn
    exact ⟨fun _ => rfl, fun h => absurd hn (Nat.not_lt.mpr h)⟩
  | succ fuel ih =>
    intro n hn
    constructor
    · intro h
      simp only [dropBits, h, if_true]
    · intro h
      have hnot : ¬ n < 2 ^ 53 := Nat.not_lt.mpr h
      simp only [dropBits, hnot, if_false]
      have hhalf : n / 2 < 2 ^ 53 * 2 ^ fuel := by
        rw [pow_succ] at hn
        omega
      obtain ⟨h0, h1⟩ := ih (n / 2) hhalf
      have hdiv : n / 2 ^ (dropBits fuel (n / 2) + 1) = n / 2 / 2 ^ dropBits fuel (n / 2) := by
        rw [pow_succ, Nat.mul_comm, Nat.div_div_eq_div_mul]
      rw [hdiv]
      by_cases hsmall : n / 2 < 2 ^ 53
      · rw [h0 hsmall]
        simp only [pow_zero, Nat.div_one]
        refine ⟨by omega, ?_, hsmall⟩
        have : (2 : Nat) ^ 53 = 2 * 2 ^ 52 := by norm_num
        omega
      · obtain ⟨_, h2, h3⟩ := h1 (Nat.not_lt.mp hsmall)
        exact ⟨by omega, h2, h3⟩

/-- The number itself is enough fuel. -/
theorem lt_pow_self_fuel (n : Nat) : n < 2 ^ 53 * 2 ^ n := by
  have h1 : n < 2 ^ n := Nat.lt_two_pow n
  have h2 : 2 ^ n ≤ 2 ^ 53 * 2 ^ n := Nat.le_mul_of_pos_left _ (by norm_num)
  omega

/-- The rounding, spelled out. -/
theorem roundSignificand_spec (n : Nat) :
    ∃ s q r, n = q * 2 ^ s + r ∧ r < 2 ^ s ∧
      (n < 2 ^ 53 → s = 0) ∧
      (2 ^ 53 ≤ n → 2 ^ 52 ≤ q ∧ q < 2 ^ 53) ∧
      roundSignificand n =
        if 2 * r < 2 ^ s ∨ (2 * r = 2 ^ s ∧ q % 2 = 0) then q * 2 ^ s else (q + 1) * 2 ^ s := by
  obtain ⟨h0, h1⟩ := dropBits_spec n n (lt_pow_self_fuel n)
  refine ⟨dropBits n n, n / 2 ^ dropBits n n, n % 2 ^ dropBits n n, ?_, ?_, h0, ?_, ?_⟩
  · rw [Nat.mul_comm]
    exact (Nat.div_add_mod n _).symm
  · exact Nat.mod_lt _ (by positivity)
  · intro h
    exact (h1 h).2
  · simp only [roundSignificand]
    by_cases ha : 2 * (n % 2 ^ dropBits n n) < 2 ^ dropBits n n
    · simp [ha]
    · by_cases hb : 2 * (n % 2 ^ dropBits n n) = 2 ^ dropBits n n ∧
          n / 2 ^ dropBits n n % 2 = 0
      · simp [ha, hb]
      · simp [ha, hb]

/-- Numbers below `2 ^ 53` are not rounded. -/
theorem roundSignificand_of_lt {n : Nat} (h : n < 2 ^ 53) : roundSignificand n = n := by
  obtain ⟨s, q, r, hn, hr, h0, _, hR⟩ := roundSignificand_spec n
  have hs := h0 h
  subst hs
  simp only [pow_zero, Nat.lt_one_iff] at hr
  subst hr
  simp only [pow_zero, mul_one, add_zero] at hn
  rw [hR]
  simp [hn]


/-- Rounding to 53 significant bits keeps the order. -/
theorem roundSignificand_mono {a b : Nat} (h : a ≤ b) :
    roundSignificand a ≤ roundSignificand b := by
  obtain ⟨sa, qa, ra, hna, hra, ha0, ha1, hRa⟩ := roundSignificand_spec a
  obtain ⟨sb, qb, rb, hnb, hrb, hb0, hb1, hRb⟩ := roundSignificand_spec b
  have hlowA : qa * 2 ^ sa ≤ roundSignificand a := by
    rw [hRa]
    split
    · exact le_refl _
    · exact Nat.mul_le_mul_right _ (Nat.le_succ qa)
  have hupA : roundSignificand a ≤ (qa + 1) * 2 ^ sa := by
    rw [hRa]
    split
    · exact Nat.mul_le_mul_right _ (Nat.le_succ qa)
    · exact le_refl _
  have hlowB : qb * 2 ^ sb ≤ roundSignificand b := by
    rw [hRb]
    split
    · exact le_refl _
    · exact Nat.mul_le_mul_right _ (Nat.le_succ qb)
  by_cases hbs : b < 2 ^ 53
  · rw [roundSignificand_of_lt hbs, roundSignificand_of_lt (lt_of_le_of_lt h hbs)]
    exact h
  have hb53 : 2 ^ 53 ≤ b := Nat.not_lt.mp hbs
  obtain ⟨hqb1, hqb2⟩ := hb1 hb53
  have hPb : 2 ≤ 2 ^ sb := by
    rcases Nat.eq_zero_or_pos sb with h0 | hpos
    · subst h0
      simp only [pow_zero, Nat.lt_one_iff] at hrb
      subst hrb
      simp only [pow_zero, mul_one, add_zero] at hnb
      omega
    · calc 2 = 2 ^ 1 := by norm_num
        _ ≤ 2 ^ sb := Nat.pow_le_pow_right (by norm_num) hpos
  have h53 : 2 ^ 53 ≤ qb * 2 ^ sb := by
    calc 2 ^ 53 = 2 ^ 52 * 2 := by norm_num
      _ ≤ qb * 2 ^ sb := Nat.mul_le_mul hqb1 hPb
  by_cases has : a < 2 ^ 53
  · rw [roundSignificand_of_lt has]
    omega
  have ha53 : 2 ^ 53 ≤ a := Nat.not_lt.mp has
  obtain ⟨hqa1, hqa2⟩ := ha1 ha53
  rcases Nat.lt_trichotomy sa sb with hlt | heq | hgt
  · have hpow : 2 * 2 ^ sa ≤ 2 ^ sb := by
      calc 2 * 2 ^ sa = 2 ^ (sa + 1) := by rw [pow_succ, Nat.mul_comm]
        _ ≤ 2 ^ sb := Nat.pow_le_pow_right (by norm_num) hlt
    calc roundSignificand a ≤ (qa + 1) * 2 ^ sa := hupA
      _ ≤ 2 ^ 53 * 2 ^ sa := Nat.mul_le_mul_right _ hqa2
      _ = 2 ^ 52 * (2 * 2 ^ sa) := by
        rw [← Nat.mul_assoc]
        norm_num
      _ ≤ 2 ^ 52 * 2 ^ sb := Nat.mul_le_mul_left _ hpow
      _ ≤ qb * 2 ^ sb := Nat.mul_le_mul_right _ hqb1
      _ ≤ roundSignificand b := hlowB
  · subst heq
    have hqle : qa ≤ qb := by
      by_contra hcon
      have hq : qb + 1 ≤ qa := by omega
      have h1 : (qb + 1) * 2 ^ sa ≤ qa * 2 ^ sa := Nat.mul_le_mul_right _ hq
      have h2 : (qb + 1) * 2 ^ sa = qb * 2 ^ sa + 2 ^ sa := by ring
      omega
    rcases Nat.lt_or_eq_of_le hqle with hqlt | hqeq
    · calc roundSignificand a ≤ (qa + 1) * 2 ^ sa := hupA
        _ ≤ qb * 2 ^ sa := Nat.mul_le_mul_right _ hqlt
        _ ≤ roundSignificand b := hlowB
    · subst hqeq
      have hr : ra ≤ rb := by omega
      rw [hRa, hRb]
      by_cases hca : 2 * ra < 2 ^ sa ∨ 2 * ra = 2 ^ sa ∧ qa % 2 = 0
      · rw [if_pos hca]
        split
        · exact le_refl _
        · exact Nat.mul_le_mul_right _ (Nat.le_succ qa)
      · rw [if_neg hca]
        have hcb : ¬(2 * rb < 2 ^ sa ∨ 2 * rb = 2 ^ sa ∧ qa % 2 = 0) := by
          intro hcb
          apply hca
          rcases hcb with hcb | ⟨hcb, heven⟩
          · left; omega
          · rcases Nat.lt_or_ge (2 * ra) (2 ^ sa) with hl | hg
            · left; exact hl
            · right; exact ⟨by omega, heven⟩
        rw [if_neg hcb]
  · exfalso
    have hpow : 2 * 2 ^ sb ≤ 2 ^ sa := by
      calc 2 * 2 ^ sb = 2 ^ (sb + 1) := by rw [pow_succ, Nat.mul_comm]
        _ ≤ 2 ^ sa := Nat.pow_le_pow_right (by norm_num) hgt
    have h1 : (qb + 1) * 2 ^ sb ≤ 2 ^ 53 * 2 ^ sb := Nat.mul_le_mul_right _ hqb2
    have h2 : 2 ^ 53 * 2 ^ sb = 2 ^ 52 * (2 * 2 ^ sb) := by
      rw [← Nat.mul_assoc]
      norm_num
    have h3 : 2 ^ 52 * (2 * 2 ^ sb) ≤ 2 ^ 52 * 2 ^ sa := Nat.mul_le_mul_left _ hpow
    have h4 : 2 ^ 52 * 2 ^ sa ≤ qa * 2 ^ sa := Nat.mul_le_mul_right _ hqa1
    have h5 : (qb + 1) * 2 ^ sb = qb * 2 ^ sb + 2 ^ sb := by ring
    omega

/-- At a fixed exponent the integer part grows with the significand. -/
theorem Float64.trunc_mono {m1 m2 : Nat} (e : Int) (h : m1 ≤ m2) :
    Float64.trunc { mant := m1, exp := e } ≤ Float64.trunc { mant := m2, exp := e } := by
  simp only [Float64.trunc]
  split
  · exact Nat.mul_le_mul_right _ h
  · exact Nat.div_le_div_right h

/-- The amount computed for `cu` is the integer part of the exact product
when the product of `cu` and the significand of the rate is below `2 ^ 53`. -/
theorem scaleFloat64_exact (overflow cu : Nat) (rate : Float64)
    (hsmall : cu * rate.mant < 2 ^ 53)
    (hfits : Float64.trunc { mant := cu * rate.mant, exp := rate.exp } < 2 ^ 64) :
    scaleFloat64 overflow cu rate =
      Float64.trunc { mant := cu * rate.mant, exp := rate.exp } := by
  have hprod : roundSignificand cu * rate.mant = cu * rate.mant := by
    rcases Nat.eq_zero_or_pos rate.mant with h0 | hpos
    · rw [h0, Nat.mul_zero, Nat.mul_zero]
    · have hcu : cu < 2 ^ 53 :=
        lt_of_le_of_lt (Nat.le_mul_of_pos_right cu hpos) hsmall
      rw [roundSignificand_of_lt hcu]
  have hmul : (Float64.ofUint64 cu).mul rate = { mant := cu * rate.mant, exp := rate.exp } := by
    simp only [Float64.mul, Float64.ofUint64, hprod, roundSignificand_of_lt hsmall, zero_add]
  simp only [scaleFloat64, hmul, Float64.toUint64, hfits, if_true]

/-- The amount computed grows with `cu`, as long as it fits in 64 bits. -/
theorem scaleFloat64_mono (overflow : Nat) {cu1 cu2 : Nat} (rate : Float64) (h : cu1 ≤ cu2)
    (hfits : ((Float64.ofUint64 cu2).mul rate).trunc < 2 ^ 64) :
    scaleFloat64 overflow cu1 rate ≤ scaleFloat64 overflow cu2 rate := by
  have hle : ((Float64.ofUint64 cu1).mul rate).trunc ≤ ((Float64.ofUint64 cu2).mul rate).trunc :=
    Float64.trunc_mono _ (roundSignificand_mono
      (Nat.mul_le_mul_right _ (roundSignificand_mono h)))
  have hfits1 : ((Float64.ofUint64 cu1).mul rate).trunc < 2 ^ 64 := lt_of_le_of_lt hle hfits
  simp only [scaleFloat64, Float64.toUint64, hfits, hfits1, if_true]
  exact hle

set_option maxRecDepth 100000 in
/-- C23, as stated, fails: a relay of `2 ^ 53 + 1` CU is accepted with a reward
rate of 2 and a burn rate of 1; `float64` rounds the CU to `2 ^ 53`, so that
`2 ^ 54` coins are minted and `2 ^ 53` are burned, not the integer parts
`2 ^ 54 + 2` and `2 ^ 53 + 1` of the products. -/
theorem C23_counterexample :
    memKeeper.MintCoinsPerCU memWhale = 2 ∧ memKeeper.GetCoinsPerCU memWhale = 1 ∧
    (RelayPayment memKeeper msgHuge memWhale).outcome = Outcome.response ∧
    (RelayPayment memKeeper msgHuge memWhale).trace.filter Call.isMint =
      [Call.MintCoins "pairing" [{ Denom := "stake", Amount := 18014398509481984 }]] ∧
    (RelayPayment memKeeper msgHuge memWhale).trace.filter Call.isBurn =
      [Call.BurnClientStake "ETH1" alice { Denom := "stake", Amount := 9007199254740992 }
        false] ∧
    9007199254740993 * 2 = 18014398509481986 ∧
    Float64.ofUint64 9007199254740993 = { mant := 9007199254740992, exp := 0 } :=
  ⟨rfl, rfl, rfl, rfl, rfl, rfl, rfl⟩

/-- C23, amended: with rates that are finite float64 and not negative, for a
relay that the batch reaches and that is accepted, the coins minted and sent
are `uint64(float64(CuSum) * MintCoinsPerCU)` and the coin burned from the
client is `uint64(float64(CuSum) * CoinsPerCU)`, in float64 arithmetic.  Such
an amount is the integer part of the exact product of the CU and the rate
whenever the CU times the significand of the rate is below `2 ^ 53` (for a
whole rate `n`: whenever `cu * n < 2 ^ 53`), and it does not decrease when the
CU grows at a fixed rate, as long as it fits in 64 bits. -/
theorem C23_amounts_are_float64_products (k : Keeper σ Stake Rate)
    (toFloat64 : Rate → Float64) (overflow : Nat)
    (hscale : ∀ cu rate, k.Scale cu rate = scaleFloat64 overflow cu (toFloat64 rate))
    (msg : MsgRelayPayment) (s0 : σ) (creator : AccAddress) (pre : List RelayRequest)
    (relay : RelayRequest) (post : List RelayRequest) (s : σ) (t : List Call)
    (client : AccAddress) (isOverlap : Bool) (total : Nat) (s1 : σ) (spec : Spec)
    (s2 s3 s4 : σ)
    (hreach : Reaches k msg s0 creator pre relay post s t)
    (hr : ReadyToBurn k creator relay s client isOverlap total s1 spec)
    (hburn : k.BurnClientStake s1 spec.Name client (burnAmountFor k s1 relay) false
      = ((true, none), s2))
    (hmint : k.MintCoins s2 k.ModuleName (rewardCoinsFor k s1 relay) = (none, s3))
    (hsend : k.SendCoinsFromModuleToAccount s3 k.ModuleName creator (rewardCoinsFor k s1 relay)
      = (none, s4)) :
    (relayPaymentBody k msg.Creator creator relay s).trace.filter Call.movesTokens =
      [Call.BurnClientStake spec.Name client
         { Amount := scaleFloat64 overflow relay.CuSum (toFloat64 (k.GetCoinsPerCU s1))
           Denom := "stake" } false,
       Call.MintCoins k.ModuleName
         [{ Denom := "stake"
            Amount := scaleFloat64 overflow relay.CuSum (toFloat64 (k.MintCoinsPerCU s1)) }],
       Call.SendCoinsFromModuleToAccount k.ModuleName creator
         [{ Denom := "stake"
            Amount := scaleFloat64 overflow relay.CuSum (toFloat64 (k.MintCoinsPerCU s1)) }]] ∧
    (∃ later, (RelayPayment k msg s0).trace =
      t ++ (relayPaymentBody k msg.Creator creator relay s).trace ++ later) ∧
    (∀ (cu : Nat) (rate : Float64), cu * rate.mant < 2 ^ 53 →
      Float64.trunc { mant := cu * rate.mant, exp := rate.exp } < 2 ^ 64 →
      scaleFloat64 overflow cu rate =
        Float64.trunc { mant := cu * rate.mant, exp := rate.exp }) ∧
    (∀ cu n : Nat, cu * n < 2 ^ 53 → n < 2 ^ 53 →
      scaleFloat64 overflow cu (Float64.ofUint64 n) = cu * n) ∧
    (∀ (cu1 cu2 : Nat) (rate : Float64), cu1 ≤ cu2 →
      ((Float64.ofUint64 cu2).mul rate).trunc < 2 ^ 64 →
      scaleFloat64 overflow cu1 rate ≤ scaleFloat64 overflow cu2 rate) := by
  have hb := body_paid (c := msg.Creator) hr hburn hmint hsend
  refine ⟨?_, RelayPayment_trace_of_reaches hreach, ?_, ?_, ?_⟩
  · rw [hb]
    simp [List.filter_cons, Call.movesTokens, Call.isBurn, Call.isMint, Call.isSend, addCall,
      burnCall, mintCall, sendCall, burnAmountFor, rewardCoinsFor, hscale]
  · intro cu rate hsmall hfits
    exact scaleFloat64_exact overflow cu rate hsmall hfits
  · intro cu n hsmall hn
    have hof : Float64.ofUint64 n = { mant := n, exp := 0 } := by
      simp only [Float64.ofUint64, roundSignificand_of_lt hn]
    have htrunc : Float64.trunc { mant := cu * n, exp := 0 } = cu * n := by
      simp [Float64.trunc]
    rw [hof, scaleFloat64_exact overflow cu _ hsmall (by
      rw [htrunc]
      exact lt_trans hsmall (by norm_num)), htrunc]
  · intro cu1 cu2 rate h hfits
    exact scaleFloat64_mono overflow rate h hfits

/-- C23, amended, at a concrete batch: 3 CU at the rates 2 and 1 mint 6 coins
and burn 3. -/
theorem C23_amounts_are_float64_products_witness :
    (∀ cu rate, memKeeper.Scale cu rate = scaleFloat64 (2 ^ 63) cu (Float64.ofUint64 rate)) ∧
    Reaches memKeeper msgPaid memInit bob [] (memRelay 3 7) [] memInit [] ∧
    ReadyToBurn memKeeper bob (memRelay 3 7) memInit alice false 3
      (memKeeper.AddEpochPayment memInit 20 alice bob 3 "7").2 { Name := "ETH1" } ∧
    (relayPaymentBody memKeeper "bob" bob (memRelay 3 7) memInit).trace.filter
        Call.movesTokens =
      [Call.BurnClientStake "ETH1" alice { Amount := 3, Denom := "stake" } false,
       Call.MintCoins "pairing" [{ Denom := "stake", Amount := 6 }],
       Call.SendCoinsFromModuleToAccount "pairing" bob [{ Denom := "stake", Amount := 6 }]] :=
  have hreach : Reaches memKeeper msgPaid memInit bob [] (memRelay 3 7) [] memInit [] :=
    ⟨rfl, rfl, rfl, rfl, rfl⟩
  have hr : ReadyToBurn memKeeper bob (memRelay 3 7) memInit alice false 3
      (memKeeper.AddEpochPayment memInit 20 alice bob 3 "7").2 { Name := "ETH1" } :=
    ⟨10, ⟨"alice", rfl, rfl, rfl, rfl, rfl⟩, rfl, rfl, by decide, rfl⟩
  ⟨fun _ _ => rfl, hreach, hr,
   (C23_amounts_are_float64_products memKeeper Float64.ofUint64 (2 ^ 63) (fun _ _ => rfl)
      msgPaid memInit bob [] (memRelay 3 7) [] memInit [] alice false 3
      (memKeeper.AddEpochPayment memInit 20 alice bob 3 "7").2 { Name := "ETH1" } _ _ _
      hreach hr rfl rfl rfl).1⟩

/-! ## A session is paid at most once -/

/-- Later states compose. -/
theorem LaterState.trans {k : Keeper σ Stake Rate} {s1 s2 s3 : σ}
    (h12 : LaterState k s1 s2) (h23 : LaterState k s2 s3) : LaterState k s1 s3 := by
  induction h23 with
  | same => exact h12
  | pass c cr relay _ ih => exact LaterState.pass c cr relay ih

/-- The state a loop ends in is a later state of the one it starts in. -/
theorem relayPaymentLoop_later (k : Keeper σ Stake Rate) (c : String) (cr : AccAddress)
    (rs : List RelayRequest) :
    ∀ (s0 : σ) (t0 : List Call), LaterState k s0 (relayPaymentLoop k c cr rs s0 t0).state := by
  induction rs with
  | nil => intro s0 t0; exact LaterState.same s0
  | cons r rs ih =>
    intro s0 t0
    have hstep : LaterState k s0 (relayPaymentBody k c cr r s0).state :=
      LaterState.pass c cr r (LaterState.same s0)
    simp only [relayPaymentLoop]
    cases hf : (relayPaymentBody k c cr r s0).flow with
    | next => exact LaterState.trans hstep (ih _ _)
    | fail e => exact hstep
    | panic m => exact hstep

/-- The state a call of the handler ends in is a later state of the one it
starts in. -/
theorem RelayPayment_later (k : Keeper σ Stake Rate) (msg : MsgRelayPayment) (s0 : σ) :
    LaterState k s0 (RelayPayment k msg s0).state := by
  simp only [RelayPayment]
  cases k.AccAddressFromBech32 msg.Creator with
  | error e => exact LaterState.same s0
  | ok creator => exact relayPaymentLoop_later k msg.Creator creator msg.Relays s0 []

/-- The state after each call of a sequence is a later state of the first. -/
theorem RelayPayments_later (k : Keeper σ Stake Rate) (msgs : List MsgRelayPayment) :
    ∀ (s0 : σ), ∀ r ∈ RelayPayments k msgs s0, LaterState k s0 r.state := by
  induction msgs with
  | nil => intro s0 r hr; simp [RelayPayments] at hr
  | cons m rest ih =>
    intro s0 r hr
    simp only [RelayPayments, List.mem_cons] at hr
    rcases hr with rfl | hr
    · exact RelayPayment_later k m s0
    · exact LaterState.trans (RelayPayment_later k m s0) (ih _ r hr)

/-- In the in-memory keeper, a pass of the loop body only adds to the payments. -/
theorem mem_body_payments_grow (c : String) (cr : AccAddress) (relay : RelayRequest)
    (s : MemState) :
    ∃ extra, (relayPaymentBody memKeeper c cr relay s).state.payments = s.payments ++ extra := by
  refine body_cases memKeeper c cr relay s
    (fun run => ∃ extra, run.state.payments = s.payments ++ extra) ?_ ?_
  · intro name attrs description
    exact ⟨[], by simp [errorLogAndFormat]⟩
  · intro client valid overlap stake hv
    cases hadd : memKeeper.AddEpochPayment s (epochStartFor memKeeper s relay overlap) client cr
        relay.CuSum (FormatUint16 relay.SessionId) with
    | mk added s1 =>
      cases added with
      | error e =>
        rw [body_add_error hv hadd]
        exact ⟨[], by simp [errorLogAndFormat, mem_add_error hadd]⟩
      | ok total =>
        rw [mem_body_payments hv hadd]
        exact ⟨_, by rw [(mem_add_ok hadd).1]⟩

/-- In the in-memory keeper, a recorded session stays recorded in every later state. -/
theorem mem_later_recorded {s s' : MemState} (h : LaterState memKeeper s s') (epoch : Nat)
    (client provider : AccAddress) (uid : String)
    (hrec : s.sessionRecorded epoch client provider uid = true) :
    s'.sessionRecorded epoch client provider uid = true := by
  induction h with
  | same => exact hrec
  | @pass s2 c cr relay _ ih =>
    obtain ⟨extra, hgrow⟩ := mem_body_payments_grow c cr relay s2
    have hrec2 := ih
    simp only [MemState.sessionRecorded] at hrec2 ⊢
    rw [hgrow, List.any_append, hrec2, Bool.true_or]

/-- C1, as stated, fails in its last part: the epoch payments are kept by
epoch, client, provider and session id, so two clients can each be paid for
the same session id in the same epoch.  In one batch, the relays of alice and
of dave, both of session 7 at block 25, are both recorded under epoch 20 and
identifier "7", and both are paid. -/
theorem C1_counterexample :
    (memRelay 3 7).SessionId = relayDave.SessionId ∧
    (RelayPayment memKeeper msgTwoClients memTwoClients).outcome = Outcome.response ∧
    (RelayPayment memKeeper msgTwoClients memTwoClients).trace.filter Call.isAddEpochPayment =
      [Call.AddEpochPayment 20 alice bob 3 "7", Call.AddEpochPayment 20 dave bob 3 "7"] ∧
    (RelayPayment memKeeper msgTwoClients memTwoClients).trace.filter Call.isMint =
      [Call.MintCoins "pairing" [{ Denom := "stake", Amount := 6 }],
       Call.MintCoins "pairing" [{ Denom := "stake", Amount := 6 }]] ∧
    (RelayPayment memKeeper msgTwoClients memTwoClients).trace.countP Call.isSend = 2 ∧
    (RelayPayment memKeeper msgTwoClients memTwoClients).trace.countP Call.isEvent = 2 :=
  ⟨rfl, rfl, rfl, rfl, rfl, rfl⟩

/-- C1, amended: when a relay that the batch reaches has passed the signature,
signer, spec and pairing-validation checks and `AddEpochPayment` returns an
error for it, the handler returns the error "double spending detected"; the
calls made for the relay are the refused epoch payment and the error log, so
no `BurnClientStake`, `MintCoins` or `SendCoinsFromModuleToAccount` is made
for it; and in any pass of the loop a burn, mint or transfer is made only
after `AddEpochPayment` has accepted the session of the relay.  Hence, with
the epoch payments of the specification, a given (epoch, client, provider,
session id) is paid at most once: once the epoch payment of a relay has been
accepted, every relay of the same client, provider, epoch and session id that
is gone through in a later state, in the same batch or in any later call, is
refused as a double spend and moves no tokens.  The later states include the
state in which any relay of a batch is reached and the state after each call
of any sequence of calls. -/
theorem C1_double_spend_rejected (k : Keeper σ Stake Rate) (msg : MsgRelayPayment)
    (s0 : σ) (creator : AccAddress) (pre : List RelayRequest) (relay : RelayRequest)
    (post : List RelayRequest) (s : σ) (t : List Call) (client : AccAddress)
    (isValidPairing isOverlap : Bool) (userStake : Stake) (err : String) (s1 : σ)
    (hreach : Reaches k msg s0 creator pre relay post s t)
    (hv : Validated k creator relay s client isValidPairing isOverlap userStake)
    (hadd : k.AddEpochPayment s (epochStartFor k s relay isOverlap) client creator relay.CuSum
      (FormatUint16 relay.SessionId) = (.error err, s1)) :
    RelayPayment k msg s0 =
      { state := s1
        trace := t ++
          [Call.AddEpochPayment (epochStartFor k s relay isOverlap) client creator relay.CuSum
            (FormatUint16 relay.SessionId),
           Call.LavaError "relay_proof_claim"
            [("session", FormatUint10 (epochStartFor k s relay isOverlap)),
             ("client", k.AddrString client), ("provider", k.AddrString creator),
             ("error", err), ("unique_ID", FormatUint16 relay.EpochId)]
            "double spending detected"]
        outcome := Outcome.error (Err.lava "relay_proof_claim"
          [("session", FormatUint10 (epochStartFor k s relay isOverlap)),
           ("client", k.AddrString client), ("provider", k.AddrString creator),
           ("error", err), ("unique_ID", FormatUint16 relay.EpochId)]
          "double spending detected") } ∧
    (RelayPayment k msg s0).outcome.description = some "double spending detected" ∧
    (∀ c ∈ (RelayPayment k msg s0).trace.drop t.length,
      c.isBurn = false ∧ c.isMint = false ∧ c.isSend = false) ∧
    (∀ (r : RelayRequest) (st : σ),
      (∃ x ∈ (relayPaymentBody k msg.Creator creator r st).trace, x.movesTokens = true) →
      ∃ payer overlap total,
        (k.AddEpochPayment st (epochStartFor k st r overlap) payer creator r.CuSum
          (FormatUint16 r.SessionId)).1 = .ok total ∧
        (relayPaymentBody k msg.Creator creator r st).trace.head? =
          some (Call.AddEpochPayment (epochStartFor k st r overlap) payer creator r.CuSum
            (FormatUint16 r.SessionId))) ∧
    (∀ (sA : MemState) (first : RelayRequest) (provider payer : AccAddress)
        (valid overlap : Bool) (limit total : Nat) (sA1 : MemState),
      Validated memKeeper provider first sA payer valid overlap limit →
      memKeeper.AddEpochPayment sA (epochStartFor memKeeper sA first overlap) payer provider
        first.CuSum (FormatUint16 first.SessionId) = (.ok total, sA1) →
      ∀ (c : String) (later : MemState),
        LaterState memKeeper (relayPaymentBody memKeeper c provider first sA).state later →
        ∀ (msg2 : MsgRelayPayment) (s2 : MemState) (pre2 : List RelayRequest)
          (second : RelayRequest) (post2 : List RelayRequest) (t2 : List Call)
          (valid2 overlap2 : Bool) (limit2 : Nat),
          Reaches memKeeper msg2 s2 provider pre2 second post2 later t2 →
          Validated memKeeper provider second later payer valid2 overlap2 limit2 →
          epochStartFor memKeeper later second overlap2 =
            epochStartFor memKeeper sA first overlap →
          second.SessionId = first.SessionId →
          (RelayPayment memKeeper msg2 s2).outcome.description =
            some "double spending detected" ∧
          (RelayPayment memKeeper msg2 s2).state = later ∧
          ∀ x ∈ (RelayPayment memKeeper msg2 s2).trace.drop t2.length,
            x.movesTokens = false) ∧
    (∀ (msgs : List MsgRelayPayment) (sA : MemState),
      ∀ r ∈ RelayPayments memKeeper msgs sA, LaterState memKeeper sA r.state) ∧
    (∀ (msg2 : MsgRelayPayment) (s2 : MemState) (creator2 : AccAddress)
        (pre2 : List RelayRequest) (relay2 : RelayRequest) (post2 : List RelayRequest)
        (later : MemState) (t2 : List Call),
      Reaches memKeeper msg2 s2 creator2 pre2 relay2 post2 later t2 →
      LaterState memKeeper s2 later) := by
  have h := RelayPayment_fail hreach (body_add_error (c := msg.Creator) hv hadd)
  simp only [List.append_assoc, List.singleton_append, addCall] at h
  refine ⟨h, ?_, ?_, ?_, ?_, ?_, ?_⟩
  · rw [h]; rfl
  · rw [h]
    simp [Call.isBurn, Call.isMint, Call.isSend]
  · intro r st hx
    exact body_pays_only_if_recorded k msg.Creator creator r st hx
  · intro sA first provider payer valid overlap limit total sA1 hvA haddA c later hlater
      msg2 s2 pre2 second post2 t2 valid2 overlap2 limit2 hreach2 hv2 hepoch hsession
    have hrecA : (relayPaymentBody memKeeper c provider first sA).state.sessionRecorded
        (epochStartFor memKeeper sA first overlap) payer provider
        (FormatUint16 first.SessionId) = true :=
      mem_session_recorded haddA (mem_body_payments hvA haddA)
    have hrec := mem_later_recorded hlater _ _ _ _ hrecA
    have hadd2 : memKeeper.AddEpochPayment later (epochStartFor memKeeper later second overlap2)
        payer provider second.CuSum (FormatUint16 second.SessionId) =
        (.error "session already recorded in this epoch", later) := by
      rw [hepoch, hsession]
      exact mem_add_recorded hrec
    have h2 := RelayPayment_fail hreach2 (body_add_error (c := msg2.Creator) hv2 hadd2)
    rw [h2]
    refine ⟨rfl, rfl, ?_⟩
    simp [Call.movesTokens, Call.isBurn, Call.isMint, Call.isSend, addCall]
  · intro msgs sA r hr
    exact RelayPayments_later memKeeper msgs sA r hr
  · intro msg2 s2 creator2 pre2 relay2 post2 later t2 hreach2
    obtain ⟨_, _, hs, _, _⟩ := hreach2
    rw [← hs]
    exact relayPaymentLoop_later memKeeper msg2.Creator creator2 pre2 s2 []

/-- C1, amended, at concrete batches: in one batch the second relay repeats
session 7 of the first; and after the batch that paid session 7, a second
call with the same relay is refused. -/
theorem C1_double_spend_rejected_witness :
    Reaches memKeeper { Creator := "bob", Relays := [memRelay 3 7, memRelay 4 7] } memInit bob
      [memRelay 3 7] (memRelay 4 7) [] memPaid.state memPaid.trace ∧
    Validated memKeeper bob (memRelay 4 7) memPaid.state alice true false 10 ∧
    memKeeper.AddEpochPayment memPaid.state
      (epochStartFor memKeeper memPaid.state (memRelay 4 7) false) alice bob 4 "7"
      = (.error "session already recorded in this epoch", memPaid.state) ∧
    (RelayPayment memKeeper { Creator := "bob", Relays := [memRelay 3 7, memRelay 4 7] }
      memInit).outcome.description = some "double spending detected" ∧
    (RelayPayment memKeeper msgPaid memInit).outcome = Outcome.response ∧
    (RelayPayment memKeeper msgPaid memPaid.state).outcome.description =
      some "double spending detected" ∧
    (RelayPayment memKeeper msgPaid memPaid.state).state = memPaid.state :=
  have hreach : Reaches memKeeper { Creator := "bob", Relays := [memRelay 3 7, memRelay 4 7] }
      memInit bob [memRelay 3 7] (memRelay 4 7) [] memPaid.state memPaid.trace :=
    ⟨rfl, rfl, rfl, rfl, rfl⟩
  have hv : Validated memKeeper bob (memRelay 4 7) memPaid.state alice true false 10 :=
    ⟨"alice", rfl, rfl, rfl, rfl, rfl⟩
  have h := C1_double_spend_rejected memKeeper
    { Creator := "bob", Relays := [memRelay 3 7, memRelay 4 7] } memInit bob
    [memRelay 3 7] (memRelay 4 7) [] memPaid.state memPaid.trace alice true false 10
    "session already recorded in this epoch" memPaid.state hreach hv rfl
  have hagain := h.2.2.2.2.1 memInit (memRelay 3 7) bob alice true false 10 3
    (memKeeper.AddEpochPayment memInit 20 alice bob 3 "7").2
    ⟨"alice", rfl, rfl, rfl, rfl, rfl⟩ rfl "bob" memPaid.state (LaterState.same _)
    msgPaid memPaid.state [] (memRelay 3 7) [] [] true false 10
    ⟨rfl, rfl, rfl, rfl, rfl⟩ ⟨"alice", rfl, rfl, rfl, rfl, rfl⟩ rfl rfl
  ⟨hreach, hv, rfl, h.2.1, rfl, hagain.1, hagain.2.1⟩

/-! ## Pairing: the order of the stake entries does not matter -/

/-- The byte-wise order is total. -/
theorem codesLE_total : ∀ a b : List Nat, codesLE a b = true ∨ codesLE b a = true
  | [], _ => Or.inl rfl
  | _ :: _, [] => Or.inr rfl
  | a :: as, b :: bs => by
    simp only [codesLE, Bool.or_eq_true, Bool.and_eq_true, decide_eq_true_eq]
    rcases Nat.lt_trichotomy a b with h | h | h
    · exact Or.inl (Or.inl h)
    · rcases codesLE_total as bs with h2 | h2
      · exact Or.inl (Or.inr ⟨h, h2⟩)
      · exact Or.inr (Or.inr ⟨h.symm, h2⟩)
    · exact Or.inr (Or.inl h)

/-- The byte-wise order is transitive. -/
theorem codesLE_trans : ∀ a b c : List Nat,
    codesLE a b = true → codesLE b c = true → codesLE a c = true
  | [], _, _, _, _ => rfl
  | _ :: _, [], _, h, _ => by simp [codesLE] at h
  | _ :: _, _ :: _, [], _, h => by simp [codesLE] at h
  | a :: as, b :: bs, c :: cs, h1, h2 => by
    simp only [codesLE, Bool.or_eq_true, Bool.and_eq_true, decide_eq_true_eq] at h1 h2 ⊢
    rcases h1 with h1 | ⟨h1, h1'⟩
    · rcases h2 with h2 | ⟨h2, _⟩
      · exact Or.inl (lt_trans h1 h2)
      · exact Or.inl (h2 ▸ h1)
    · rcases h2 with h2 | ⟨h2, h2'⟩
      · exact Or.inl (h1 ▸ h2)
      · exact Or.inr ⟨h1.trans h2, codesLE_trans as bs cs h1' h2'⟩

/-- The byte-wise order tells texts apart. -/
theorem codesLE_antisymm : ∀ a b : List Nat,
    codesLE a b = true → codesLE b a = true → a = b
  | [], [], _, _ => rfl
  | [], _ :: _, _, h => by simp [codesLE] at h
  | _ :: _, [], h, _ => by simp [codesLE] at h
  | a :: as, b :: bs, h1, h2 => by
    simp only [codesLE, Bool.or_eq_true, Bool.and_eq_true, decide_eq_true_eq] at h1 h2
    rcases h1 with h1 | ⟨h1, h1'⟩
    · rcases h2 with h2 | ⟨h2, _⟩
      · omega
      · omega
    · rcases h2 with h2 | ⟨_, h2'⟩
      · omega
      · rw [h1, codesLE_antisymm as bs h1' h2']

/-- Two addresses that the order does not tell apart are the same address. -/
theorem addressLE_antisymm {a b : String} (h1 : addressLE a b = true)
    (h2 : addressLE b a = true) : a = b := by
  have hcodes := codesLE_antisymm _ _ h1 h2
  have hdata : a.data = b.data :=
    List.map_injective_iff.mpr (fun x y hxy => Char.ext (UInt32.ext (by
      simpa [Char.toNat, UInt32.toNat] using hxy))) hcodes
  exact String.ext hdata

/-- Ordering the candidates of a draw by address gives the same list for the
same candidates in any order, when no two of them share an address. -/
theorem insertionSort_address_of_perm {l1 l2 : List PairingScore} (hperm : l1.Perm l2)
    (hnodup : (l1.map (fun ps => ps.Provider.Address)).Nodup) :
    l1.insertionSort (fun a b => addressLE a.Provider.Address b.Provider.Address = true) =
      l2.insertionSort (fun a b => addressLE a.Provider.Address b.Provider.Address = true) := by
  have hs1 := @List.sorted_insertionSort PairingScore
    (fun a b => addressLE a.Provider.Address b.Provider.Address = true) _
    ⟨fun a b => codesLE_total _ _⟩ ⟨fun a b c hab hbc => codesLE_trans _ _ _ hab hbc⟩ l1
  have hs2 := @List.sorted_insertionSort PairingScore
    (fun a b => addressLE a.Provider.Address b.Provider.Address = true) _
    ⟨fun a b => codesLE_total _ _⟩ ⟨fun a b c hab hbc => codesLE_trans _ _ _ hab hbc⟩ l2
  have hp1 := List.perm_insertionSort
    (fun a b : PairingScore => addressLE a.Provider.Address b.Provider.Address = true) l1
  have hp2 := List.perm_insertionSort
    (fun a b : PairingScore => addressLE a.Provider.Address b.Provider.Address = true) l2
  refine List.Perm.eq_of_sorted ?_ hs1 hs2 (hp1.trans (hperm.trans hp2.symm))
  intro a b ha hb hab hba
  have haddr := addressLE_antisymm hab hba
  exact List.inj_on_of_nodup_map hnodup (hp1.subset ha)
    (hperm.symm.subset (hp2.subset hb)) haddr

/-- The draw of a slot is the same for the same candidates in any order. -/
theorem drawProvider_of_perm {l1 l2 : List PairingScore} (hperm : l1.Perm l2)
    (hnodup : (l1.map (fun ps => ps.Provider.Address)).Nodup) (seed : Nat) :
    drawProvider l1 seed = drawProvider l2 seed := by
  simp only [drawProvider, insertionSort_address_of_perm hperm hnodup]

/-- The selector returns the same providers in the same order for the same
staked providers in any order, when no two of them share an address. -/
theorem selectProviders_of_perm (params : PairingParams) (epoch : Nat)
    (consumer chainID : String) {staked1 staked2 : List StakeEntry}
    (hperm : staked1.Perm staked2) (hnodup : (staked1.map StakeEntry.Address).Nodup)
    (slots : List PairingSlot) :
    ∀ (index : Nat) (chosen : List StakeEntry),
      selectProviders params epoch consumer chainID staked1 slots index chosen =
        selectProviders params epoch consumer chainID staked2 slots index chosen := by
  induction slots with
  | nil => intro index chosen; rfl
  | cons slot rest ih =>
    intro index chosen
    have hscores : ((CalcPairingScores params slot staked1).filter
        (fun ps => decide (ps.Provider.Address ∉ chosen.map StakeEntry.Address))).Perm
        ((CalcPairingScores params slot staked2).filter
        (fun ps => decide (ps.Provider.Address ∉ chosen.map StakeEntry.Address))) :=
      ((hperm.filter _).map _).filter _
    have hsub : (((CalcPairingScores params slot staked1).filter
        (fun ps => decide (ps.Provider.Address ∉ chosen.map StakeEntry.Address))).map
        (fun ps => ps.Provider.Address)).Sublist (staked1.map StakeEntry.Address) := by
      refine List.Sublist.trans (List.Sublist.map _ (List.filter_sublist _)) ?_
      simp only [CalcPairingScores, List.map_map]
      exact List.Sublist.map _ (List.filter_sublist _)
    have hdraw := drawProvider_of_perm hscores (List.Nodup.sublist hsub hnodup)
      (params.Seed epoch consumer chainID index)
    simp only [selectProviders, hdraw]
    split
    · exact ih _ _
    · exact ih _ _

/-- C17: the providers of the pairing depend on the block of the query through
its epoch only, and on the stake entries of the start of that epoch as a set
only.  At two blocks of the same epoch the pairing query returns the same
providers in the same order (or the same error); so it does on two stores that
agree on the start of the epoch and on what was staked and which policies held
as of that start, whatever else differs between them; and so it does when the
second store lists the same stake entries in another order, no two of them
with the same address: the selector orders the candidates of every draw by
address before it walks the weights. -/
theorem C17_pairing_fixed_within_epoch (params : PairingParams) (store : PairingStore)
    (chainID consumer : String) (block1 block2 : Nat)
    (hepoch : store.EpochStart block1 = store.EpochStart block2) :
    (GetPairing params store chainID consumer block1).map Pairing.Providers =
      (GetPairing params store chainID consumer block2).map Pairing.Providers ∧
    (GetPairing params store chainID consumer block1).map Pairing.Epoch =
      (GetPairing params store chainID consumer block2).map Pairing.Epoch ∧
    (∀ later : PairingStore,
      later.EpochStart block2 = store.EpochStart block1 →
      later.StakeSnapshot (store.EpochStart block1) chainID =
        store.StakeSnapshot (store.EpochStart block1) chainID →
      later.Policies (store.EpochStart block1) consumer =
        store.Policies (store.EpochStart block1) consumer →
      (GetPairing params later chainID consumer block2).map Pairing.Providers =
        (GetPairing params store chainID consumer block1).map Pairing.Providers) ∧
    (∀ later : PairingStore,
      later.EpochStart block2 = store.EpochStart block1 →
      (later.StakeSnapshot (store.EpochStart block1) chainID).Perm
        (store.StakeSnapshot (store.EpochStart block1) chainID) →
      ((store.StakeSnapshot (store.EpochStart block1) chainID).map StakeEntry.Address).Nodup →
      later.Policies (store.EpochStart block1) consumer =
        store.Policies (store.EpochStart block1) consumer →
      (GetPairing params later chainID consumer block2).map Pairing.Providers =
        (GetPairing params store chainID consumer block1).map Pairing.Providers) := by
  have key : ∀ (a b : PairingStore) (b1 b2 : Nat),
      b.EpochStart b2 = a.EpochStart b1 →
      (b.StakeSnapshot (a.EpochStart b1) chainID =
          a.StakeSnapshot (a.EpochStart b1) chainID ∨
        ((b.StakeSnapshot (a.EpochStart b1) chainID).Perm
            (a.StakeSnapshot (a.EpochStart b1) chainID) ∧
          ((a.StakeSnapshot (a.EpochStart b1) chainID).map StakeEntry.Address).Nodup)) →
      b.Policies (a.EpochStart b1) consumer = a.Policies (a.EpochStart b1) consumer →
      (GetPairing params b chainID consumer b2).map Pairing.Providers =
        (GetPairing params a chainID consumer b1).map Pairing.Providers ∧
      (GetPairing params b chainID consumer b2).map Pairing.Epoch =
        (GetPairing params a chainID consumer b1).map Pairing.Epoch := by
    intro a b b1 b2 he hs hp
    have hsel : ∀ slots,
        selectProviders params (a.EpochStart b1) consumer chainID
            (b.StakeSnapshot (a.EpochStart b1) chainID) slots 0 [] =
          selectProviders params (a.EpochStart b1) consumer chainID
            (a.StakeSnapshot (a.EpochStart b1) chainID) slots 0 [] := by
      intro slots
      rcases hs with hs | ⟨hperm, hnodup⟩
      · rw [hs]
      · exact (selectProviders_of_perm params _ consumer chainID hperm.symm hnodup
          slots 0 []).symm
    simp only [GetPairing, he, hp]
    cases a.Policies (a.EpochStart b1) consumer with
    | none => exact ⟨rfl, rfl⟩
    | some layers =>
      obtain ⟨plan, sub, proj⟩ := layers
      simp only
      cases CalcStrictestPolicy params.Geolocation_GL plan sub proj with
      | error e => exact ⟨rfl, rfl⟩
      | ok policy =>
        simp only [hsel]
        exact ⟨rfl, rfl⟩
  refine ⟨?_, ?_, ?_, ?_⟩
  · exact ((key store store block1 block2 hepoch.symm (Or.inl rfl) rfl).1).symm
  · exact ((key store store block1 block2 hepoch.symm (Or.inl rfl) rfl).2).symm
  · intro later he hs hp
    exact (key store later block1 block2 he (Or.inl hs) hp).1
  · intro later he hperm hnodup hp
    exact (key store later block1 block2 he (Or.inr ⟨hperm, hnodup⟩) hp).1

/-- C17 at concrete queries: blocks 25 and 33 are in the epoch that starts at
block 20; the pairing of carol is the same at both, the blocks left until the
next pairing are not; a store that lists the five staked providers in the
opposite order gives the same pairing at block 33, in the same order, while
the walk of the weights taken alone depends on the order of its candidates;
at block 45, in the next epoch, the pairing is another one. -/
theorem C17_pairing_fixed_within_epoch_witness :
    exampleStore.EpochStart 25 = exampleStore.EpochStart 33 ∧
    (GetPairing exampleParams exampleStore "ETH1" "carol" 25).map Pairing.Providers =
      (GetPairing exampleParams exampleStore "ETH1" "carol" 33).map Pairing.Providers ∧
    (GetPairing exampleParams exampleStore "ETH1" "carol" 25).map
      Pairing.BlocksToNextPairing = .ok 15 ∧
    (GetPairing exampleParams exampleStore "ETH1" "carol" 33).map
      Pairing.BlocksToNextPairing = .ok 7 ∧
    exampleReversedStore.StakeSnapshot 20 "ETH1" ≠ exampleStore.StakeSnapshot 20 "ETH1" ∧
    (GetPairing exampleParams exampleReversedStore "ETH1" "carol" 33).map Pairing.Providers =
      (GetPairing exampleParams exampleStore "ETH1" "carol" 25).map Pairing.Providers ∧
    (GetPairing exampleParams exampleReversedStore "ETH1" "carol" 33).map
      (fun p => p.Providers.map StakeEntry.Address) = .ok ["p3", "p5", "p1", "p2", "p4"] ∧
    (pickByWeight (exampleProviders.map (fun p => { Provider := p, Score := p.Stake })) 150).map
      StakeEntry.Address = some "p2" ∧
    (pickByWeight (exampleProviders.reverse.map (fun p => { Provider := p, Score := p.Stake }))
      150).map StakeEntry.Address = some "p4" ∧
    (GetPairing exampleParams exampleStore "ETH1" "carol" 45).map
      (fun p => p.Providers.map StakeEntry.Address) = .ok ["p4", "p2", "p5", "p3", "p1"] :=
  ⟨rfl, (C17_pairing_fixed_within_epoch exampleParams exampleStore "ETH1" "carol" 25 33 rfl).1,
   rfl, rfl, by decide,
   (C17_pairing_fixed_within_epoch exampleParams exampleStore "ETH1" "carol" 25 33 rfl).2.2.2
     exampleReversedStore rfl (List.reverse_perm _) (by decide) rfl,
   rfl, rfl, rfl, rfl⟩

end Lava
